import Mathlib

/-!
MaaFramework: asynchronous runner and controller.

A shallow embedding of `source/MaaFramework/Base/AsyncRunner.hpp` and
`source/MaaFramework/Controller/ControllerMgr.cpp`, with the properties of
the runner's status and cursor protocol, of the controller's notifications
and of its coordinate handling.

Conventions.
* `AsyncRunner::Id`, an `int64_t`, is `Int`; the two's complement wrap of the
  atomic increment is explicit (`wrap_int64`).
* `std::map<Id, MaaStatus>` is a partial function `Int → Option MaaStatus`,
  `std::set<Id>` a list without repetition.
* The runner is modelled at two grains. At the grain of lock scopes (`Op`,
  `Sched`) every stretch of code under one mutex is a step: the locked part
  of `post`, the five stretches of the worker's iteration, the three scopes
  of `clear()`. At the grain of calls (`Ev`, `Proc`) a public method is one
  step and the worker's iteration is two, split at the call of `process_`:
  `working_pick` and `working_finish`; these are the runs of lock scopes in
  which the scopes of one step follow each other (`Sched.run_events`).
* The members of the controller that `set_option` and the worker both write
  are not locked; a run of the controller is made of steps that do not
  overlap and of Screencap dispatches overtaken by `set_option` calls between
  the two assignments of the target size (`CtrlStep.dispatch_cut`).
* A `post_*` method of the controller is two transitions, the post of the
  job and the recording of its id, between which the worker may run.
* `double` is binary64 with round-to-nearest-even, modelled exactly (`F64`).
* A `static_cast<int>` out of range is undefined: the functions that contain
  one return an `Option`.
* The device driver is external: its answers are an input of each transition.
* A call of `process_` ends by returning a `bool` or by raising (`Outcome`).
* The loop counter of `swipe` is an `int`; its overflow is undefined and
  explicit (`LoopFault`). The spline and the interpolation that `swipe` calls
  are not among the sources and are parameters (`SwipeMath`).
-/

namespace Maa

/-! ## AsyncRunner.hpp -/

/-- Two's complement reduction of an integer to the `int64_t` range. -/
def wrap_int64 (z : Int) : Int := (z + 2 ^ 63) % 2 ^ 64 - 2 ^ 63

/-- Modelled from the spec: the constant `MaaInvalidId` of `MaaDef.h`; id 0 is
reserved as invalid. -/
def MaaInvalidId : Int := 0

/-- The values of `MaaStatus`. -/
inductive MaaStatus where
  | Invalid
  | Pending
  | Running
  | Success
  | Failed
  deriving DecidableEq, Repr

/-- The data members of `AsyncRunner<Item>` (the mutexes and condition
variables carry no data). `working_on` holds the locals `id, item` of
`working()` while the worker is inside `process_`. -/
structure AsyncRunner (Item : Type) where
  queue_ : List (Int × Item)
  running_ : Bool
  status_map_ : Int → Option MaaStatus
  compl_id_ : Int
  exit_ : Bool
  working_on : Option (Int × Item)

namespace AsyncRunner

variable {Item : Type}

/-- A freshly constructed runner: the in-class initialisers of the members. -/
def init : AsyncRunner Item :=
  { queue_ := [], running_ := false, status_map_ := fun _ => none,
    compl_id_ := 0, exit_ := false, working_on := none }

/-- The assignment `status_map_[id] = st`. -/
def assign (m : Int → Option MaaStatus) (id : Int) (st : MaaStatus) : Int → Option MaaStatus :=
  fun j => if j = id then some st else m j

/-- The call `status_map_.emplace(id, st)`: no effect when the key is present. -/
def emplace (m : Int → Option MaaStatus) (id : Int) (st : MaaStatus) : Int → Option MaaStatus :=
  fun j => if j = id then (match m j with
    | some old => some old
    | none => some st) else m j

/-- The body of `post` up to the `if (block)`: takes the process-wide counter
`cross`, returns the new counter, the id and the runner. -/
def post (cross : Int) (r : AsyncRunner Item) (item : Item) : Int × Int × AsyncRunner Item :=
  let id := wrap_int64 (cross + 1)
  (id, id, { r with
    queue_ := r.queue_ ++ [(id, item)],
    status_map_ := emplace r.status_map_ id MaaStatus.Pending,
    running_ := true })

/-- The loop of `wait(id)` is left exactly when `exit_` is set or
`id <= compl_id_`. -/
def wait_returns (r : AsyncRunner Item) (id : Int) : Bool :=
  r.exit_ || decide (id ≤ r.compl_id_)

/-- The call `post(item, block)` has returned `id`: at once when `block` is
false, when `wait(id)` returns otherwise. -/
def post_returns (r : AsyncRunner Item) (id : Int) (block : Bool) : Bool :=
  !block || r.wait_returns id

/-- The member function `status(id)`. -/
def status (r : AsyncRunner Item) (id : Int) : MaaStatus :=
  match r.status_map_ id with
  | none => MaaStatus.Invalid
  | some st => st

/-- One iteration of the loop of `working()` up to the call of `process_`:
nothing when `exit_` is set or the worker is inside `process_`; on an empty
queue `running_` is reset; otherwise the head is popped and marked Running. -/
def working_pick (r : AsyncRunner Item) : AsyncRunner Item :=
  if r.exit_ then r
  else match r.working_on with
    | some _ => r
    | none =>
      match r.queue_ with
      | [] => { r with running_ := false }
      | (id, item) :: rest =>
        { r with
          running_ := true,
          queue_ := rest,
          status_map_ := assign r.status_map_ id MaaStatus.Running,
          working_on := some (id, item) }

/-- The rest of the iteration, from the return of `process_` with `ret`: the
status is set from `ret`, then `compl_id_ = id`. -/
def working_finish (r : AsyncRunner Item) (ret : Bool) : AsyncRunner Item :=
  match r.working_on with
  | none => r
  | some (id, _) =>
    { r with
      status_map_ := assign r.status_map_ id (if ret then MaaStatus.Success else MaaStatus.Failed),
      compl_id_ := id,
      working_on := none }

/-- The first lock scope of `clear()`, under `mutex_`: `queue_ = {}`. -/
def clear_queue (r : AsyncRunner Item) : AsyncRunner Item :=
  { r with queue_ := [] }

/-- The second lock scope of `clear()`, under `compl_mutex_`:
`compl_id_ = cross_inst_id_`, with `cross` the value of the counter it reads. -/
def clear_cursor (cross : Int) (r : AsyncRunner Item) : AsyncRunner Item :=
  { r with compl_id_ := cross }

/-- The third lock scope of `clear()`, under `status_mutex_`:
`status_map_.clear()`. -/
def clear_status (r : AsyncRunner Item) : AsyncRunner Item :=
  { r with status_map_ := fun _ => none }

/-- The member function `clear()` when nothing runs between its three lock
scopes, with `cross` the value of the counter it reads. -/
def clear (cross : Int) (r : AsyncRunner Item) : AsyncRunner Item :=
  (r.clear_queue.clear_cursor cross).clear_status

/-- The member function `release()`: sets `exit_` (the join then waits for the
worker to leave its loop). -/
def release (r : AsyncRunner Item) : AsyncRunner Item :=
  { r with exit_ := true }

/-- The ids of the queued jobs, in queue order. -/
def queued_ids (r : AsyncRunner Item) : List Int := r.queue_.map Prod.fst

end AsyncRunner

/-- A process: the static counter `cross_inst_id_`, shared by all runners of
one instantiation `AsyncRunner<Item>` (it is a static member of the class
template), and the runner instances of that instantiation by number. -/
structure Proc (Item : Type) where
  cross_inst_id_ : Int
  inst : Nat → AsyncRunner Item

/-- The steps of a process: a method call on, or a worker transition of,
runner number `k`. -/
inductive Ev (Item : Type) where
  | post (k : Nat) (item : Item) (block : Bool)
  | pick (k : Nat)
  | finish (k : Nat) (ret : Bool)
  | clear (k : Nat)
  | release (k : Nat)

namespace Proc

variable {Item : Type}

/-- Process start: counter 0, every runner as constructed. -/
def init : Proc Item := { cross_inst_id_ := 0, inst := fun _ => AsyncRunner.init }

/-- Replace runner `k`. -/
def set_inst (p : Proc Item) (k : Nat) (r : AsyncRunner Item) : Nat → AsyncRunner Item :=
  fun j => if j = k then r else p.inst j

/-- One step of the process. -/
def step (p : Proc Item) : Ev Item → Proc Item
  | Ev.post k item _ =>
    let res := (p.inst k).post p.cross_inst_id_ item
    { cross_inst_id_ := res.1, inst := p.set_inst k res.2.2 }
  | Ev.pick k => { p with inst := p.set_inst k (p.inst k).working_pick }
  | Ev.finish k ret => { p with inst := p.set_inst k ((p.inst k).working_finish ret) }
  | Ev.clear k => { p with inst := p.set_inst k ((p.inst k).clear p.cross_inst_id_) }
  | Ev.release k => { p with inst := p.set_inst k (p.inst k).release }

/-- Run a sequence of steps. -/
def run (p : Proc Item) (evs : List (Ev Item)) : Proc Item := evs.foldl step p

/-- The id a step returns to its caller: only `post` returns one. -/
def returned_id (p : Proc Item) : Ev Item → Option (Nat × Int)
  | Ev.post k item _ => some (k, ((p.inst k).post p.cross_inst_id_ item).2.1)
  | _ => none

/-- The ids returned by the posts of a run, with the runner that issued each,
in the order the posts took the counter. -/
def issued : Proc Item → List (Ev Item) → List (Nat × Int)
  | _, [] => []
  | p, e :: evs =>
    match p.returned_id e with
    | some ki => ki :: issued (p.step e) evs
    | none => issued (p.step e) evs

end Proc

/-- The number of `post` steps in a run. -/
def count_posts {Item : Type} : List (Ev Item) → Nat
  | [] => 0
  | Ev.post _ _ _ :: evs => count_posts evs + 1
  | _ :: evs => count_posts evs


/-! ## Binary64 arithmetic

The `double` computations of `ControllerMgr.cpp` take `int` operands, divide
or multiply them and round the result. They are modelled exactly: a finite
binary64 value is `mant * 2 ^ exp`, and every operation rounds the exact
rational result to 53 significant bits, ties to even. The exponent range is
not modelled (operands come from 32-bit integers, far from overflow and
underflow), and division by zero, which both callers exclude by a test on
the divisor, is left at 0. -/

/-- A finite binary64 value, `mant * 2 ^ exp`. -/
structure F64 where
  mant : Int
  exp : Int
  deriving Repr

/-- Floor of the binary logarithm, by halving at most `fuel` times. -/
def ilog2_aux : Nat → Nat → Nat
  | 0, _ => 0
  | fuel + 1, n => if n < 2 then 0 else ilog2_aux fuel (n / 2) + 1

/-- Floor of the binary logarithm of a positive number. -/
def ilog2 (n : Nat) : Nat := ilog2_aux n n

namespace F64

/-- The conversion `static_cast<double>(n)` of an `int`: exact. -/
def ofInt (n : Int) : F64 := ⟨n, 0⟩

/-- Numerator of the value as a fraction. -/
def num (x : F64) : Int := x.mant * ((2 ^ x.exp.toNat : Nat) : Int)

/-- Denominator of the value as a fraction. -/
def den (x : F64) : Nat := 2 ^ (-x.exp).toNat

/-- The value as a rational number. -/
def toRat (x : F64) : ℚ := (x.num : ℚ) / (x.den : ℚ)

/-- Rounding of the positive fraction `a / d` to 53 significant bits, ties to
even: the mantissa, between 2^52 and 2^53, and the exponent. -/
def round_ne_pos (a d : Nat) : Nat × Int :=
  let e0 : Int := (ilog2 a : Int) - (ilog2 d : Int) - 53
  let n := a * 2 ^ (-e0).toNat
  let d0 := d * 2 ^ e0.toNat
  let e := if 2 ^ 53 * d0 ≤ n then e0 + 1 else e0
  let d1 := if 2 ^ 53 * d0 ≤ n then 2 * d0 else d0
  let q := n / d1
  let r := n % d1
  let m := if 2 * r < d1 then q else if d1 < 2 * r then q + 1 else if q % 2 = 0 then q else q + 1
  (m, e)

/-- Rounding of the fraction `n / d` to the nearest binary64 value, ties to even. -/
def round_ne (n : Int) (d : Nat) : F64 :=
  if n = 0 ∨ d = 0 then ⟨0, 0⟩
  else ⟨n.sign * ((round_ne_pos n.natAbs d).1 : Int), (round_ne_pos n.natAbs d).2⟩

/-- The binary64 quotient `x / y`. -/
def div (x y : F64) : F64 := round_ne (x.num * y.den * y.num.sign) (x.den * y.num.natAbs)

/-- The binary64 product `x * y`. -/
def mul (x y : F64) : F64 := round_ne (x.num * y.num) (x.den * y.den)

end F64

/-- The fraction `n / d` rounded to the nearest integer, halves away from zero. -/
def round_half_away (n : Int) (d : Nat) : Int :=
  n.sign * (((2 * n.natAbs + d) / (2 * d) : Nat) : Int)

/-- The function `std::round` on a binary64 value (the result is integral). -/
def std_round (x : F64) : Int := round_half_away x.num x.den

/-- The conversion `static_cast<int>` of an integral `double`: undefined
outside the range of `int`. -/
def to_int32 (z : Int) : Option Int :=
  if -2 ^ 31 ≤ z ∧ z < 2 ^ 31 then some z else none

/-! ## ControllerMgr.cpp -/

/-- A `cv::Mat`, reduced to its size. -/
structure Mat where
  cols : Nat
  rows : Nat
  deriving DecidableEq, Repr

/-- The member function `cv::Mat::empty()`. -/
def Mat.empty (m : Mat) : Bool := m.cols == 0 || m.rows == 0

/-- Modelled from the spec: `cv::resize(raw, image_, {w, h})` is OpenCV code;
the image is resized to `(target_w, target_h)` and may come out empty. -/
def cv_resize (_raw : Mat) (w h : Int) : Mat := ⟨w.toNat, h.toNat⟩

/-- The struct `SwipeParam::Step`. -/
structure SwipeStep where
  x : Int
  y : Int
  delay : Int
  deriving DecidableEq, Repr

/-- The struct `Action`: the type tag with the parameter it carries. -/
inductive Action where
  | connect
  | click (x y : Int)
  | swipe (steps : List SwipeStep)
  | press_key (keycode : Int)
  | screencap
  | start_app (package : String)
  | stop_app (package : String)
  deriving DecidableEq, Repr

/-- The notification messages of `MaaMsg.h` used by `run_action`. -/
inductive MaaMsg where
  | Controller_Action_Started
  | Controller_Action_Completed
  | Controller_Action_Failed
  deriving DecidableEq, Repr

/-- A call made by the controller on its notifier or on the device driver. -/
inductive Call where
  | notify (msg : MaaMsg) (id : Int)
  | connect
  | click (x y : Int)
  | swipe (steps : List SwipeStep)
  | press_key (keycode : Int)
  | screencap
  | start_app (package : String)
  | stop_app (package : String)
  deriving DecidableEq, Repr

/-- The answers of the device driver (the pure virtual `_connect`,
`_screencap`, `_start_app`, `_stop_app`, `_get_resolution`) during one call
of the controller. -/
structure Driver where
  connect : Bool
  screencap : Mat
  start_app : String → Bool
  stop_app : String → Bool
  resolution : Int × Int

/-- The keys of `MaaCtrlOption`; `other` stands for any value `set_option`
does not know. -/
inductive MaaCtrlOption where
  | ScreenshotTargetLongSide
  | ScreenshotTargetShortSide
  | DefaultAppPackageEntry
  | DefaultAppPackage
  | other (key : Int)
  deriving DecidableEq, Repr

/-- What the pointer `MaaOptionValue` addresses: read as an `int`, and read as
`val_size` characters. -/
structure MaaOptionValue where
  as_int : Int
  as_chars : Nat → String

/-- The data members of `ControllerMgr`; `calls` records, oldest first, the
calls made on the notifier and on the driver. -/
structure ControllerMgr where
  connected_ : Bool
  image_ : Mat
  image_target_long_side_ : Int
  image_target_short_side_ : Int
  image_target_width_ : Int
  image_target_height_ : Int
  default_app_package_entry_ : String
  default_app_package_ : String
  post_ids_ : List Int
  action_runner_ : AsyncRunner Action
  calls : List Call

namespace ControllerMgr

/-- Modelled from the spec: the initial values of the members declared in
`ControllerMgr.h` (not connected, empty image, all sides 0, no package). -/
def init : ControllerMgr :=
  { connected_ := false, image_ := ⟨0, 0⟩,
    image_target_long_side_ := 0, image_target_short_side_ := 0,
    image_target_width_ := 0, image_target_height_ := 0,
    default_app_package_entry_ := "", default_app_package_ := "",
    post_ids_ := [], action_runner_ := AsyncRunner.init, calls := [] }

/-- The member function `clear_target_image_size`. -/
def clear_target_image_size (m : ControllerMgr) : ControllerMgr :=
  { m with image_target_width_ := 0, image_target_height_ := 0 }

/-- The member function `set_image_target_long_side`; `sizeof(int)` is 4. -/
def set_image_target_long_side (m : ControllerMgr) (value : MaaOptionValue) (val_size : Nat) :
    Bool × ControllerMgr :=
  if val_size ≠ 4 then (false, m)
  else (true, clear_target_image_size
    { m with image_target_long_side_ := value.as_int, image_target_short_side_ := 0 })

/-- The member function `set_image_target_short_side`. -/
def set_image_target_short_side (m : ControllerMgr) (value : MaaOptionValue) (val_size : Nat) :
    Bool × ControllerMgr :=
  if val_size ≠ 4 then (false, m)
  else (true, clear_target_image_size
    { m with image_target_long_side_ := 0, image_target_short_side_ := value.as_int })

/-- The member function `set_default_app_package_entry`. -/
def set_default_app_package_entry (m : ControllerMgr) (value : MaaOptionValue)
    (val_size : Nat) : Bool × ControllerMgr :=
  (true, { m with default_app_package_entry_ := value.as_chars val_size })

/-- The member function `set_default_app_package`. -/
def set_default_app_package (m : ControllerMgr) (value : MaaOptionValue) (val_size : Nat) :
    Bool × ControllerMgr :=
  (true, { m with default_app_package_ := value.as_chars val_size })

/-- The member function `set_option` (a reserved word here, hence `set_opt`). -/
def set_opt (m : ControllerMgr) (key : MaaCtrlOption) (value : MaaOptionValue)
    (val_size : Nat) : Bool × ControllerMgr :=
  match key with
  | MaaCtrlOption.ScreenshotTargetLongSide => m.set_image_target_long_side value val_size
  | MaaCtrlOption.ScreenshotTargetShortSide => m.set_image_target_short_side value val_size
  | MaaCtrlOption.DefaultAppPackageEntry => m.set_default_app_package_entry value val_size
  | MaaCtrlOption.DefaultAppPackage => m.set_default_app_package value val_size
  | MaaCtrlOption.other _ => (false, m)

/-- The member function `preproc_touch_coord`, with `res` the answer of
`_get_resolution()`; `none` when a `static_cast<int>` is out of range. -/
def preproc_touch_coord (m : ControllerMgr) (res : Int × Int) (x y : Int) : Option (Int × Int) :=
  if m.image_target_width_ = 0 ∨ m.image_target_height_ = 0 then some (0, 0)
  else
    let scale_width := F64.div (F64.ofInt res.1) (F64.ofInt m.image_target_width_)
    let scale_height := F64.div (F64.ofInt res.2) (F64.ofInt m.image_target_height_)
    match to_int32 (std_round (F64.mul (F64.ofInt x) scale_width)),
        to_int32 (std_round (F64.mul (F64.ofInt y) scale_height)) with
    | some proced_x, some proced_y => some (proced_x, proced_y)
    | _, _ => none

/-- The member function `check_and_calc_target_image_size`; `none` when a
`static_cast<int>` is out of range. -/
def check_and_calc_target_image_size (m : ControllerMgr) (raw : Mat) :
    Option (Bool × ControllerMgr) :=
  if m.image_target_width_ ≠ 0 ∧ m.image_target_height_ ≠ 0 then some (true, m)
  else if m.image_target_long_side_ = 0 ∧ m.image_target_short_side_ = 0 then some (false, m)
  else
    let cur_width : Int := raw.cols
    let cur_height : Int := raw.rows
    let scale := F64.div (F64.ofInt cur_width) (F64.ofInt cur_height)
    if m.image_target_short_side_ ≠ 0 then
      if cur_width > cur_height then
        match to_int32 (std_round (F64.mul (F64.ofInt m.image_target_short_side_) scale)) with
        | some w => some (true, { m with
            image_target_width_ := w, image_target_height_ := m.image_target_short_side_ })
        | none => none
      else
        match to_int32 (std_round (F64.div (F64.ofInt m.image_target_short_side_) scale)) with
        | some h => some (true, { m with
            image_target_width_ := m.image_target_short_side_, image_target_height_ := h })
        | none => none
    else
      if cur_width > cur_height then
        match to_int32 (std_round (F64.div (F64.ofInt m.image_target_long_side_) scale)) with
        | some h => some (true, { m with
            image_target_width_ := m.image_target_long_side_, image_target_height_ := h })
        | none => none
      else
        match to_int32 (std_round (F64.mul (F64.ofInt m.image_target_long_side_) scale)) with
        | some w => some (true, { m with
            image_target_width_ := w, image_target_height_ := m.image_target_long_side_ })
        | none => none

/-- The member function `postproc_screenshot`. -/
def postproc_screenshot (m : ControllerMgr) (raw : Mat) : Option (Bool × ControllerMgr) :=
  if raw.empty then some (false, m)
  else
    match m.check_and_calc_target_image_size raw with
    | none => none
    | some (false, m1) => some (false, m1)
    | some (true, m1) =>
      let img := cv_resize raw m1.image_target_width_ m1.image_target_height_
      some (!img.empty, { m1 with image_ := img })

/-- Append calls to the record of notifier and driver calls. -/
def called (m : ControllerMgr) (cs : List Call) : ControllerMgr :=
  { m with calls := m.calls ++ cs }

/-- The `switch` of `run_action`: the driver operation of the action, its
result and its effect on the members. -/
def perform (m : ControllerMgr) (drv : Driver) : Action → Option (Bool × ControllerMgr)
  | Action.connect =>
    some (drv.connect, { (m.called [Call.connect]) with connected_ := drv.connect })
  | Action.click x y => some (true, m.called [Call.click x y])
  | Action.swipe steps => some (true, m.called [Call.swipe steps])
  | Action.press_key keycode => some (true, m.called [Call.press_key keycode])
  | Action.screencap => (m.called [Call.screencap]).postproc_screenshot drv.screencap
  | Action.start_app package =>
    some (drv.start_app package, (m.called [Call.start_app package]).clear_target_image_size)
  | Action.stop_app package =>
    some (drv.stop_app package, (m.called [Call.stop_app package]).clear_target_image_size)

/-- The member function `run_action`: `notify` is whether `id` was erased from
`post_ids_`; the notifications go around the driver operation. -/
def run_action (m : ControllerMgr) (drv : Driver) (id : Int) (action : Action) :
    Option (Bool × ControllerMgr) :=
  let notify := decide (id ∈ m.post_ids_)
  let m1 := { m with post_ids_ := m.post_ids_.erase id }
  let m2 := if notify then m1.called [Call.notify MaaMsg.Controller_Action_Started id] else m1
  match m2.perform drv action with
  | none => none
  | some (ret, m3) =>
    some (ret, if notify then
      m3.called [Call.notify
        (if ret then MaaMsg.Controller_Action_Completed else MaaMsg.Controller_Action_Failed) id]
      else m3)

end ControllerMgr

/-- A controller in its process: the static counter of `AsyncRunner` and the
controller (which owns its runner). -/
structure Sys where
  cross_inst_id_ : Int
  mgr : ControllerMgr

namespace Sys

/-- Process start with one freshly constructed controller. -/
def init : Sys := { cross_inst_id_ := 0, mgr := ControllerMgr.init }

/-- The call `action_runner_->post(action)`: the id and the new state. -/
def post (s : Sys) (action : Action) : Int × Sys :=
  let res := s.mgr.action_runner_.post s.cross_inst_id_ action
  (res.2.1, { cross_inst_id_ := res.1, mgr := { s.mgr with action_runner_ := res.2.2 } })

/-- The last two statements of every `post_*`: under `post_ids_mutex_`,
`post_ids_.emplace(id)`. -/
def record_post_id (s : Sys) (id : Int) : Sys :=
  { s with mgr := { s.mgr with
      post_ids_ := if id ∈ s.mgr.post_ids_ then s.mgr.post_ids_ else s.mgr.post_ids_ ++ [id] } }

/-- The first statement of `post_connection`: the job is posted. -/
def post_connection_post (s : Sys) : Int × Sys := s.post Action.connect

/-- The first three statements of `post_click`: the point is mapped and the job
is posted; `none` when the mapping is undefined. -/
def post_click_post (s : Sys) (drv : Driver) (x y : Int) : Option (Int × Sys) :=
  match s.mgr.preproc_touch_coord drv.resolution x y with
  | none => none
  | some (xx, yy) => some (s.post (Action.click xx yy))

/-- The first statement of `post_screencap`: the job is posted. -/
def post_screencap_post (s : Sys) : Int × Sys := s.post Action.screencap

/-- The member function `post_connection`, run without interruption. -/
def post_connection (s : Sys) : Int × Sys :=
  ((s.post_connection_post).1, (s.post_connection_post).2.record_post_id (s.post_connection_post).1)

/-- The member function `post_click`, run without interruption. -/
def post_click (s : Sys) (drv : Driver) (x y : Int) : Option (Int × Sys) :=
  match s.post_click_post drv x y with
  | none => none
  | some (id, s1) => some (id, s1.record_post_id id)

/-- The member function `post_screencap`, run without interruption. -/
def post_screencap (s : Sys) : Int × Sys :=
  ((s.post_screencap_post).1, (s.post_screencap_post).2.record_post_id (s.post_screencap_post).1)

/-- The member function `click(const cv::Point&)` up to the wait inside the
blocking post: the id is not recorded in `post_ids_`. -/
def click (s : Sys) (drv : Driver) (x y : Int) : Option (Int × Sys) :=
  match s.mgr.preproc_touch_coord drv.resolution x y with
  | none => none
  | some (xx, yy) => some (s.post (Action.click xx yy))

/-- One iteration of the runner's `working()` with `process_` bound to
`run_action`: pick the head of the queue, dispatch it, record the result. -/
def worker (s : Sys) (drv : Driver) : Option Sys :=
  let r1 := s.mgr.action_runner_.working_pick
  match r1.working_on with
  | none => some { s with mgr := { s.mgr with action_runner_ := r1 } }
  | some (id, action) =>
    match ({ s.mgr with action_runner_ := r1 }).run_action drv id action with
    | none => none
    | some (ret, m2) =>
      some { s with mgr := { m2 with action_runner_ := m2.action_runner_.working_finish ret } }

/-- The member function `status` of the controller. -/
def status (s : Sys) (id : Int) : MaaStatus := s.mgr.action_runner_.status id

end Sys

/-! ### Sample inputs of the controller -/

/-- An option value addressing the `int` `n`. -/
def opt_int (n : Int) : MaaOptionValue := { as_int := n, as_chars := fun _ => "" }

/-- A sequence of `set_option` calls. -/
def ControllerMgr.set_opts (m : ControllerMgr)
    (calls : List (MaaCtrlOption × MaaOptionValue × Nat)) : ControllerMgr :=
  calls.foldl (fun acc c => (acc.set_opt c.1 c.2.1 c.2.2).2) m

/-- A driver of a 1920x1080 device on which every operation succeeds. -/
def driver_1920x1080 : Driver :=
  { connect := true, screencap := ⟨1920, 1080⟩, start_app := fun _ => true,
    stop_app := fun _ => true, resolution := (1920, 1080) }

/-- The interleaving of `post_connection` with the worker in which the job is
dispatched between `action_runner_->post` and `post_ids_.emplace(id)`. -/
def post_connection_dispatched_early (drv : Driver) : Option Sys :=
  ((Sys.init.post_connection_post).2.worker drv).map
    (fun s => s.record_post_id (Sys.init.post_connection_post).1)

/-- The same post with the id recorded before the worker dispatches the job. -/
def post_connection_then_dispatch (drv : Driver) : Option Sys :=
  (Sys.init.post_connection).2.worker drv

/-- On a fresh controller (no screenshot yet): `post_click(5, 7)`, then the
worker dispatches the job. -/
def uncalibrated_click (drv : Driver) : Option Sys :=
  (Sys.init.post_click drv 5 7).bind (fun r => r.2.worker drv)

/-- A fresh controller after `set_option(ScreenshotTargetShortSide, s)`. -/
def with_short_side (s : Int) : ControllerMgr :=
  ControllerMgr.init.set_opts [(MaaCtrlOption.ScreenshotTargetShortSide, opt_int s, 4)]

/-- A fresh controller after `set_option(ScreenshotTargetLongSide, l)`. -/
def with_long_side (l : Int) : ControllerMgr :=
  ControllerMgr.init.set_opts [(MaaCtrlOption.ScreenshotTargetLongSide, opt_int l, 4)]

/-- The target size a screenshot `raw` gives to controller `m`. -/
def derived_size (m : ControllerMgr) (raw : Mat) : Option (Int × Int) :=
  (m.check_and_calc_target_image_size raw).map
    (fun r => (r.2.image_target_width_, r.2.image_target_height_))

/-- A driver of a 1792x828 device on which every operation succeeds. -/
def driver_1792x828 : Driver :=
  { connect := true, screencap := ⟨1792, 828⟩, start_app := fun _ => true,
    stop_app := fun _ => true, resolution := (1792, 828) }

/-- A controller with short side `s` after `post_screencap` and its dispatch
on driver `drv`. -/
def calibrated (s : Int) (drv : Driver) : Option Sys :=
  (({ Sys.init with mgr := with_short_side s } : Sys).post_screencap).2.worker drv

/-- After `calibrated`: `post_click(x, y)` and its dispatch. -/
def calibrated_click (s : Int) (drv : Driver) (x y : Int) : Option Sys :=
  ((calibrated s drv).bind (fun t => t.post_click drv x y)).bind (fun r => r.2.worker drv)

/-- The controller state `calibrated 720` reaches on the 1920x1080 driver. -/
def calibrated_720 : Sys := (calibrated 720 driver_1920x1080).getD Sys.init

/-- From `calibrated_720`: the synchronous helper `click` at (640, 360), then
the dispatch of its job. -/
def sync_click_dispatch : Option Sys :=
  (calibrated_720.click driver_1920x1080 640 360).bind (fun r => r.2.worker driver_1920x1080)

/-! ### Runs of the controller

`set_option` runs on the caller's thread and `run_action` on the worker's;
the target size and the side options are plain members, written by both
with no lock. `check_and_calc_target_image_size` writes the target size in
two assignments, the width first. A run of the controller is made of
`set_option` calls and dispatches that do not overlap, and of dispatches of a
Screencap during which `set_option` calls run on the caller's thread, at one
point: between the two assignments. -/

/-- The four pairs of assignments of `check_and_calc_target_image_size`: the
side option that is set, and whether the image is wider than high. -/
inductive Branch where
  | short_wide
  | short_tall
  | long_wide
  | long_tall
  deriving DecidableEq, Repr

/-- How far `check_and_calc_target_image_size` has come at the point where it
can be overtaken: it has returned `ret` after its tests, or it has made the
first assignment of the branch `br`. -/
inductive Derivation where
  | done (ret : Bool) (m : ControllerMgr)
  | first (br : Branch) (m : ControllerMgr)

namespace ControllerMgr

/-- The function `check_and_calc_target_image_size` up to and including the
assignment to `image_target_width_`; `none` when a `static_cast<int>` is out
of range. -/
def derive_first (m : ControllerMgr) (raw : Mat) : Option Derivation :=
  if m.image_target_width_ ≠ 0 ∧ m.image_target_height_ ≠ 0 then some (Derivation.done true m)
  else if m.image_target_long_side_ = 0 ∧ m.image_target_short_side_ = 0 then
    some (Derivation.done false m)
  else
    let cur_width : Int := raw.cols
    let cur_height : Int := raw.rows
    let scale := F64.div (F64.ofInt cur_width) (F64.ofInt cur_height)
    if m.image_target_short_side_ ≠ 0 then
      if cur_width > cur_height then
        match to_int32 (std_round (F64.mul (F64.ofInt m.image_target_short_side_) scale)) with
        | some w => some (Derivation.first Branch.short_wide { m with image_target_width_ := w })
        | none => none
      else
        some (Derivation.first Branch.short_tall
          { m with image_target_width_ := m.image_target_short_side_ })
    else
      if cur_width > cur_height then
        some (Derivation.first Branch.long_wide
          { m with image_target_width_ := m.image_target_long_side_ })
      else
        match to_int32 (std_round (F64.mul (F64.ofInt m.image_target_long_side_) scale)) with
        | some w => some (Derivation.first Branch.long_tall { m with image_target_width_ := w })
        | none => none

/-- The assignment to `image_target_height_` of the branch `br`, with the
side option as it is when the assignment runs (`scale` is a local, computed
from `raw` before). -/
def derive_second (m : ControllerMgr) (raw : Mat) : Branch → Option ControllerMgr
  | Branch.short_wide => some { m with image_target_height_ := m.image_target_short_side_ }
  | Branch.short_tall =>
    match to_int32 (std_round (F64.div (F64.ofInt m.image_target_short_side_)
        (F64.div (F64.ofInt raw.cols) (F64.ofInt raw.rows)))) with
    | some h => some { m with image_target_height_ := h }
    | none => none
  | Branch.long_wide =>
    match to_int32 (std_round (F64.div (F64.ofInt m.image_target_long_side_)
        (F64.div (F64.ofInt raw.cols) (F64.ofInt raw.rows)))) with
    | some h => some { m with image_target_height_ := h }
    | none => none
  | Branch.long_tall => some { m with image_target_height_ := m.image_target_long_side_ }

/-- The last two statements of `postproc_screenshot`: the resize to the target
size as it is then, and the result. -/
def resized (m : ControllerMgr) (raw : Mat) : Bool × ControllerMgr :=
  (!(cv_resize raw m.image_target_width_ m.image_target_height_).empty,
    { m with image_ := cv_resize raw m.image_target_width_ m.image_target_height_ })

/-- The member function `postproc_screenshot` on the worker's thread while the
`set_option` calls `calls` run on the caller's thread, at one point: after
the first assignment of the derivation when there is one, and otherwise where
`check_and_calc_target_image_size` returns or the empty image is rejected. -/
def postproc_screenshot_cut (m : ControllerMgr) (raw : Mat)
    (calls : List (MaaCtrlOption × MaaOptionValue × Nat)) : Option (Bool × ControllerMgr) :=
  if raw.empty then some (false, m.set_opts calls)
  else
    match m.derive_first raw with
    | none => none
    | some (Derivation.done false m1) => some (false, m1.set_opts calls)
    | some (Derivation.done true m1) => some ((m1.set_opts calls).resized raw)
    | some (Derivation.first br m1) =>
      match (m1.set_opts calls).derive_second raw br with
      | none => none
      | some m2 => some (m2.resized raw)

/-- The member function `run_action` on a Screencap while the `set_option`
calls `calls` run on the caller's thread (`postproc_screenshot_cut`). -/
def run_action_cut (m : ControllerMgr) (drv : Driver) (id : Int)
    (calls : List (MaaCtrlOption × MaaOptionValue × Nat)) : Option (Bool × ControllerMgr) :=
  let notify := decide (id ∈ m.post_ids_)
  let m1 := { m with post_ids_ := m.post_ids_.erase id }
  let m2 := if notify then m1.called [Call.notify MaaMsg.Controller_Action_Started id] else m1
  match (m2.called [Call.screencap]).postproc_screenshot_cut drv.screencap calls with
  | none => none
  | some (ret, m3) =>
    some (ret, if notify then
      m3.called [Call.notify
        (if ret then MaaMsg.Controller_Action_Completed else MaaMsg.Controller_Action_Failed) id]
      else m3)

end ControllerMgr

/-- A step of the controller: a `set_option` call; the dispatch of an action
by `run_action` with the driver's answers, nothing else running meanwhile; or
the dispatch of a Screencap overtaken by `set_option` calls between the two
assignments of the target size. -/
inductive CtrlStep where
  | set_opt (key : MaaCtrlOption) (value : MaaOptionValue) (val_size : Nat)
  | dispatch (drv : Driver) (id : Int) (action : Action)
  | dispatch_cut (drv : Driver) (id : Int) (calls : List (MaaCtrlOption × MaaOptionValue × Nat))

/-- One step of the controller; `none` when a conversion to `int` is undefined. -/
def ControllerMgr.step (m : ControllerMgr) : CtrlStep → Option ControllerMgr
  | CtrlStep.set_opt key value val_size => some (m.set_opt key value val_size).2
  | CtrlStep.dispatch drv id action => (m.run_action drv id action).map Prod.snd
  | CtrlStep.dispatch_cut drv id calls => (m.run_action_cut drv id calls).map Prod.snd

/-- A sequence of steps of the controller. -/
def ControllerMgr.steps (m : ControllerMgr) : List CtrlStep → Option ControllerMgr
  | [] => some m
  | e :: es =>
    match m.step e with
    | none => none
    | some m1 => m1.steps es

/-- The side values passed to `set_option` are positive values of an `int`. -/
def CtrlStep.positive_side : CtrlStep → Bool
  | CtrlStep.set_opt MaaCtrlOption.ScreenshotTargetLongSide value _ =>
    decide (0 < value.as_int ∧ value.as_int < 2 ^ 31)
  | CtrlStep.set_opt MaaCtrlOption.ScreenshotTargetShortSide value _ =>
    decide (0 < value.as_int ∧ value.as_int < 2 ^ 31)
  | _ => true

/-- No `set_option` call runs while the step dispatches an action. -/
def CtrlStep.unbroken : CtrlStep → Bool
  | CtrlStep.dispatch_cut _ _ _ => false
  | _ => true

/-- A screenshot dispatched while the target size is to be derived from the
long side is at most that many times longer than wide: the scaled shorter
side is at least 1. -/
def CtrlStep.scales_to_positive (m : ControllerMgr) : CtrlStep → Bool
  | CtrlStep.dispatch drv _ Action.screencap =>
    decide ((m.image_target_width_ = 0 ∨ m.image_target_height_ = 0) →
      m.image_target_short_side_ = 0 → m.image_target_long_side_ ≠ 0 →
      ((max drv.screencap.cols drv.screencap.rows : Nat) : Int) ≤
        m.image_target_long_side_ * ((min drv.screencap.cols drv.screencap.rows : Nat) : Int))
  | _ => true

/-- A screenshot dispatched while the target size is to be derived from the
short side scales to a longer side of at most `INT_MAX`. -/
def CtrlStep.scales_in_range (m : ControllerMgr) : CtrlStep → Bool
  | CtrlStep.dispatch drv _ Action.screencap =>
    decide ((m.image_target_width_ = 0 ∨ m.image_target_height_ = 0) →
      m.image_target_short_side_ ≠ 0 →
      m.image_target_short_side_ * ((max drv.screencap.cols drv.screencap.rows : Nat) : Int) ≤
        (2 ^ 31 - 1) * ((min drv.screencap.cols drv.screencap.rows : Nat) : Int))
  | _ => true

/-- Every step of the run has positive side values, is not overtaken by a
`set_option` call and, from the state it is taken in, scales to a positive
size in the range of `int`. -/
def ControllerMgr.admissible (m : ControllerMgr) : List CtrlStep → Bool
  | [] => true
  | e :: es =>
    e.positive_side && e.unbroken && e.scales_to_positive m && e.scales_in_range m &&
      (match m.step e with
       | none => true
       | some m1 => m1.admissible es)

/-- A driver whose screenshot is 1 wide and 3 high. -/
def driver_1x3 : Driver :=
  { connect := true, screencap := ⟨1, 3⟩, start_app := fun _ => true,
    stop_app := fun _ => true, resolution := (1, 3) }

/-- Long side 1, then the dispatch of a Screencap of a 1x3 image. -/
def run_long_side_1 : List CtrlStep :=
  [CtrlStep.set_opt MaaCtrlOption.ScreenshotTargetLongSide (opt_int 1) 4,
   CtrlStep.dispatch driver_1x3 1 Action.screencap]

/-- Short side 720, a 1920x1080 screenshot, StopApp, long side 1280, a
1080x1920 screenshot (the device was rotated), a click. -/
def run_recalibrate : List CtrlStep :=
  [CtrlStep.set_opt MaaCtrlOption.ScreenshotTargetShortSide (opt_int 720) 4,
   CtrlStep.dispatch driver_1920x1080 1 Action.screencap,
   CtrlStep.dispatch driver_1920x1080 2 (Action.stop_app "x"),
   CtrlStep.set_opt MaaCtrlOption.ScreenshotTargetLongSide (opt_int 1280) 4,
   CtrlStep.dispatch { driver_1920x1080 with screencap := ⟨1080, 1920⟩ } 3 Action.screencap,
   CtrlStep.dispatch driver_1920x1080 4 (Action.click 10 10)]

/-- Short side 720, then the dispatch of a Screencap of a 1920x1080 image
during which `set_option(ScreenshotTargetShortSide, 720)` is called again,
between the assignment of the width and that of the height. -/
def run_set_option_inside_screencap : List CtrlStep :=
  [CtrlStep.set_opt MaaCtrlOption.ScreenshotTargetShortSide (opt_int 720) 4,
   CtrlStep.dispatch_cut driver_1920x1080 1
     [(MaaCtrlOption.ScreenshotTargetShortSide, opt_int 720, 4)]]

/-- Short side 1500000000, then the dispatch of a Screencap of a 1920x1080
image. -/
def run_short_side_too_long : List CtrlStep :=
  [CtrlStep.set_opt MaaCtrlOption.ScreenshotTargetShortSide (opt_int 1500000000) 4,
   CtrlStep.dispatch driver_1920x1080 1 Action.screencap]

/-- The state invariant behind C7: the target sides are zero together, and
the side options are non-negative values of an `int`. -/
def ControllerMgr.sides_ok (m : ControllerMgr) : Prop :=
  (m.image_target_width_ = 0 ↔ m.image_target_height_ = 0) ∧
  0 ≤ m.image_target_long_side_ ∧ m.image_target_long_side_ < 2 ^ 31 ∧
  0 ≤ m.image_target_short_side_ ∧ m.image_target_short_side_ < 2 ^ 31

/-! ### Proof vocabulary for the runner -/

/-- Consistency of a runner with the counter value `c`: the cursor, the queued
ids, the id in the worker's hands and the keys of the status map are at most
`c`; the queue is strictly increasing; the id in the worker's hands is below
every queued id. -/
structure AsyncRunner.WF {Item : Type} (c : Int) (r : AsyncRunner Item) : Prop where
  compl_le : r.compl_id_ ≤ c
  queue_le : ∀ q ∈ r.queued_ids, q ≤ c
  queue_sorted : r.queued_ids.Pairwise (fun a b => a < b)
  working_le : ∀ w, r.working_on = some w → w.1 ≤ c
  working_lt : ∀ w, r.working_on = some w → ∀ q ∈ r.queued_ids, w.1 < q
  status_le : ∀ j st, r.status_map_ j = some st → j ≤ c

/-- Consistency of a process: the counter is non-negative and every runner is
consistent with it. -/
def Proc.WF {Item : Type} (p : Proc Item) : Prop :=
  0 ≤ p.cross_inst_id_ ∧ ∀ k, (p.inst k).WF p.cross_inst_id_

/-- Where an issued id stands in its runner. -/
inductive Phase where
  | queued
  | running
  | wiped_running
  | done
  | wiped
  deriving DecidableEq, Repr

/-- The order of the phases. -/
def Phase.rank : Phase → Nat
  | Phase.queued => 0
  | Phase.running => 1
  | Phase.wiped_running => 2
  | Phase.done => 3
  | Phase.wiped => 4

/-- The phases in which `clear()` has removed the id from the status map. -/
def Phase.is_wiped : Phase → Bool
  | Phase.wiped_running => true
  | Phase.wiped => true
  | _ => false

/-- The effect of `clear()` on a phase. -/
def Phase.wipe : Phase → Phase
  | Phase.queued => Phase.wiped
  | Phase.running => Phase.wiped_running
  | Phase.wiped_running => Phase.wiped_running
  | Phase.done => Phase.wiped
  | Phase.wiped => Phase.wiped

/-- The id `id` of runner `r` is in phase `ph`. -/
def AsyncRunner.in_phase {Item : Type} (r : AsyncRunner Item) (id : Int) : Phase → Prop
  | Phase.queued =>
    r.status_map_ id = some MaaStatus.Pending ∧ id ∈ r.queued_ids ∧ r.compl_id_ < id
  | Phase.running =>
    r.status_map_ id = some MaaStatus.Running ∧ (∃ it, r.working_on = some (id, it)) ∧
      r.compl_id_ < id
  | Phase.wiped_running =>
    r.status_map_ id = none ∧ (∃ it, r.working_on = some (id, it))
  | Phase.done =>
    (r.status_map_ id = some MaaStatus.Success ∨ r.status_map_ id = some MaaStatus.Failed) ∧
      id ∉ r.queued_ids ∧ ∀ w, r.working_on = some w → w.1 ≠ id
  | Phase.wiped =>
    r.status_map_ id = none ∧ id ∉ r.queued_ids ∧ ∀ w, r.working_on = some w → w.1 ≠ id

/-- The position of a status in the lifecycle order
Pending < Running < Success, Failed; Invalid has none. -/
def MaaStatus.lifecycle_rank : MaaStatus → Option Nat
  | MaaStatus.Invalid => none
  | MaaStatus.Pending => some 0
  | MaaStatus.Running => some 1
  | MaaStatus.Success => some 2
  | MaaStatus.Failed => some 2

/-- Success or Failed. -/
def MaaStatus.terminal : MaaStatus → Bool
  | MaaStatus.Success => true
  | MaaStatus.Failed => true
  | _ => false

/-- Runner number `k` after the run `evs` from process start. -/
def Proc.runner_after {Item : Type} (evs : List (Ev Item)) (k : Nat) : AsyncRunner Item :=
  ((Proc.init : Proc Item).run evs).inst k

/-! ### Sample runs of a process -/

/-- A blocking post on runner 0 followed by `clear()`. -/
def run_post_clear : List (Ev Unit) := [Ev.post 0 () true, Ev.clear 0]

/-- Two posts on runner 0, the worker picks the first, `clear()` runs while it
is in `process_`, then `process_` returns true. -/
def run_clear_in_flight : List (Ev Unit) :=
  [Ev.post 0 () false, Ev.post 0 () false, Ev.pick 0, Ev.clear 0, Ev.finish 0 true]

/-- Posts on two runners interleaved with worker steps and a `clear()`. -/
def run_two_runners : List (Ev Unit) :=
  [Ev.post 0 () false, Ev.post 1 () false, Ev.pick 0, Ev.post 0 () true, Ev.finish 0 true,
   Ev.clear 1, Ev.post 1 () false, Ev.pick 0, Ev.finish 0 false]

/-! ### The worker's side of a run -/

/-- The id that `working_pick` hands to `process_`: the head of the queue,
unless `exit_` is set, the worker is inside `process_`, or the queue is empty. -/
def AsyncRunner.picked_id {Item : Type} (r : AsyncRunner Item) : Option Int :=
  if r.exit_ then none
  else match r.working_on with
    | some _ => none
    | none => r.queued_ids.head?

/-- The id a step hands to `process_`: only a `pick` that pops a job does. -/
def Proc.handed_id {Item : Type} (p : Proc Item) : Ev Item → Option (Nat × Int)
  | Ev.pick k => (p.inst k).picked_id.map (fun id => (k, id))
  | _ => none

/-- The ids handed to `process_` along a run, with the runner whose worker
took each, in the order of the calls. -/
def Proc.handed {Item : Type} : Proc Item → List (Ev Item) → List (Nat × Int)
  | _, [] => []
  | p, e :: evs =>
    match p.handed_id e with
    | some ki => ki :: Proc.handed (p.step e) evs
    | none => Proc.handed (p.step e) evs

/-- The ids of a list of (runner, id) pairs that belong to runner `k`. -/
def ids_of (k : Nat) (l : List (Nat × Int)) : List Int :=
  (l.filter (fun ki => decide (ki.1 = k))).map Prod.snd

/-- The sequence of ids the worker of runner `k` hands to `process_` in a run
from process start. -/
def Proc.handed_by {Item : Type} (evs : List (Ev Item)) (k : Nat) : List Int :=
  ids_of k ((Proc.init : Proc Item).handed evs)

/-- The sequence of ids returned by the posts to runner `k` in a run from
process start: the enqueue order of runner `k`. -/
def Proc.enqueued_by {Item : Type} (evs : List (Ev Item)) (k : Nat) : List Int :=
  ids_of k ((Proc.init : Proc Item).issued evs)

/-- A run with three posts to runner 0 and one to runner 1, where runner 0 is
cleared while its second job waits. -/
def run_fifo : List (Ev Unit) :=
  [Ev.post 0 () false, Ev.post 0 () false, Ev.post 1 () false, Ev.pick 0,
   Ev.finish 0 true, Ev.clear 0, Ev.post 0 () false, Ev.pick 1, Ev.pick 0,
   Ev.finish 0 false, Ev.pick 0]

/-- The target size and the two side options of `m2` are those of `m`. -/
def ControllerMgr.same_sizing (m2 m : ControllerMgr) : Prop :=
  m2.image_target_width_ = m.image_target_width_ ∧
  m2.image_target_height_ = m.image_target_height_ ∧
  m2.image_target_long_side_ = m.image_target_long_side_ ∧
  m2.image_target_short_side_ = m.image_target_short_side_

/-- A controller with long side `l` after `post_screencap` and its dispatch
on driver `drv`. -/
def calibrated_long (l : Int) (drv : Driver) : Option Sys :=
  (({ Sys.init with mgr := with_long_side l } : Sys).post_screencap).2.worker drv

/-! ### The swipe -/

/-- The arithmetic of `swipe` that is not part of the sources at hand, taken
as given: `cs` is the function object `CubicSpline::smooth_in_out(1, 1)` (of
`Utils/Math.hpp`), and `lerp_round a b progress` is the value of
`static_cast<int>(round(std::lerp(a, b, progress)))`. -/
structure SwipeMath where
  cs : F64 → F64
  lerp_round : Int → Int → F64 → Int

/-- Why the loop of `swipe` yields no step list: `i += SampleDelay` left the
range of `int` (undefined behaviour), or the iterations allowed to the model
were used up. -/
inductive LoopFault where
  | int_overflow
  | out_of_fuel
  deriving DecidableEq, Repr

/-- The body of the loop of `swipe` at index `i`: the step emplaced. -/
def swipe_step (sm : SwipeMath) (x1 y1 x2 y2 duration i : Int) : SwipeStep :=
  let progress := sm.cs (F64.div (F64.ofInt i) (F64.ofInt duration))
  { x := sm.lerp_round x1 x2 progress, y := sm.lerp_round y1 y2 progress, delay := 2 }

/-- The loop `for (int i = 0; i < duration; i += SampleDelay)` of `swipe`, from
index `i`, with at most `fuel` tests of the loop condition. -/
def swipe_loop (sm : SwipeMath) (x1 y1 x2 y2 duration : Int) :
    Nat → Int → Except LoopFault (List SwipeStep)
  | 0, _ => Except.error LoopFault.out_of_fuel
  | fuel + 1, i =>
    if i < duration then
      match to_int32 (i + 2) with
      | none => Except.error LoopFault.int_overflow
      | some i2 =>
        (swipe_loop sm x1 y1 x2 y2 duration fuel i2).map
          (fun rest => swipe_step sm x1 y1 x2 y2 duration i :: rest)
    else Except.ok []

/-- The step list `param.steps` that `swipe` builds between the mapped points:
the loop from 0, with more tests allowed than it can need. -/
def swipe_steps (sm : SwipeMath) (x1 y1 x2 y2 duration : Int) :
    Except LoopFault (List SwipeStep) :=
  swipe_loop sm x1 y1 x2 y2 duration (duration.toNat + 1) 0

/-- The member function `swipe(const cv::Point&, const cv::Point&, int)` up to
the wait inside the blocking post: both points are mapped, the steps are
sampled and the Swipe is posted; `none` where the behaviour is undefined. -/
def Sys.swipe (s : Sys) (drv : Driver) (sm : SwipeMath) (p1 p2 : Int × Int) (duration : Int) :
    Option (Int × Sys) :=
  match s.mgr.preproc_touch_coord drv.resolution p1.1 p1.2,
      s.mgr.preproc_touch_coord drv.resolution p2.1 p2.2 with
  | some (x1, y1), some (x2, y2) =>
    match swipe_steps sm x1 y1 x2 y2 duration with
    | Except.ok steps => some (s.post (Action.swipe steps))
    | Except.error _ => none
  | _, _ => none

/-- A sample of the arithmetic: linear progress, and `a + round((b - a) * t)`
for the interpolation. -/
def linear_math : SwipeMath :=
  { cs := fun t => t,
    lerp_round := fun a b t => a + std_round (F64.mul (F64.ofInt (b - a)) t) }

/-! ### The lock scopes of the runner

The methods of the runner and its worker take `mutex_`, `status_mutex_` and
`compl_mutex_` one after the other, never together (only `post` holds
`status_mutex_` inside `mutex_`), so another thread can run between two
scopes of one call. Here every lock scope is a step of its own: the three
scopes of `clear()`, and the stretches of `working()` between the loop test
and the cursor write. The steps `Ev` above are the runs in which the scopes
of one call, or of one half of the worker's iteration, follow each other
without interruption (`Sched.run_events`). -/

/-- Where the worker thread stands in `working()`: before the test of
`while (!exit_)`, past the test and before `mutex_` is taken, with the head
popped, inside `process_` (status Running written), with the result status
written and the cursor not yet, or out of the loop. -/
inductive Stage where
  | at_test
  | entered
  | popped
  | in_process
  | returned
  | stopped
  deriving DecidableEq, Repr

namespace AsyncRunner

variable {Item : Type}

/-- The worker's test `while (!exit_)`. -/
def loop_test (r : AsyncRunner Item) : Stage → AsyncRunner Item × Stage
  | Stage.at_test => (r, if r.exit_ then Stage.stopped else Stage.entered)
  | st => (r, st)

/-- The scope of `mutex_` in `working()`: on an empty queue `running_` is
reset and the worker waits, to test `exit_` again when it wakes; otherwise
the head is popped into the worker's hands. -/
def pop_front (r : AsyncRunner Item) : Stage → AsyncRunner Item × Stage
  | Stage.entered =>
    match r.queue_ with
    | [] => ({ r with running_ := false }, Stage.at_test)
    | (id, item) :: rest =>
      ({ r with running_ := true, queue_ := rest, working_on := some (id, item) }, Stage.popped)
  | st => (r, st)

/-- The first scope of `status_mutex_` in `working()`:
`status_map_[id] = MaaStatus_Running`; then `process_` is called. -/
def mark_running (r : AsyncRunner Item) : Stage → AsyncRunner Item × Stage
  | Stage.popped =>
    match r.working_on with
    | none => (r, Stage.popped)
    | some (id, _) =>
      ({ r with status_map_ := assign r.status_map_ id MaaStatus.Running }, Stage.in_process)
  | st => (r, st)

/-- The return of `process_` with `ret` and the second scope of
`status_mutex_`: the status is set from `ret`. -/
def store_result (ret : Bool) (r : AsyncRunner Item) : Stage → AsyncRunner Item × Stage
  | Stage.in_process =>
    match r.working_on with
    | none => (r, Stage.in_process)
    | some (id, _) =>
      ({ r with status_map_ :=
          assign r.status_map_ id (if ret then MaaStatus.Success else MaaStatus.Failed) },
        Stage.returned)
  | st => (r, st)

/-- The scope of `compl_mutex_` in `working()`: `compl_id_ = id`; the
iteration ends. -/
def store_cursor (r : AsyncRunner Item) : Stage → AsyncRunner Item × Stage
  | Stage.returned =>
    match r.working_on with
    | none => (r, Stage.returned)
    | some (id, _) => ({ r with compl_id_ := id, working_on := none }, Stage.at_test)
  | st => (r, st)

end AsyncRunner

/-- The runners of one instantiation with their worker threads: the process
state and the stage of each worker. -/
structure Sched (Item : Type) where
  proc : Proc Item
  stage : Nat → Stage

/-- The steps at the grain of lock scopes, on runner number `k`: the locked
part of `post`, the five stretches of the worker's iteration, the three
scopes of `clear()`, and the assignment of `release()`. -/
inductive Op (Item : Type) where
  | post (k : Nat) (item : Item) (block : Bool)
  | loop_test (k : Nat)
  | pop_front (k : Nat)
  | mark_running (k : Nat)
  | store_result (k : Nat) (ret : Bool)
  | store_cursor (k : Nat)
  | clear_queue (k : Nat)
  | clear_cursor (k : Nat)
  | clear_status (k : Nat)
  | release (k : Nat)

namespace Sched

variable {Item : Type}

/-- Process start: the workers are before their first loop test. -/
def init : Sched Item := { proc := Proc.init, stage := fun _ => Stage.at_test }

/-- A stretch of the worker of runner `k`. -/
def worker (s : Sched Item) (k : Nat)
    (f : AsyncRunner Item → Stage → AsyncRunner Item × Stage) : Sched Item :=
  { proc := { s.proc with inst := s.proc.set_inst k (f (s.proc.inst k) (s.stage k)).1 },
    stage := fun j => if j = k then (f (s.proc.inst k) (s.stage k)).2 else s.stage j }

/-- A lock scope of a method called on runner `k`. -/
def caller (s : Sched Item) (k : Nat) (f : AsyncRunner Item → AsyncRunner Item) :
    Sched Item :=
  { s with proc := { s.proc with inst := s.proc.set_inst k (f (s.proc.inst k)) } }

/-- One step. -/
def step (s : Sched Item) : Op Item → Sched Item
  | Op.post k item b => { s with proc := s.proc.step (Ev.post k item b) }
  | Op.loop_test k => s.worker k AsyncRunner.loop_test
  | Op.pop_front k => s.worker k AsyncRunner.pop_front
  | Op.mark_running k => s.worker k AsyncRunner.mark_running
  | Op.store_result k ret => s.worker k (AsyncRunner.store_result ret)
  | Op.store_cursor k => s.worker k AsyncRunner.store_cursor
  | Op.clear_queue k => s.caller k AsyncRunner.clear_queue
  | Op.clear_cursor k => s.caller k (AsyncRunner.clear_cursor s.proc.cross_inst_id_)
  | Op.clear_status k => s.caller k AsyncRunner.clear_status
  | Op.release k => s.caller k AsyncRunner.release

/-- Run a sequence of steps. -/
def run (s : Sched Item) (ops : List (Op Item)) : Sched Item := ops.foldl step s

/-- The id a step returns to its caller: only `post` returns one. -/
def returned_id (s : Sched Item) : Op Item → Option (Nat × Int)
  | Op.post k item b => s.proc.returned_id (Ev.post k item b)
  | _ => none

/-- The ids returned by the posts of a run, with the runner that issued each,
in the order the posts took the counter. -/
def issued : Sched Item → List (Op Item) → List (Nat × Int)
  | _, [] => []
  | s, op :: ops =>
    match s.returned_id op with
    | some ki => ki :: issued (s.step op) ops
    | none => issued (s.step op) ops

/-- Runner number `k` after the run `ops` from process start. -/
def runner_after (ops : List (Op Item)) (k : Nat) : AsyncRunner Item :=
  ((Sched.init : Sched Item).run ops).proc.inst k

end Sched

/-- The number of `post` steps in a run of lock scopes. -/
def count_post_ops {Item : Type} : List (Op Item) → Nat
  | [] => 0
  | Op.post _ _ _ :: ops => count_post_ops ops + 1
  | _ :: ops => count_post_ops ops

/-- The step is one of the three lock scopes of a `clear()` on runner `k`. -/
def Op.is_clear_of {Item : Type} (k : Nat) : Op Item → Bool
  | Op.clear_queue j => decide (j = k)
  | Op.clear_cursor j => decide (j = k)
  | Op.clear_status j => decide (j = k)
  | _ => false

/-- The step is the status wipe (third scope) of a `clear()` on runner `k`. -/
def Op.is_wipe_of {Item : Type} (k : Nat) : Op Item → Bool
  | Op.clear_status j => decide (j = k)
  | _ => false

/-- The lock scopes of a step of `Ev`, in the order of the source. -/
def Ev.ops {Item : Type} : Ev Item → List (Op Item)
  | Ev.post k item b => [Op.post k item b]
  | Ev.pick k => [Op.loop_test k, Op.pop_front k, Op.mark_running k]
  | Ev.finish k ret => [Op.store_result k ret, Op.store_cursor k]
  | Ev.clear k => [Op.clear_queue k, Op.clear_cursor k, Op.clear_status k]
  | Ev.release k => [Op.release k]

/-- The worker of runner `r` is at a stage that `Ev` can see: inside
`process_` when it holds a job; otherwise before the loop test, or out of the
loop with `exit_` set. -/
def AsyncRunner.at_rest {Item : Type} (r : AsyncRunner Item) (st : Stage) : Prop :=
  match r.working_on with
  | some _ => st = Stage.in_process
  | none => st = Stage.at_test ∨ (st = Stage.stopped ∧ r.exit_ = true)

/-- An id of runner `r` since whose post no scope of `clear()` has run on `r`:
it is queued and Pending; or in the worker's hands, Pending, Running or
terminal by the worker's stage; in all these the cursor is below it; or the
worker is done with it and its status is terminal. -/
def AsyncRunner.tracked {Item : Type} (r : AsyncRunner Item) (st : Stage) (id : Int) : Prop :=
  (r.status_map_ id = some MaaStatus.Pending ∧ id ∈ r.queued_ids ∧ r.compl_id_ < id) ∨
  ((∃ it, r.working_on = some (id, it)) ∧ r.compl_id_ < id ∧
    ((st = Stage.popped ∧ r.status_map_ id = some MaaStatus.Pending) ∨
     (st = Stage.in_process ∧ r.status_map_ id = some MaaStatus.Running) ∨
     (st = Stage.returned ∧ (r.status_map_ id = some MaaStatus.Success ∨
        r.status_map_ id = some MaaStatus.Failed)))) ∨
  ((r.status_map_ id = some MaaStatus.Success ∨ r.status_map_ id = some MaaStatus.Failed) ∧
    id ∉ r.queued_ids ∧ ∀ w, r.working_on = some w → w.1 ≠ id)

/-! ### Sample runs of lock scopes -/

/-- A blocking post on runner 0, then the first two scopes of a `clear()`. -/
def ops_mid_clear : List (Op Unit) :=
  [Op.post 0 () true, Op.clear_queue 0, Op.clear_cursor 0]

/-- A post (id 1), the first scope of a `clear()`, a second post (id 2) between
the scopes, the other two scopes of the `clear()`, then the worker pops id 2
and marks it Running. -/
def ops_post_inside_clear : List (Op Unit) :=
  [Op.post 0 () false, Op.clear_queue 0, Op.post 0 () true, Op.clear_cursor 0,
   Op.clear_status 0, Op.loop_test 0, Op.pop_front 0, Op.mark_running 0]

/-- A post, the worker pops the job, a whole `clear()` runs before the worker
marks the job Running. -/
def ops_clear_after_pop : List (Op Unit) :=
  [Op.post 0 () true, Op.loop_test 0, Op.pop_front 0, Op.clear_queue 0, Op.clear_cursor 0,
   Op.clear_status 0, Op.mark_running 0]

/-- A blocking post followed by the three scopes of a `clear()`. -/
def ops_post_clear : List (Op Unit) :=
  [Op.post 0 () true, Op.clear_queue 0, Op.clear_cursor 0, Op.clear_status 0]

/-- Posts on two runners interleaved with worker stretches and the scopes of
two `clear()` calls. -/
def ops_two_runners : List (Op Unit) :=
  [Op.post 0 () false, Op.loop_test 0, Op.post 1 () true, Op.pop_front 0, Op.clear_queue 1,
   Op.mark_running 0, Op.post 0 () true, Op.clear_cursor 1, Op.store_result 0 true,
   Op.clear_queue 0, Op.store_cursor 0, Op.clear_status 1, Op.post 1 () false,
   Op.clear_cursor 0, Op.clear_status 0]

/-- The run of lock scopes of a run of `Ev` steps. -/
def scopes {Item : Type} : List (Ev Item) → List (Op Item)
  | [] => []
  | e :: evs => e.ops ++ scopes evs

/-- The three stretches of the worker from the loop test to the call of
`process_`, in a row. -/
def AsyncRunner.pick_stretch {Item : Type} (r : AsyncRunner Item) (st : Stage) :
    AsyncRunner Item × Stage :=
  ((r.loop_test st).1.pop_front (r.loop_test st).2).1.mark_running
    ((r.loop_test st).1.pop_front (r.loop_test st).2).2

/-- The two stretches of the worker from the return of `process_` to the end
of the iteration, in a row. -/
def AsyncRunner.finish_stretch {Item : Type} (ret : Bool) (r : AsyncRunner Item) (st : Stage) :
    AsyncRunner Item × Stage :=
  (r.store_result ret st).1.store_cursor (r.store_result ret st).2

end Maa

namespace Maa

/-! ## Theorems -/

/-! ### Binary64 rounding -/

theorem ilog2_aux_spec : ∀ (fuel n : Nat), 0 < n → n < 2 ^ fuel →
    2 ^ ilog2_aux fuel n ≤ n ∧ n < 2 ^ (ilog2_aux fuel n + 1) := by
  intro fuel
  induction fuel with
  | zero =>
    intro n h0 h1
    simp at h1
    omega
  | succ f ih =>
    intro n h0 h1
    unfold ilog2_aux
    split
    · rename_i h2
      have : n = 1 := by omega
      subst this
      simp
    · rename_i h2
      have h3 : 0 < n / 2 := Nat.div_pos (by omega) (by decide)
      have h4 : n / 2 < 2 ^ f := by
        rw [Nat.div_lt_iff_lt_mul (by decide)]
        rw [pow_succ] at h1
        exact h1
      obtain ⟨i1, i2⟩ := ih (n / 2) h3 h4
      constructor
      · rw [pow_succ]
        have := Nat.div_mul_le_self n 2
        calc 2 ^ ilog2_aux f (n / 2) * 2 ≤ n / 2 * 2 := Nat.mul_le_mul_right 2 i1
          _ ≤ n := this
      · rw [pow_succ]
        have : n < (n / 2 + 1) * 2 := by omega
        calc n < (n / 2 + 1) * 2 := this
          _ ≤ 2 ^ (ilog2_aux f (n / 2) + 1) * 2 := Nat.mul_le_mul_right 2 i2

theorem ilog2_spec (n : Nat) (h : 0 < n) : 2 ^ ilog2 n ≤ n ∧ n < 2 ^ (ilog2 n + 1) :=
  ilog2_aux_spec n n h (Nat.lt_two_pow n)

theorem two_zpow_toNat (k : Int) :
    ((2 : ℚ) ^ k.toNat) / ((2 : ℚ) ^ (-k).toNat) = (2 : ℚ) ^ k := by
  rcases le_total 0 k with h | h
  · have h1 : (-k).toNat = 0 := Int.toNat_eq_zero.mpr (by omega)
    rw [h1, pow_zero, div_one]
    conv_rhs => rw [← Int.toNat_of_nonneg h]
    rw [zpow_natCast]
  · have h1 : k.toNat = 0 := Int.toNat_eq_zero.mpr h
    have h2 : (0 : Int) ≤ -k := by omega
    rw [h1, pow_zero, one_div]
    have : (2 : ℚ) ^ k = ((2 : ℚ) ^ (-k))⁻¹ := by rw [zpow_neg, inv_inv]
    rw [this]
    conv_rhs => rw [← Int.toNat_of_nonneg h2]
    rw [zpow_natCast]

theorem round_ne_pos_scale (a d : Nat) (ha : 0 < a) (hd : 0 < d) (e0 : Int)
    (he : e0 = (ilog2 a : Int) - (ilog2 d : Int) - 53) :
    2 ^ 52 * (d * 2 ^ e0.toNat) < a * 2 ^ (-e0).toNat ∧
    a * 2 ^ (-e0).toNat < 2 ^ 54 * (d * 2 ^ e0.toNat) := by
  obtain ⟨a1, a2⟩ := ilog2_spec a ha
  obtain ⟨d1, d2⟩ := ilog2_spec d hd
  rcases le_total 0 e0 with h | h
  · obtain ⟨t, ht⟩ := Int.eq_ofNat_of_zero_le h
    have h1 : e0.toNat = t := by omega
    have h2 : (-e0).toNat = 0 := by omega
    have h3 : ilog2 a = ilog2 d + 53 + t := by omega
    rw [h1, h2, pow_zero, mul_one]
    rw [h3] at a1 a2
    have e1 : 2 ^ (ilog2 d + 53 + t) = 2 ^ ilog2 d * 2 ^ t * 2 ^ 53 := by ring
    have e2 : 2 ^ (ilog2 d + 53 + t + 1) = 2 ^ ilog2 d * 2 ^ t * 2 ^ 54 := by ring
    have e3 : 2 ^ (ilog2 d + 1) = 2 ^ ilog2 d * 2 := by ring
    rw [e1] at a1
    rw [e2] at a2
    rw [e3] at d2
    have hT : 0 < 2 ^ t := Nat.pow_pos (by decide)
    have k1 : d * 2 ^ t < 2 ^ ilog2 d * 2 * 2 ^ t := Nat.mul_lt_mul_of_pos_right d2 hT
    have k2 : 2 ^ ilog2 d * 2 ^ t ≤ d * 2 ^ t := Nat.mul_le_mul_right _ d1
    constructor
    · nlinarith
    · nlinarith
  · have h0 : (0 : Int) ≤ -e0 := by omega
    obtain ⟨t, ht⟩ := Int.eq_ofNat_of_zero_le h0
    have h1 : (-e0).toNat = t := by omega
    have h2 : e0.toNat = 0 := by omega
    have h3 : ilog2 a + t = ilog2 d + 53 := by omega
    rw [h1, h2, pow_zero, mul_one]
    have hT : 0 < 2 ^ t := Nat.pow_pos (by decide)
    have k1 : 2 ^ ilog2 a * 2 ^ t ≤ a * 2 ^ t := Nat.mul_le_mul_right _ a1
    have k2 : a * 2 ^ t < 2 ^ (ilog2 a + 1) * 2 ^ t := Nat.mul_lt_mul_of_pos_right a2 hT
    have e1 : 2 ^ ilog2 a * 2 ^ t = 2 ^ ilog2 d * 2 ^ 53 := by
      rw [← pow_add, h3, pow_add]
    have e2 : 2 ^ (ilog2 a + 1) * 2 ^ t = 2 ^ ilog2 d * 2 ^ 54 := by
      rw [← pow_add, show ilog2 a + 1 + t = ilog2 d + 54 by omega, pow_add]
    have e3 : 2 ^ (ilog2 d + 1) = 2 ^ ilog2 d * 2 := by ring
    rw [e1] at k1
    rw [e2] at k2
    rw [e3] at d2
    constructor
    · nlinarith
    · nlinarith

theorem rne_mantissa (n d1 m : Nat) (hd1 : 0 < d1)
    (hm : m = if 2 * (n % d1) < d1 then n / d1 else if d1 < 2 * (n % d1) then n / d1 + 1
        else if (n / d1) % 2 = 0 then n / d1 else n / d1 + 1) :
    2 * (m * d1) ≤ 2 * n + d1 ∧ 2 * n ≤ 2 * (m * d1) + d1 := by
  have hq := Nat.div_add_mod n d1
  have hr := Nat.mod_lt n hd1
  have hc : d1 * (n / d1) = n / d1 * d1 := Nat.mul_comm _ _
  have hs : (n / d1 + 1) * d1 = n / d1 * d1 + d1 := by ring
  split_ifs at hm <;> subst hm <;> constructor <;> omega

theorem round_ne_pos_spec (a d : Nat) (ha : 0 < a) (hd : 0 < d) :
    |((F64.round_ne_pos a d).1 : ℚ) * (2 : ℚ) ^ (F64.round_ne_pos a d).2 - (a : ℚ) / d|
      ≤ ((a : ℚ) / d) / 2 ^ 53 := by
  obtain ⟨s1, s2⟩ := round_ne_pos_scale a d ha hd _ rfl
  simp only [F64.round_ne_pos]
  generalize hn : a * 2 ^ (-((ilog2 a : Int) - (ilog2 d : Int) - 53)).toNat = n at s1 s2 ⊢
  generalize hd0 : d * 2 ^ ((ilog2 a : Int) - (ilog2 d : Int) - 53).toNat = d0 at s1 s2 ⊢
  generalize he0 : (ilog2 a : Int) - (ilog2 d : Int) - 53 = e0 at hn hd0 ⊢
  have hdq : (0 : ℚ) < d := by exact_mod_cast hd
  have hd0pos : 0 < d0 := by
    rw [← hd0]
    exact Nat.mul_pos hd (Nat.pow_pos (by decide))
  -- the scaled fraction is the value times 2^(-e0)
  have hx : (n : ℚ) / d0 * (2 : ℚ) ^ e0 = (a : ℚ) / d := by
    have h2 := two_zpow_toNat (-e0)
    rw [neg_neg] at h2
    rw [← hn, ← hd0]
    push_cast
    have hp1 : ((2 : ℚ) ^ e0.toNat) ≠ 0 := pow_ne_zero _ (by norm_num)
    have hz : (2 : ℚ) ^ (-e0) * (2 : ℚ) ^ e0 = 1 := by
      rw [← zpow_add₀ (by norm_num : (2 : ℚ) ≠ 0)]
      simp
    calc (a : ℚ) * 2 ^ (-e0).toNat / (d * 2 ^ e0.toNat) * 2 ^ e0
        = (a : ℚ) / d * ((2 : ℚ) ^ (-e0).toNat / 2 ^ e0.toNat) * 2 ^ e0 := by
          field_simp
      _ = (a : ℚ) / d * ((2 : ℚ) ^ (-e0) * 2 ^ e0) := by rw [h2]; ring
      _ = (a : ℚ) / d := by rw [hz, mul_one]
  -- the two cases of the exponent share the same shape
  have key : ∀ (d1 : Nat) (e : Int), 0 < d1 → 2 ^ 52 * d1 ≤ n → n < 2 ^ 53 * d1 →
      (n : ℚ) / d1 * (2 : ℚ) ^ e = (a : ℚ) / d →
      |(((if 2 * (n % d1) < d1 then n / d1 else if d1 < 2 * (n % d1) then n / d1 + 1
        else if (n / d1) % 2 = 0 then n / d1 else n / d1 + 1 : Nat)) : ℚ) * (2 : ℚ) ^ e
          - (a : ℚ) / d| ≤ ((a : ℚ) / d) / 2 ^ 53 := by
    intro d1 e hd1 b1 b2 hxe
    obtain ⟨m1, m2⟩ := rne_mantissa n d1 _ hd1 rfl
    generalize (if 2 * (n % d1) < d1 then n / d1 else if d1 < 2 * (n % d1) then n / d1 + 1
        else if (n / d1) % 2 = 0 then n / d1 else n / d1 + 1) = m at m1 m2 ⊢
    have hd1q : (0 : ℚ) < d1 := by exact_mod_cast hd1
    have m1q : (2 : ℚ) * (m * d1) ≤ 2 * n + d1 := by exact_mod_cast m1
    have m2q : (2 : ℚ) * n ≤ 2 * (m * d1) + d1 := by exact_mod_cast m2
    have b1q : (2 : ℚ) ^ 52 * d1 ≤ n := by exact_mod_cast b1
    have he : (0 : ℚ) < (2 : ℚ) ^ e := zpow_pos (by norm_num) e
    rw [← hxe]
    have hyd : (n : ℚ) / d1 * d1 = n := div_mul_cancel₀ _ (ne_of_gt hd1q)
    have hy : |(m : ℚ) - (n : ℚ) / d1| ≤ 1 / 2 := by
      rw [abs_le]
      constructor
      · by_contra h
        push_neg at h
        nlinarith [mul_pos (by linarith : (0 : ℚ) < (n : ℚ) / d1 - m - 1 / 2) hd1q]
      · by_contra h
        push_neg at h
        nlinarith [mul_pos (by linarith : (0 : ℚ) < (m : ℚ) - (n : ℚ) / d1 - 1 / 2) hd1q]
    have hy2 : (2 : ℚ) ^ 52 ≤ (n : ℚ) / d1 := by
      rw [le_div_iff₀ hd1q]
      exact b1q
    have : (m : ℚ) * 2 ^ e - (n : ℚ) / d1 * 2 ^ e = ((m : ℚ) - (n : ℚ) / d1) * 2 ^ e := by ring
    rw [this, abs_mul, abs_of_pos he]
    have h53 : (n : ℚ) / d1 * 2 ^ e / 2 ^ 53 = ((n : ℚ) / d1 / 2 ^ 53) * 2 ^ e := by ring
    rw [h53]
    apply mul_le_mul_of_nonneg_right _ (le_of_lt he)
    calc |(m : ℚ) - (n : ℚ) / d1| ≤ 1 / 2 := hy
      _ = (2 : ℚ) ^ 52 / 2 ^ 53 := by norm_num
      _ ≤ (n : ℚ) / d1 / 2 ^ 53 := by
        apply div_le_div_of_nonneg_right hy2 (by positivity)
  by_cases hb : 2 ^ 53 * d0 ≤ n
  · simp only [hb, if_true]
    apply key (2 * d0) (e0 + 1) (by omega) (by omega) (by omega)
    rw [← hx, zpow_add₀ (by norm_num : (2 : ℚ) ≠ 0)]
    have hd0q : (0 : ℚ) < d0 := by exact_mod_cast hd0pos
    push_cast
    field_simp
    ring
  · simp only [hb, if_false]
    exact key d0 e0 hd0pos (by omega) (by omega) hx

theorem F64.toRat_mk (M e : Int) : F64.toRat ⟨M, e⟩ = (M : ℚ) * (2 : ℚ) ^ e := by
  simp only [F64.toRat, F64.num, F64.den]
  push_cast
  rw [mul_div_assoc, two_zpow_toNat]

theorem F64.toRat_ofInt (n : Int) : (F64.ofInt n).toRat = n := by
  simp [F64.ofInt, F64.toRat_mk]

theorem F64.den_pos (x : F64) : 0 < x.den := by
  simp [F64.den]

/-- Rounding to binary64 has relative error at most 2^-53. -/
theorem F64.round_ne_spec (n : Int) (d : Nat) (hd : 0 < d) :
    ∃ δ : ℚ, |δ| ≤ 1 / 2 ^ 53 ∧ (F64.round_ne n d).toRat = (n : ℚ) / d * (1 + δ) := by
  by_cases hn : n = 0
  · refine ⟨0, by rw [abs_zero]; positivity, ?_⟩
    simp [F64.round_ne, hn, F64.toRat_mk]
  · have hd0 : d ≠ 0 := by omega
    have hna : 0 < n.natAbs := Int.natAbs_pos.mpr hn
    have hspec := round_ne_pos_spec n.natAbs d hna hd
    simp only [F64.round_ne, hn, hd0, or_self, if_false, F64.toRat_mk]
    generalize (F64.round_ne_pos n.natAbs d).1 = m at hspec ⊢
    generalize (F64.round_ne_pos n.natAbs d).2 = e at hspec ⊢
    have hdq : (0 : ℚ) < d := by exact_mod_cast hd
    have hx : (0 : ℚ) < (n.natAbs : ℚ) / d := div_pos (by exact_mod_cast hna) hdq
    refine ⟨((m : ℚ) * 2 ^ e - (n.natAbs : ℚ) / d) / ((n.natAbs : ℚ) / d), ?_, ?_⟩
    · rw [abs_div, abs_of_pos hx, div_le_iff₀ hx]
      calc |(m : ℚ) * 2 ^ e - (n.natAbs : ℚ) / d| ≤ (n.natAbs : ℚ) / d / 2 ^ 53 := hspec
        _ = 1 / 2 ^ 53 * ((n.natAbs : ℚ) / d) := by ring
    · have hsn : (n : ℚ) = (n.sign : ℚ) * (n.natAbs : ℚ) := by
        have h : ((n.sign * (n.natAbs : Int) : Int) : ℚ) = (n : ℚ) := by
          rw [Int.sign_mul_natAbs]
        rw [Int.cast_mul, Int.cast_natCast] at h
        exact h.symm
      have hne : ((n.natAbs : ℚ) / d) ≠ 0 := ne_of_gt hx
      push_cast
      rw [hsn]
      field_simp
      ring

theorem F64.mul_spec (x y : F64) :
    ∃ δ : ℚ, |δ| ≤ 1 / 2 ^ 53 ∧ (F64.mul x y).toRat = x.toRat * y.toRat * (1 + δ) := by
  obtain ⟨δ, h1, h2⟩ := F64.round_ne_spec (x.num * y.num) (x.den * y.den)
    (Nat.mul_pos x.den_pos y.den_pos)
  refine ⟨δ, h1, ?_⟩
  have hxd : (x.den : ℚ) ≠ 0 := by exact_mod_cast (ne_of_gt x.den_pos)
  have hyd : (y.den : ℚ) ≠ 0 := by exact_mod_cast (ne_of_gt y.den_pos)
  rw [F64.mul, h2]
  simp only [F64.toRat]
  push_cast
  field_simp

theorem F64.div_spec (x y : F64) (hy : y.num ≠ 0) :
    ∃ δ : ℚ, |δ| ≤ 1 / 2 ^ 53 ∧ (F64.div x y).toRat = x.toRat / y.toRat * (1 + δ) := by
  have hna : 0 < y.num.natAbs := Int.natAbs_pos.mpr hy
  obtain ⟨δ, h1, h2⟩ := F64.round_ne_spec (x.num * y.den * y.num.sign) (x.den * y.num.natAbs)
    (Nat.mul_pos x.den_pos hna)
  refine ⟨δ, h1, ?_⟩
  have hxd : (x.den : ℚ) ≠ 0 := by exact_mod_cast (ne_of_gt x.den_pos)
  have hyd : (y.den : ℚ) ≠ 0 := by exact_mod_cast (ne_of_gt y.den_pos)
  have hyn : (y.num : ℚ) ≠ 0 := by exact_mod_cast hy
  have hya : (y.num.natAbs : ℚ) ≠ 0 := by exact_mod_cast (ne_of_gt hna)
  have hsn : (y.num : ℚ) = (y.num.sign : ℚ) * (y.num.natAbs : ℚ) := by
    have h : ((y.num.sign * (y.num.natAbs : Int) : Int) : ℚ) = (y.num : ℚ) := by
      rw [Int.sign_mul_natAbs]
    rw [Int.cast_mul, Int.cast_natCast] at h
    exact h.symm
  have hss : (y.num.sign : ℚ) * (y.num.sign : ℚ) = 1 := by
    rcases Int.lt_or_gt_of_ne hy with h | h
    · rw [Int.sign_eq_neg_one_of_neg h]; norm_num
    · rw [Int.sign_eq_one_of_pos h]; norm_num
  rw [F64.div, h2]
  simp only [F64.toRat]
  push_cast
  have : (x.num : ℚ) * y.den * y.num.sign / (x.den * y.num.natAbs) =
      (x.num : ℚ) / x.den / (y.num / y.den) := by
    rw [hsn]
    have hsgn : (y.num.sign : ℚ) ≠ 0 := by
      intro h0
      rw [h0] at hss
      norm_num at hss
    field_simp
    linear_combination ((x.num : ℚ) * y.den * x.den * y.num.natAbs) * hss
  rw [this]

/-- The magnitude of `round_half_away n d` is the floor of `|n / d| + 1/2`. -/
theorem round_half_away_spec (n : Int) (d : Nat) (hd : 0 < d) :
    ∃ K : Nat, round_half_away n d = n.sign * (K : Int) ∧
      K = (2 * n.natAbs + d) / (2 * d) ∧
      (K : ℚ) ≤ |(n : ℚ) / d| + 1 / 2 ∧ |(n : ℚ) / d| + 1 / 2 < (K : ℚ) + 1 := by
  refine ⟨(2 * n.natAbs + d) / (2 * d), rfl, rfl, ?_, ?_⟩
  all_goals
    have hdq : (0 : ℚ) < d := by exact_mod_cast hd
    have habs : |(n : ℚ) / d| = (n.natAbs : ℚ) / d := by
      rw [abs_div, abs_of_pos hdq, Nat.cast_natAbs, Int.cast_abs]
    rw [habs]
    have hq := Nat.div_add_mod (2 * n.natAbs + d) (2 * d)
    have hr := Nat.mod_lt (2 * n.natAbs + d) (by omega : 0 < 2 * d)
    generalize (2 * n.natAbs + d) / (2 * d) = K at hq ⊢
    generalize (2 * n.natAbs + d) % (2 * d) = r at hq hr
    have hqq : (2 : ℚ) * d * K + r = 2 * n.natAbs + d := by exact_mod_cast hq
    have hrq : (r : ℚ) < 2 * d := by exact_mod_cast hr
    have hr0 : (0 : ℚ) ≤ r := Nat.cast_nonneg r
    have hnd : (n.natAbs : ℚ) / d * d = n.natAbs := div_mul_cancel₀ _ (ne_of_gt hdq)
  · by_contra h
    push_neg at h
    nlinarith [mul_pos (by linarith : (0 : ℚ) < (K : ℚ) - ((n.natAbs : ℚ) / d + 1 / 2)) hdq]
  · by_contra h
    push_neg at h
    nlinarith [mul_nonneg (by linarith : (0 : ℚ) ≤ (n.natAbs : ℚ) / d + 1 / 2 - ((K : ℚ) + 1))
      (le_of_lt hdq)]

/-- When a binary64 value is `n / d` up to a relative error of 2^-51, its
`std::round` has the sign of `n` and the floor of the perturbed magnitude
plus one half. -/
theorem std_round_spec (F : F64) (n : Int) (d : Nat) (hd : 0 < d) (ε : ℚ)
    (hε : |ε| ≤ 1 / 2 ^ 51) (h : F.toRat = (n : ℚ) / d * (1 + ε)) :
    ∃ K : Nat, std_round F = n.sign * (K : Int) ∧
      (K : ℚ) ≤ |(n : ℚ) / d| * (1 + ε) + 1 / 2 ∧
      |(n : ℚ) / d| * (1 + ε) + 1 / 2 < (K : ℚ) + 1 := by
  obtain ⟨K, h1, _, h3, h4⟩ := round_half_away_spec F.num F.den F.den_pos
  have hdq : (0 : ℚ) < d := by exact_mod_cast hd
  have hFd : (0 : ℚ) < F.den := by exact_mod_cast F.den_pos
  have he : (0 : ℚ) < 1 + ε := by
    have := (abs_le.mp hε).1
    have : (1 : ℚ) / 2 ^ 51 < 1 := by norm_num
    linarith
  have hp : (F.num : ℚ) / F.den = (n : ℚ) / d * (1 + ε) := h
  have habs : |(F.num : ℚ) / F.den| = |(n : ℚ) / d| * (1 + ε) := by
    rw [hp, abs_mul, abs_of_pos he]
  rw [habs] at h3 h4
  refine ⟨K, ?_, h3, h4⟩
  rw [std_round, h1]
  congr 1
  -- the signs agree
  have hnum : (F.num : ℚ) = (n : ℚ) / d * (1 + ε) * F.den := by
    rw [← hp]
    field_simp
  rcases lt_trichotomy n 0 with hn | hn | hn
  · have : (F.num : ℚ) < 0 := by
      rw [hnum]
      have hnq : (n : ℚ) < 0 := by exact_mod_cast hn
      have : (n : ℚ) / d < 0 := div_neg_of_neg_of_pos hnq hdq
      exact mul_neg_of_neg_of_pos (mul_neg_of_neg_of_pos this he) hFd
    have hF : F.num < 0 := by exact_mod_cast this
    rw [Int.sign_eq_neg_one_of_neg hn, Int.sign_eq_neg_one_of_neg hF]
  · subst hn
    have : (F.num : ℚ) = 0 := by
      rw [hnum]
      simp
    have hF : F.num = 0 := by exact_mod_cast this
    rw [hF]
  · have : (0 : ℚ) < F.num := by
      rw [hnum]
      have hnq : (0 : ℚ) < n := by exact_mod_cast hn
      exact mul_pos (mul_pos (div_pos hnq hdq) he) hFd
    have hF : 0 < F.num := by exact_mod_cast this
    rw [Int.sign_eq_one_of_pos hn, Int.sign_eq_one_of_pos hF]

theorem near_exact (n : Int) (d K : Nat) (hd : 0 < d) (ε : ℚ) (hε : |ε| ≤ 1 / 2 ^ 51)
    (h1 : (K : ℚ) ≤ |(n : ℚ) / d| * (1 + ε) + 1 / 2)
    (h2 : |(n : ℚ) / d| * (1 + ε) + 1 / 2 < (K : ℚ) + 1)
    (hsmall : n.natAbs < 2 ^ 50) (htie : (2 * n.natAbs + d) % (2 * d) ≠ 0) :
    K = (2 * n.natAbs + d) / (2 * d) := by
  have hdq : (0 : ℚ) < d := by exact_mod_cast hd
  have habs : |(n : ℚ) / d| = (n.natAbs : ℚ) / d := by
    rw [abs_div, abs_of_pos hdq, Nat.cast_natAbs, Int.cast_abs]
  rw [habs] at h1 h2
  have hq := Nat.div_add_mod (2 * n.natAbs + d) (2 * d)
  have hr := Nat.mod_lt (2 * n.natAbs + d) (by omega : 0 < 2 * d)
  generalize (2 * n.natAbs + d) / (2 * d) = K2 at hq ⊢
  generalize (2 * n.natAbs + d) % (2 * d) = r at hq hr htie
  generalize n.natAbs = a at *
  have hr1 : 1 ≤ r := by omega
  have hqq : (2 : ℚ) * d * K2 + r = 2 * a + d := by exact_mod_cast hq
  have hrq : (r : ℚ) + 1 ≤ 2 * d := by exact_mod_cast hr
  have hr1q : (1 : ℚ) ≤ r := by exact_mod_cast hr1
  have haq : (a : ℚ) + 1 ≤ 2 ^ 50 := by exact_mod_cast hsmall
  have ha0 : (0 : ℚ) ≤ a := Nat.cast_nonneg a
  obtain ⟨e1, e2⟩ := abs_le.mp hε
  have hv : (a : ℚ) / d * d = a := div_mul_cancel₀ _ (ne_of_gt hdq)
  have hv0 : (0 : ℚ) ≤ (a : ℚ) / d := div_nonneg ha0 (le_of_lt hdq)
  -- the perturbation is below 1 / (2 d)
  have hp1 : (a : ℚ) / d * ε * (2 * d) < 1 := by
    have : (a : ℚ) / d * ε * (2 * d) = 2 * a * ε := by
      calc (a : ℚ) / d * ε * (2 * d) = 2 * ((a : ℚ) / d * d) * ε := by ring
        _ = 2 * a * ε := by rw [hv]
    rw [this]
    have : 2 * (a : ℚ) * ε ≤ 2 * a * (1 / 2 ^ 51) :=
      mul_le_mul_of_nonneg_left e2 (by linarith)
    have : 2 * (a : ℚ) * (1 / 2 ^ 51) < 1 := by
      rw [mul_one_div, div_lt_one (by positivity)]
      norm_num at haq ⊢
      linarith
    linarith
  have hp2 : -1 < (a : ℚ) / d * ε * (2 * d) := by
    have : (a : ℚ) / d * ε * (2 * d) = 2 * a * ε := by
      calc (a : ℚ) / d * ε * (2 * d) = 2 * ((a : ℚ) / d * d) * ε := by ring
        _ = 2 * a * ε := by rw [hv]
    rw [this]
    have : 2 * (a : ℚ) * (-(1 / 2 ^ 51)) ≤ 2 * a * ε :=
      mul_le_mul_of_nonneg_left e1 (by linarith)
    have : 2 * (a : ℚ) * (1 / 2 ^ 51) < 1 := by
      rw [mul_one_div, div_lt_one (by positivity)]
      norm_num at haq ⊢
      linarith
    linarith
  -- in units of 1 / (2 d)
  have k1 : ((K : ℚ) - K2 - 1) * (2 * d) < 0 := by
    have : (K : ℚ) * (2 * d) ≤ ((a : ℚ) / d * (1 + ε) + 1 / 2) * (2 * d) :=
      mul_le_mul_of_nonneg_right h1 (by linarith)
    have e : ((a : ℚ) / d * (1 + ε) + 1 / 2) * (2 * d) =
        2 * ((a : ℚ) / d * d) + d + (a : ℚ) / d * ε * (2 * d) := by ring
    rw [e, hv] at this
    nlinarith
  have k2 : ((K2 : ℚ) - K - 1) * (2 * d) < 0 := by
    have : ((a : ℚ) / d * (1 + ε) + 1 / 2) * (2 * d) < ((K : ℚ) + 1) * (2 * d) :=
      mul_lt_mul_of_pos_right h2 (by linarith)
    have e : ((a : ℚ) / d * (1 + ε) + 1 / 2) * (2 * d) =
        2 * ((a : ℚ) / d * d) + d + (a : ℚ) / d * ε * (2 * d) := by ring
    rw [e, hv] at this
    nlinarith
  have k3 : (K : ℚ) - K2 - 1 < 0 := by
    by_contra hc
    push_neg at hc
    have := mul_nonneg hc (by linarith : (0 : ℚ) ≤ 2 * d)
    linarith
  have k4 : (K2 : ℚ) - K - 1 < 0 := by
    by_contra hc
    push_neg at hc
    have := mul_nonneg hc (by linarith : (0 : ℚ) ≤ 2 * d)
    linarith
  have k5 : (K : ℚ) < K2 + 1 := by linarith
  have k6 : (K2 : ℚ) < K + 1 := by linarith
  have k7 : K < K2 + 1 := by exact_mod_cast k5
  have k8 : K2 < K + 1 := by exact_mod_cast k6
  omega

theorem near_lower (n : Int) (d K z : Nat) (ε : ℚ) (hε : |ε| ≤ 1 / 2 ^ 51)
    (h2 : |(n : ℚ) / d| * (1 + ε) + 1 / 2 < (K : ℚ) + 1)
    (hz : (z : ℚ) ≤ |(n : ℚ) / d|) (hz50 : z ≤ 2 ^ 50) : z ≤ K := by
  obtain ⟨e1, e2⟩ := abs_le.mp hε
  have hzq : (z : ℚ) ≤ 2 ^ 50 := by exact_mod_cast hz50
  have hz0 : (0 : ℚ) ≤ z := Nat.cast_nonneg z
  have he : (0 : ℚ) < 1 + ε := by
    have : (1 : ℚ) / 2 ^ 51 < 1 := by norm_num
    linarith
  have s1 : (z : ℚ) * (1 + ε) ≤ |(n : ℚ) / d| * (1 + ε) :=
    mul_le_mul_of_nonneg_right hz (le_of_lt he)
  have s2 : (z : ℚ) * (-(1 / 2 ^ 51)) ≤ z * ε := mul_le_mul_of_nonneg_left e1 hz0
  have s3 : (z : ℚ) * (1 / 2 ^ 51) ≤ 1 / 2 := by
    rw [mul_one_div, div_le_iff₀ (by positivity)]
    norm_num at hzq ⊢
    linarith
  have s4 : (z : ℚ) < K + 1 := by nlinarith
  have : z < K + 1 := by exact_mod_cast s4
  omega

theorem near_upper (n : Int) (d K z : Nat) (ε : ℚ) (hε : |ε| ≤ 1 / 2 ^ 51)
    (h1 : (K : ℚ) ≤ |(n : ℚ) / d| * (1 + ε) + 1 / 2)
    (hz : |(n : ℚ) / d| ≤ (z : ℚ)) (hz50 : z < 2 ^ 50) : K ≤ z := by
  obtain ⟨e1, e2⟩ := abs_le.mp hε
  have hzq : (z : ℚ) + 1 ≤ 2 ^ 50 := by exact_mod_cast hz50
  have hz0 : (0 : ℚ) ≤ z := Nat.cast_nonneg z
  have he : (0 : ℚ) < 1 + ε := by
    have : (1 : ℚ) / 2 ^ 51 < 1 := by norm_num
    linarith
  have s1 : |(n : ℚ) / d| * (1 + ε) ≤ (z : ℚ) * (1 + ε) :=
    mul_le_mul_of_nonneg_right hz (le_of_lt he)
  have s2 : (z : ℚ) * ε ≤ z * (1 / 2 ^ 51) := mul_le_mul_of_nonneg_left e2 hz0
  have s3 : (z : ℚ) * (1 / 2 ^ 51) < 1 / 2 := by
    rw [mul_one_div, div_lt_iff₀ (by positivity)]
    norm_num at hzq ⊢
    linarith
  have s4 : (K : ℚ) < z + 1 := by nlinarith
  have : K < z + 1 := by exact_mod_cast s4
  omega

theorem rel_err_mul (δ1 δ2 : ℚ) (h1 : |δ1| ≤ 1 / 2 ^ 53) (h2 : |δ2| ≤ 1 / 2 ^ 53) :
    |(1 + δ1) * (1 + δ2) - 1| ≤ 1 / 2 ^ 51 := by
  obtain ⟨a1, a2⟩ := abs_le.mp h1
  obtain ⟨b1, b2⟩ := abs_le.mp h2
  rw [abs_le]
  have u : (1 : ℚ) / 2 ^ 53 = 1 / 9007199254740992 := by norm_num
  have v : (1 : ℚ) / 2 ^ 51 = 1 / 2251799813685248 := by norm_num
  rw [u] at a1 a2 b1 b2
  rw [v]
  constructor <;> nlinarith

theorem rel_err_div (δ1 δ2 : ℚ) (h1 : |δ1| ≤ 1 / 2 ^ 53) (h2 : |δ2| ≤ 1 / 2 ^ 53) :
    |(1 + δ2) / (1 + δ1) - 1| ≤ 1 / 2 ^ 51 := by
  obtain ⟨a1, a2⟩ := abs_le.mp h1
  obtain ⟨b1, b2⟩ := abs_le.mp h2
  have u : (1 : ℚ) / 2 ^ 53 = 1 / 9007199254740992 := by norm_num
  have v : (1 : ℚ) / 2 ^ 51 = 1 / 2251799813685248 := by norm_num
  rw [u] at a1 a2 b1 b2
  rw [v]
  have hp : (0 : ℚ) < 1 + δ1 := by linarith
  have e : (1 + δ2) / (1 + δ1) - 1 = (δ2 - δ1) / (1 + δ1) := by
    field_simp
  rw [e, abs_div, abs_of_pos hp, div_le_iff₀ hp, abs_le]
  constructor <;> nlinarith

theorem F64.num_ofInt (n : Int) : (F64.ofInt n).num = n := by
  simp [F64.ofInt, F64.num]

/-- The product `c * (a / b)` in binary64 is `c * a / b` up to a relative error
of 2^-51. -/
theorem mul_div_spec (c a : Int) (b : Nat) (hb : 0 < b) :
    ∃ ε : ℚ, |ε| ≤ 1 / 2 ^ 51 ∧
      (F64.mul (F64.ofInt c) (F64.div (F64.ofInt a) (F64.ofInt b))).toRat =
        ((c * a : Int) : ℚ) / b * (1 + ε) := by
  have hbn : (F64.ofInt (b : Int)).num ≠ 0 := by
    rw [F64.num_ofInt]
    omega
  obtain ⟨δ1, h1, e1⟩ := F64.div_spec (F64.ofInt a) (F64.ofInt b) hbn
  obtain ⟨δ2, h2, e2⟩ := F64.mul_spec (F64.ofInt c) (F64.div (F64.ofInt a) (F64.ofInt b))
  refine ⟨(1 + δ1) * (1 + δ2) - 1, rel_err_mul δ1 δ2 h1 h2, ?_⟩
  rw [e2, e1, F64.toRat_ofInt, F64.toRat_ofInt, F64.toRat_ofInt]
  push_cast
  ring

/-- The quotient `c / (a / b)` in binary64 is `c * b / a` up to a relative
error of 2^-51. -/
theorem div_div_spec (c : Int) (a b : Nat) (ha : 0 < a) (hb : 0 < b) :
    ∃ ε : ℚ, |ε| ≤ 1 / 2 ^ 51 ∧
      (F64.div (F64.ofInt c) (F64.div (F64.ofInt a) (F64.ofInt b))).toRat =
        ((c * b : Int) : ℚ) / a * (1 + ε) := by
  have hbn : (F64.ofInt (b : Int)).num ≠ 0 := by
    rw [F64.num_ofInt]
    omega
  obtain ⟨δ1, h1, e1⟩ := F64.div_spec (F64.ofInt a) (F64.ofInt b) hbn
  have haq : (0 : ℚ) < a := by exact_mod_cast ha
  have hbq : (0 : ℚ) < b := by exact_mod_cast hb
  have hp : (0 : ℚ) < 1 + δ1 := by
    have := (abs_le.mp h1).1
    have : (1 : ℚ) / 2 ^ 53 < 1 := by norm_num
    linarith
  rw [F64.toRat_ofInt, F64.toRat_ofInt] at e1
  have hpos : (0 : ℚ) < (F64.div (F64.ofInt a) (F64.ofInt b)).toRat := by
    rw [e1]
    push_cast
    exact mul_pos (div_pos haq hbq) hp
  have hnum : (F64.div (F64.ofInt a) (F64.ofInt b)).num ≠ 0 := by
    intro h0
    rw [F64.toRat, h0] at hpos
    simp at hpos
  obtain ⟨δ2, h2, e2⟩ := F64.div_spec (F64.ofInt c) _ hnum
  refine ⟨(1 + δ2) / (1 + δ1) - 1, rel_err_div δ1 δ2 h1 h2, ?_⟩
  rw [e2, e1, F64.toRat_ofInt]
  push_cast
  field_simp

/-- The `std::round` of a binary64 value that is `n / d` up to a relative
error of 2^-51: it has the sign of `n`; its magnitude `K` lies between the
floor and the ceiling of `|n| / d`; and it is the exact rounding, halves
away from zero, unless `|n| / d` is exactly halfway between two integers. -/
theorem std_round_near (F : F64) (n : Int) (d : Nat) (hd : 0 < d) (ε : ℚ)
    (hε : |ε| ≤ 1 / 2 ^ 51) (h : F.toRat = (n : ℚ) / d * (1 + ε)) :
    ∃ K : Nat, std_round F = n.sign * (K : Int) ∧
      (n.natAbs < 2 ^ 50 → (2 * n.natAbs + d) % (2 * d) ≠ 0 →
        std_round F = round_half_away n d) ∧
      (∀ z : Nat, z * d ≤ n.natAbs → z ≤ 2 ^ 50 → z ≤ K) ∧
      (∀ z : Nat, n.natAbs ≤ z * d → z < 2 ^ 50 → K ≤ z) := by
  obtain ⟨K, k1, k2, k3⟩ := std_round_spec F n d hd ε hε h
  have hdq : (0 : ℚ) < d := by exact_mod_cast hd
  have habs : |(n : ℚ) / d| = (n.natAbs : ℚ) / d := by
    rw [abs_div, abs_of_pos hdq, Nat.cast_natAbs, Int.cast_abs]
  refine ⟨K, k1, ?_, ?_, ?_⟩
  · intro hs ht
    rw [k1, near_exact n d K hd ε hε k2 k3 hs ht]
    rfl
  · intro z hz hz50
    apply near_lower n d K z ε hε k3 _ hz50
    rw [habs, le_div_iff₀ hdq]
    exact_mod_cast hz
  · intro z hz hz50
    apply near_upper n d K z ε hε k2 _ hz50
    rw [habs, div_le_iff₀ hdq]
    exact_mod_cast hz

/-- The rounded binary64 product `c * (a / b)` of positive integers, converted
to `int`: defined when `c * a / b` does not exceed `INT_MAX`; the result is
within 1 of `c * a / b`, between its floor and ceiling, and is the exact
rounding unless `c * a / b` is exactly halfway between two integers. -/
theorem scaled_mul_cast (c a b : Nat) (hc : 0 < c) (ha : 0 < a) (hb : 0 < b)
    (hr : c * a ≤ (2 ^ 31 - 1) * b) :
    ∃ K : Nat,
      to_int32 (std_round (F64.mul (F64.ofInt c) (F64.div (F64.ofInt a) (F64.ofInt b))))
        = some (K : Int) ∧
      K * b < c * a + b ∧ c * a < K * b + b ∧
      (∀ z : Nat, z * b ≤ c * a → z ≤ 2 ^ 50 → z ≤ K) ∧
      (∀ z : Nat, c * a ≤ z * b → z < 2 ^ 50 → K ≤ z) ∧
      (c * a < 2 ^ 50 → (2 * (c * a) + b) % (2 * b) ≠ 0 →
        (K : Int) = round_half_away ((c * a : Nat) : Int) b) := by
  obtain ⟨ε, hε, hF⟩ := mul_div_spec c a b hb
  obtain ⟨K, k1, k2, k3, k4⟩ := std_round_near _ ((c : Int) * (a : Int)) b hb ε hε hF
  have hpos : (0 : Int) < (c : Int) * (a : Int) := by positivity
  have hna : ((c : Int) * (a : Int)).natAbs = c * a := by
    rw [Int.natAbs_mul]
    simp
  rw [Int.sign_eq_one_of_pos hpos, one_mul] at k1
  rw [hna] at k2 k3 k4
  have hK : K ≤ 2 ^ 31 - 1 := k4 (2 ^ 31 - 1) hr (by norm_num)
  refine ⟨K, ?_, ?_, ?_, k3, k4, ?_⟩
  · rw [k1]
    have : (K : Int) < 2 ^ 31 := by
      have : K < 2 ^ 31 := by omega
      exact_mod_cast this
    have h0 : -(2 : Int) ^ 31 ≤ (K : Int) := by
      have : (0 : Int) ≤ (K : Int) := Int.natCast_nonneg K
      omega
    unfold to_int32
    rw [if_pos ⟨h0, this⟩]
  · -- K is at most the ceiling
    have hz : c * a ≤ ((c * a + b - 1) / b) * b := by
      have h1 := Nat.div_add_mod (c * a + b - 1) b
      have h2 := Nat.mod_lt (c * a + b - 1) hb
      have h3 : b * ((c * a + b - 1) / b) = (c * a + b - 1) / b * b := Nat.mul_comm _ _
      omega
    have hz2 : (c * a + b - 1) / b < 2 ^ 50 := by
      have : (c * a + b - 1) / b ≤ 2 ^ 31 - 1 := by
        rw [Nat.div_le_iff_le_mul_add_pred hb]
        have : b * (2 ^ 31 - 1) = (2 ^ 31 - 1) * b := Nat.mul_comm _ _
        omega
      omega
    have hle := k4 _ hz hz2
    have h1 := Nat.div_mul_le_self (c * a + b - 1) b
    have h2 : K * b ≤ (c * a + b - 1) / b * b := Nat.mul_le_mul_right b hle
    omega
  · -- K is at least the floor
    have hz : (c * a / b) * b ≤ c * a := Nat.div_mul_le_self _ _
    have hz2 : c * a / b ≤ 2 ^ 50 := by
      have : c * a / b ≤ 2 ^ 31 - 1 := by
        rw [Nat.div_le_iff_le_mul_add_pred hb]
        have : b * (2 ^ 31 - 1) = (2 ^ 31 - 1) * b := Nat.mul_comm _ _
        omega
      omega
    have hle := k3 _ hz hz2
    have h1 := Nat.div_add_mod (c * a) b
    have h2 := Nat.mod_lt (c * a) hb
    have h3 : b * (c * a / b) = c * a / b * b := Nat.mul_comm _ _
    have h4 : c * a / b * b ≤ K * b := Nat.mul_le_mul_right b hle
    omega
  · intro hs ht
    rw [← k1]
    have := k2 hs ht
    rw [this]
    push_cast
    rfl

/-- The rounded binary64 quotient `c / (a / b)` of positive integers, converted
to `int`: as `scaled_mul_cast`, for the value `c * b / a`. -/
theorem scaled_div_cast (c a b : Nat) (hc : 0 < c) (ha : 0 < a) (hb : 0 < b)
    (hr : c * b ≤ (2 ^ 31 - 1) * a) :
    ∃ K : Nat,
      to_int32 (std_round (F64.div (F64.ofInt c) (F64.div (F64.ofInt a) (F64.ofInt b))))
        = some (K : Int) ∧
      K * a < c * b + a ∧ c * b < K * a + a ∧
      (∀ z : Nat, z * a ≤ c * b → z ≤ 2 ^ 50 → z ≤ K) ∧
      (∀ z : Nat, c * b ≤ z * a → z < 2 ^ 50 → K ≤ z) ∧
      (c * b < 2 ^ 50 → (2 * (c * b) + a) % (2 * a) ≠ 0 →
        (K : Int) = round_half_away ((c * b : Nat) : Int) a) := by
  obtain ⟨ε, hε, hF⟩ := div_div_spec c a b ha hb
  obtain ⟨K, k1, k2, k3, k4⟩ := std_round_near _ ((c : Int) * (b : Int)) a ha ε hε hF
  have hpos : (0 : Int) < (c : Int) * (b : Int) := by positivity
  have hna : ((c : Int) * (b : Int)).natAbs = c * b := by
    rw [Int.natAbs_mul]
    simp
  rw [Int.sign_eq_one_of_pos hpos, one_mul] at k1
  rw [hna] at k2 k3 k4
  have hK : K ≤ 2 ^ 31 - 1 := k4 (2 ^ 31 - 1) hr (by norm_num)
  refine ⟨K, ?_, ?_, ?_, k3, k4, ?_⟩
  · rw [k1]
    have : (K : Int) < 2 ^ 31 := by
      have : K < 2 ^ 31 := by omega
      exact_mod_cast this
    have h0 : -(2 : Int) ^ 31 ≤ (K : Int) := by
      have : (0 : Int) ≤ (K : Int) := Int.natCast_nonneg K
      omega
    unfold to_int32
    rw [if_pos ⟨h0, this⟩]
  · have hz : c * b ≤ ((c * b + a - 1) / a) * a := by
      have h1 := Nat.div_add_mod (c * b + a - 1) a
      have h2 := Nat.mod_lt (c * b + a - 1) ha
      have h3 : a * ((c * b + a - 1) / a) = (c * b + a - 1) / a * a := Nat.mul_comm _ _
      omega
    have hz2 : (c * b + a - 1) / a < 2 ^ 50 := by
      have : (c * b + a - 1) / a ≤ 2 ^ 31 - 1 := by
        rw [Nat.div_le_iff_le_mul_add_pred ha]
        have : a * (2 ^ 31 - 1) = (2 ^ 31 - 1) * a := Nat.mul_comm _ _
        omega
      omega
    have hle := k4 _ hz hz2
    have h1 := Nat.div_mul_le_self (c * b + a - 1) a
    have h2 : K * a ≤ (c * b + a - 1) / a * a := Nat.mul_le_mul_right a hle
    omega
  · have hz : (c * b / a) * a ≤ c * b := Nat.div_mul_le_self _ _
    have hz2 : c * b / a ≤ 2 ^ 50 := by
      have : c * b / a ≤ 2 ^ 31 - 1 := by
        rw [Nat.div_le_iff_le_mul_add_pred ha]
        have : a * (2 ^ 31 - 1) = (2 ^ 31 - 1) * a := Nat.mul_comm _ _
        omega
      omega
    have hle := k3 _ hz hz2
    have h1 := Nat.div_add_mod (c * b) a
    have h2 := Nat.mod_lt (c * b) ha
    have h3 : a * (c * b / a) = c * b / a * a := Nat.mul_comm _ _
    have h4 : c * b / a * a ≤ K * a := Nat.mul_le_mul_right a hle
    omega
  · intro hs ht
    rw [← k1]
    have := k2 hs ht
    rw [this]
    push_cast
    rfl

/-! ### Runner invariants -/

section RunnerLemmas

variable {Item : Type}

theorem wrap_int64_succ (c : Int) (h0 : 0 ≤ c) (h1 : c + 1 < 2 ^ 63) :
    wrap_int64 (c + 1) = c + 1 := by
  unfold wrap_int64
  have h : (c + 1 + 2 ^ 63) % 2 ^ 64 = c + 1 + 2 ^ 63 := by
    apply Int.emod_eq_of_lt <;> omega
  rw [h]; ring

theorem AsyncRunner.WF.mono {c c2 : Int} {r : AsyncRunner Item} (h : r.WF c) (hc : c ≤ c2) :
    r.WF c2 where
  compl_le := le_trans h.compl_le hc
  queue_le := fun q hq => le_trans (h.queue_le q hq) hc
  queue_sorted := h.queue_sorted
  working_le := fun w hw => le_trans (h.working_le w hw) hc
  working_lt := h.working_lt
  status_le := fun j st hj => le_trans (h.status_le j st hj) hc

theorem AsyncRunner.init_runner_wf : (AsyncRunner.init : AsyncRunner Item).WF 0 where
  compl_le := by simp [AsyncRunner.init]
  queue_le := by simp [AsyncRunner.init, AsyncRunner.queued_ids]
  queue_sorted := by simp [AsyncRunner.init, AsyncRunner.queued_ids]
  working_le := by simp [AsyncRunner.init]
  working_lt := by simp [AsyncRunner.init]
  status_le := by simp [AsyncRunner.init]

theorem AsyncRunner.post_wf {c : Int} {r : AsyncRunner Item} (item : Item) (h : r.WF c)
    (h0 : 0 ≤ c) (h1 : c + 1 < 2 ^ 63) : (r.post c item).2.2.WF (c + 1) := by
  have hw := wrap_int64_succ c h0 h1
  refine ⟨?_, ?_, ?_, ?_, ?_, ?_⟩
  · have := h.compl_le
    simp only [AsyncRunner.post]; omega
  · intro q hq
    simp only [AsyncRunner.post, AsyncRunner.queued_ids, List.map_append, List.map_cons,
      List.map_nil, List.mem_append, List.mem_singleton] at hq
    rcases hq with hq | hq
    · have := h.queue_le q hq; omega
    · omega
  · simp only [AsyncRunner.post, AsyncRunner.queued_ids, List.map_append, List.map_cons,
      List.map_nil]
    rw [List.pairwise_append]
    refine ⟨h.queue_sorted, by simp, ?_⟩
    intro a ha b hb
    simp only [List.mem_singleton] at hb
    have := h.queue_le a ha
    omega
  · intro w hw2
    have := h.working_le w hw2
    omega
  · intro w hw2 q hq
    simp only [AsyncRunner.post, AsyncRunner.queued_ids, List.map_append, List.map_cons,
      List.map_nil, List.mem_append, List.mem_singleton] at hq
    rcases hq with hq | hq
    · exact h.working_lt w hw2 q hq
    · have := h.working_le w hw2
      omega
  · intro j st hj
    simp only [AsyncRunner.post, AsyncRunner.emplace] at hj
    by_cases hjc : j = wrap_int64 (c + 1)
    · omega
    · rw [if_neg hjc] at hj
      have := h.status_le j st hj
      omega

theorem AsyncRunner.working_pick_wf {c : Int} {r : AsyncRunner Item} (h : r.WF c) :
    r.working_pick.WF c := by
  unfold AsyncRunner.working_pick
  split
  · exact h
  · split
    · exact h
    · rename_i hwo
      split
      · rename_i hq
        exact ⟨h.compl_le, h.queue_le, h.queue_sorted, h.working_le, h.working_lt, h.status_le⟩
      · rename_i id item rest hq
        have hids : r.queued_ids = id :: rest.map Prod.fst := by
          simp [AsyncRunner.queued_ids, hq]
        have hs := h.queue_sorted
        rw [hids] at hs
        have hs2 := List.pairwise_cons.mp hs
        refine ⟨h.compl_le, ?_, ?_, ?_, ?_, ?_⟩
        · intro q hq2
          apply h.queue_le q
          rw [hids]
          exact List.mem_cons_of_mem _ hq2
        · exact hs2.2
        · intro w hw
          simp only [Option.some.injEq] at hw
          subst hw
          apply h.queue_le
          rw [hids]
          exact List.mem_cons_self _ _
        · intro w hw q hq2
          simp only [Option.some.injEq] at hw
          subst hw
          exact hs2.1 q hq2
        · intro j st hj
          simp only [AsyncRunner.assign] at hj
          by_cases hji : j = id
          · subst hji
            apply h.queue_le
            rw [hids]
            exact List.mem_cons_self _ _
          · rw [if_neg hji] at hj
            exact h.status_le j st hj

theorem AsyncRunner.working_finish_wf {c : Int} {r : AsyncRunner Item} (ret : Bool)
    (h : r.WF c) : (r.working_finish ret).WF c := by
  unfold AsyncRunner.working_finish
  split
  · exact h
  · rename_i id item hwo
    refine ⟨?_, h.queue_le, h.queue_sorted, ?_, ?_, ?_⟩
    · exact h.working_le _ hwo
    · intro w hw; simp at hw
    · intro w hw; simp at hw
    · intro j st hj
      simp only [AsyncRunner.assign] at hj
      by_cases hji : j = id
      · subst hji
        exact h.working_le _ hwo
      · rw [if_neg hji] at hj
        exact h.status_le j st hj

/-- The three lock scopes of `clear()` in a row: the queue is emptied, the
cursor set to the counter and the status map wiped. -/
theorem AsyncRunner.clear_eq (c : Int) (r : AsyncRunner Item) :
    AsyncRunner.clear c r =
      { r with queue_ := [], compl_id_ := c, status_map_ := fun _ => none } := rfl

theorem AsyncRunner.clear_wf {c : Int} {r : AsyncRunner Item} (h : r.WF c) :
    (r.clear c).WF c where
  compl_le := by simp [AsyncRunner.clear_eq]
  queue_le := by simp [AsyncRunner.clear_eq, AsyncRunner.queued_ids]
  queue_sorted := by simp [AsyncRunner.clear_eq, AsyncRunner.queued_ids]
  working_le := h.working_le
  working_lt := by simp [AsyncRunner.clear_eq, AsyncRunner.queued_ids]
  status_le := by simp [AsyncRunner.clear_eq]

theorem AsyncRunner.release_wf {c : Int} {r : AsyncRunner Item} (h : r.WF c) :
    r.release.WF c :=
  ⟨h.compl_le, h.queue_le, h.queue_sorted, h.working_le, h.working_lt, h.status_le⟩


theorem AsyncRunner.post_phase {c id : Int} {r : AsyncRunner Item} (item : Item)
    (h0 : 0 ≤ c) (h1 : c + 1 < 2 ^ 63) (hid : id ≤ c) {ph : Phase}
    (hp : r.in_phase id ph) : (r.post c item).2.2.in_phase id ph := by
  have hw := wrap_int64_succ c h0 h1
  have hne : id ≠ wrap_int64 (c + 1) := by omega
  have hst : (r.post c item).2.2.status_map_ id = r.status_map_ id := by
    simp [AsyncRunner.post, AsyncRunner.emplace, hne]
  have hq : ∀ j, j ≠ wrap_int64 (c + 1) →
      (j ∈ (r.post c item).2.2.queued_ids ↔ j ∈ r.queued_ids) := by
    intro j hj
    simp [AsyncRunner.post, AsyncRunner.queued_ids, hj]
  have hwo : (r.post c item).2.2.working_on = r.working_on := rfl
  have hco : (r.post c item).2.2.compl_id_ = r.compl_id_ := rfl
  cases ph <;> simp only [AsyncRunner.in_phase, hst, hq id hne, hwo, hco] at hp ⊢ <;> exact hp

theorem AsyncRunner.working_pick_phase {c id : Int} {r : AsyncRunner Item} (h : r.WF c)
    {ph : Phase} (hp : r.in_phase id ph) :
    r.working_pick.in_phase id ph ∨
      (ph = Phase.queued ∧ r.working_pick.in_phase id Phase.running) := by
  unfold AsyncRunner.working_pick
  split
  · exact Or.inl hp
  · split
    · exact Or.inl hp
    · rename_i hwo
      split
      · left
        cases ph <;> exact hp
      · rename_i hd item rest hq
        have hids : r.queued_ids = hd :: rest.map Prod.fst := by
          simp [AsyncRunner.queued_ids, hq]
        have hs := h.queue_sorted
        rw [hids] at hs
        have hs2 := List.pairwise_cons.mp hs
        cases ph
        · -- queued
          obtain ⟨h1, h2, h3⟩ := hp
          rw [hids, List.mem_cons] at h2
          rcases h2 with h2 | h2
          · right
            subst h2
            refine ⟨rfl, ?_, ⟨item, rfl⟩, h3⟩
            simp [AsyncRunner.assign]
          · left
            have hne : id ≠ hd := by
              have := hs2.1 id h2
              omega
            refine ⟨?_, ?_, h3⟩
            · simpa [AsyncRunner.assign, hne] using h1
            · simpa [AsyncRunner.queued_ids] using h2
        · -- running
          obtain ⟨_, ⟨it, h2⟩, _⟩ := hp
          rw [hwo] at h2
          cases h2
        · -- wiped_running
          obtain ⟨_, ⟨it, h2⟩⟩ := hp
          rw [hwo] at h2
          cases h2
        · -- done
          left
          obtain ⟨h1, h2, h3⟩ := hp
          rw [hids, List.mem_cons, not_or] at h2
          refine ⟨?_, ?_, ?_⟩
          · simpa [AsyncRunner.assign, h2.1] using h1
          · simpa [AsyncRunner.queued_ids] using h2.2
          · intro w hw
            simp only [Option.some.injEq] at hw
            subst hw
            exact fun e => h2.1 e.symm
        · -- wiped
          left
          obtain ⟨h1, h2, h3⟩ := hp
          rw [hids, List.mem_cons, not_or] at h2
          refine ⟨?_, ?_, ?_⟩
          · simpa [AsyncRunner.assign, h2.1] using h1
          · simpa [AsyncRunner.queued_ids] using h2.2
          · intro w hw
            simp only [Option.some.injEq] at hw
            subst hw
            exact fun e => h2.1 e.symm

theorem AsyncRunner.working_finish_phase {c id : Int} {r : AsyncRunner Item} (ret : Bool)
    (h : r.WF c) {ph : Phase} (hp : r.in_phase id ph) :
    ((r.working_finish ret).in_phase id ph ∧
        (r.working_finish ret).status_map_ id = r.status_map_ id) ∨
      ((ph = Phase.running ∨ ph = Phase.wiped_running) ∧
        (r.working_finish ret).in_phase id Phase.done) := by
  unfold AsyncRunner.working_finish
  split
  · exact Or.inl ⟨hp, rfl⟩
  · rename_i w item hwo
    have hlt := h.working_lt _ hwo
    cases ph
    · -- queued
      left
      obtain ⟨h1, h2, h3⟩ := hp
      have hne : id ≠ w := by
        have := hlt id h2
        simp only at this
        omega
      refine ⟨⟨?_, h2, ?_⟩, ?_⟩
      · simpa [AsyncRunner.assign, hne] using h1
      · simpa using hlt id h2
      · simp [AsyncRunner.assign, hne]
    · -- running
      right
      obtain ⟨_, ⟨it, h2⟩, _⟩ := hp
      rw [hwo] at h2
      simp only [Option.some.injEq, Prod.mk.injEq] at h2
      obtain ⟨rfl, _⟩ := h2
      refine ⟨Or.inl rfl, ?_, ?_, ?_⟩
      · cases ret <;> simp [AsyncRunner.assign]
      · intro hmem
        have := hlt w hmem
        simp at this
      · intro w2 hw2
        simp at hw2
    · -- wiped_running
      right
      obtain ⟨_, ⟨it, h2⟩⟩ := hp
      rw [hwo] at h2
      simp only [Option.some.injEq, Prod.mk.injEq] at h2
      obtain ⟨rfl, _⟩ := h2
      refine ⟨Or.inr rfl, ?_, ?_, ?_⟩
      · cases ret <;> simp [AsyncRunner.assign]
      · intro hmem
        have := hlt w hmem
        simp at this
      · intro w2 hw2
        simp at hw2
    · -- done
      left
      obtain ⟨h1, h2, h3⟩ := hp
      have hne : id ≠ w := fun e => h3 _ hwo e.symm
      refine ⟨⟨?_, h2, ?_⟩, ?_⟩
      · simpa [AsyncRunner.assign, hne] using h1
      · intro w2 hw2
        simp at hw2
      · simp [AsyncRunner.assign, hne]
    · -- wiped
      left
      obtain ⟨h1, h2, h3⟩ := hp
      have hne : id ≠ w := fun e => h3 _ hwo e.symm
      refine ⟨⟨?_, h2, ?_⟩, ?_⟩
      · simpa [AsyncRunner.assign, hne] using h1
      · intro w2 hw2
        simp at hw2
      · simp [AsyncRunner.assign, hne]

theorem AsyncRunner.clear_phase {c c2 id : Int} {r : AsyncRunner Item} (h : r.WF c)
    {ph : Phase} (hp : r.in_phase id ph) : (r.clear c2).in_phase id ph.wipe := by
  cases ph
  · obtain ⟨h1, h2, h3⟩ := hp
    refine ⟨rfl, by simp [AsyncRunner.clear_eq, AsyncRunner.queued_ids], ?_⟩
    intro w hw e
    have := h.working_lt w hw id h2
    omega
  · obtain ⟨h1, h2, h3⟩ := hp
    exact ⟨rfl, h2⟩
  · obtain ⟨h1, h2⟩ := hp
    exact ⟨rfl, h2⟩
  · obtain ⟨h1, h2, h3⟩ := hp
    exact ⟨rfl, by simp [AsyncRunner.clear_eq, AsyncRunner.queued_ids], h3⟩
  · obtain ⟨h1, h2, h3⟩ := hp
    exact ⟨rfl, by simp [AsyncRunner.clear_eq, AsyncRunner.queued_ids], h3⟩

theorem AsyncRunner.release_phase {id : Int} {r : AsyncRunner Item} {ph : Phase}
    (hp : r.in_phase id ph) : r.release.in_phase id ph := by
  cases ph <;> exact hp

theorem Phase.rank_wipe (ph : Phase) : ph.rank ≤ ph.wipe.rank := by
  cases ph <;> decide


theorem Proc.init_proc_wf : (Proc.init : Proc Item).WF :=
  ⟨le_refl _, fun _ => AsyncRunner.init_runner_wf⟩

theorem Proc.step_wf (p : Proc Item) (e : Ev Item) (evs : List (Ev Item)) (h : p.WF)
    (hb : p.cross_inst_id_ + (count_posts (e :: evs) : Int) < 2 ^ 63) :
    (p.step e).WF ∧
      (p.step e).cross_inst_id_ + (count_posts evs : Int) =
        p.cross_inst_id_ + (count_posts (e :: evs) : Int) ∧
      p.cross_inst_id_ ≤ (p.step e).cross_inst_id_ := by
  obtain ⟨h0, hwf⟩ := h
  cases e with
  | post j item b =>
    simp only [count_posts, Nat.cast_add, Nat.cast_one] at hb ⊢
    have h1 : p.cross_inst_id_ + 1 < 2 ^ 63 := by
      have : (0 : Int) ≤ (count_posts evs : Int) := Int.natCast_nonneg _
      omega
    have hw := wrap_int64_succ _ h0 h1
    have hc : (p.step (Ev.post j item b)).cross_inst_id_ = p.cross_inst_id_ + 1 := by
      simp [Proc.step, AsyncRunner.post, hw]
    refine ⟨⟨by omega, ?_⟩, by omega, by omega⟩
    intro k
    rw [hc]
    by_cases hk : k = j
    · subst hk
      simpa [Proc.step, Proc.set_inst] using AsyncRunner.post_wf item (hwf k) h0 h1
    · simpa [Proc.step, Proc.set_inst, hk] using (hwf k).mono (by omega)
  | pick j =>
    refine ⟨⟨h0, ?_⟩, by simp [Proc.step, count_posts], le_refl _⟩
    intro k
    by_cases hk : k = j
    · subst hk
      simpa [Proc.step, Proc.set_inst] using AsyncRunner.working_pick_wf (hwf k)
    · simpa [Proc.step, Proc.set_inst, hk] using hwf k
  | finish j ret =>
    refine ⟨⟨h0, ?_⟩, by simp [Proc.step, count_posts], le_refl _⟩
    intro k
    by_cases hk : k = j
    · subst hk
      simpa [Proc.step, Proc.set_inst] using AsyncRunner.working_finish_wf ret (hwf k)
    · simpa [Proc.step, Proc.set_inst, hk] using hwf k
  | clear j =>
    refine ⟨⟨h0, ?_⟩, by simp [Proc.step, count_posts], le_refl _⟩
    intro k
    by_cases hk : k = j
    · subst hk
      simpa [Proc.step, Proc.set_inst] using AsyncRunner.clear_wf (hwf k)
    · simpa [Proc.step, Proc.set_inst, hk] using hwf k
  | release j =>
    refine ⟨⟨h0, ?_⟩, by simp [Proc.step, count_posts], le_refl _⟩
    intro k
    by_cases hk : k = j
    · subst hk
      simpa [Proc.step, Proc.set_inst] using AsyncRunner.release_wf (hwf k)
    · simpa [Proc.step, Proc.set_inst, hk] using hwf k

/-- One step moves an issued id forward in the phase order; it enters a wiped
phase only by `clear` on its runner, and its status is kept while it stays done. -/
theorem Proc.step_phase (p : Proc Item) (e : Ev Item) (evs : List (Ev Item)) (k : Nat)
    (id : Int) (ph : Phase) (h : p.WF)
    (hb : p.cross_inst_id_ + (count_posts (e :: evs) : Int) < 2 ^ 63)
    (hid : id ≤ p.cross_inst_id_) (hp : (p.inst k).in_phase id ph) :
    ∃ ph2, ph.rank ≤ ph2.rank ∧ ((p.step e).inst k).in_phase id ph2 ∧
      (e ≠ Ev.clear k → ph2.is_wiped = true → ph.is_wiped = true) ∧
      (ph = Phase.done → ph2 = Phase.done →
        ((p.step e).inst k).status_map_ id = (p.inst k).status_map_ id) ∧
      (ph2.is_wiped = true → ph = Phase.queued → ph2 = Phase.wiped) := by
  obtain ⟨h0, hwf⟩ := h
  have same : ∀ q : Proc Item, q.inst k = p.inst k →
      ∃ ph2, ph.rank ≤ ph2.rank ∧ (q.inst k).in_phase id ph2 ∧
      (e ≠ Ev.clear k → ph2.is_wiped = true → ph.is_wiped = true) ∧
      (ph = Phase.done → ph2 = Phase.done →
        (q.inst k).status_map_ id = (p.inst k).status_map_ id) ∧
      (ph2.is_wiped = true → ph = Phase.queued → ph2 = Phase.wiped) := by
    intro q hq
    refine ⟨ph, le_refl _, by rw [hq]; exact hp, fun _ hx => hx, fun _ _ => by rw [hq], ?_⟩
    intro hx hy
    subst hy
    simp [Phase.is_wiped] at hx
  cases e with
  | post j item b =>
    by_cases hk : k = j
    · subst hk
      simp only [count_posts, Nat.cast_add, Nat.cast_one] at hb
      have h1 : p.cross_inst_id_ + 1 < 2 ^ 63 := by
        have : (0 : Int) ≤ (count_posts evs : Int) := Int.natCast_nonneg _
        omega
      have hp2 := AsyncRunner.post_phase item h0 h1 hid hp
      have hw := wrap_int64_succ _ h0 h1
      have hne : id ≠ wrap_int64 (p.cross_inst_id_ + 1) := by omega
      refine ⟨ph, le_refl _, by simpa [Proc.step, Proc.set_inst] using hp2,
        fun _ hx => hx, fun _ _ => ?_, ?_⟩
      · simp [Proc.step, Proc.set_inst, AsyncRunner.post, AsyncRunner.emplace, hne]
      · intro hx hy
        subst hy
        simp [Phase.is_wiped] at hx
    · exact same _ (by simp [Proc.step, Proc.set_inst, hk])
  | pick j =>
    by_cases hk : k = j
    · subst hk
      have hi : ((p.step (Ev.pick k)).inst k) = (p.inst k).working_pick := by
        simp [Proc.step, Proc.set_inst]
      rw [hi]
      rcases AsyncRunner.working_pick_phase (hwf k) hp with hp2 | ⟨rfl, hp2⟩
      · refine ⟨ph, le_refl _, hp2, fun _ hx => hx, fun hd _ => ?_, ?_⟩
        · subst hd
          unfold AsyncRunner.working_pick
          split
          · rfl
          · split
            · rfl
            · split
              · rfl
              · rename_i hd item rest hq
                have hnot : id ∉ (p.inst k).queued_ids := hp.2.1
                have hne : id ≠ hd := by
                  intro e
                  apply hnot
                  simp [AsyncRunner.queued_ids, hq, e]
                simp [AsyncRunner.assign, hne]
        · intro hx hy
          subst hy
          simp [Phase.is_wiped] at hx
      · refine ⟨Phase.running, by decide, hp2, ?_, ?_, ?_⟩
        · intro _ hx
          simp [Phase.is_wiped] at hx
        · intro hd
          cases hd
        · intro hx
          simp [Phase.is_wiped] at hx
    · exact same _ (by simp [Proc.step, Proc.set_inst, hk])
  | finish j ret =>
    by_cases hk : k = j
    · subst hk
      have hi : ((p.step (Ev.finish k ret)).inst k) = (p.inst k).working_finish ret := by
        simp [Proc.step, Proc.set_inst]
      rw [hi]
      rcases AsyncRunner.working_finish_phase ret (hwf k) hp with ⟨hp2, hst⟩ | ⟨hph, hp2⟩
      · refine ⟨ph, le_refl _, hp2, fun _ hx => hx, fun _ _ => hst, ?_⟩
        intro hx hy
        subst hy
        simp [Phase.is_wiped] at hx
      · refine ⟨Phase.done, ?_, hp2, fun _ hx => by simp [Phase.is_wiped] at hx, ?_,
          fun hx => by simp [Phase.is_wiped] at hx⟩
        · rcases hph with rfl | rfl <;> decide
        · intro hd
          rcases hph with rfl | rfl <;> cases hd
    · exact same _ (by simp [Proc.step, Proc.set_inst, hk])
  | clear j =>
    by_cases hk : k = j
    · subst hk
      have hi : ((p.step (Ev.clear k)).inst k) = (p.inst k).clear p.cross_inst_id_ := by
        simp [Proc.step, Proc.set_inst]
      rw [hi]
      refine ⟨ph.wipe, ph.rank_wipe, AsyncRunner.clear_phase (hwf k) hp,
        fun hne => absurd rfl hne, ?_, ?_⟩
      · intro hd hd2
        subst hd
        cases hd2
      · intro _ hy
        subst hy
        rfl
    · exact same _ (by simp [Proc.step, Proc.set_inst, hk])
  | release j =>
    by_cases hk : k = j
    · subst hk
      have hi : ((p.step (Ev.release k)).inst k) = (p.inst k).release := by
        simp [Proc.step, Proc.set_inst]
      rw [hi]
      refine ⟨ph, le_refl _, AsyncRunner.release_phase hp, fun _ hx => hx, fun _ _ => rfl, ?_⟩
      intro hx hy
      subst hy
      simp [Phase.is_wiped] at hx
    · exact same _ (by simp [Proc.step, Proc.set_inst, hk])


theorem count_posts_append (xs ys : List (Ev Item)) :
    count_posts (xs ++ ys) = count_posts xs + count_posts ys := by
  induction xs with
  | nil => simp [count_posts]
  | cons e xs ih =>
    cases e <;> simp [count_posts, ih]
    omega

theorem Proc.run_cons (p : Proc Item) (e : Ev Item) (evs : List (Ev Item)) :
    p.run (e :: evs) = (p.step e).run evs := rfl

theorem Proc.run_append (p : Proc Item) (xs ys : List (Ev Item)) :
    p.run (xs ++ ys) = (p.run xs).run ys := by
  simp [Proc.run, List.foldl_append]

theorem Proc.run_wf (evs : List (Ev Item)) : ∀ p : Proc Item, p.WF →
    p.cross_inst_id_ + (count_posts evs : Int) < 2 ^ 63 →
    (p.run evs).WF ∧ (p.run evs).cross_inst_id_ = p.cross_inst_id_ + (count_posts evs : Int) := by
  induction evs with
  | nil =>
    intro p h _
    exact ⟨h, by simp [Proc.run, count_posts]⟩
  | cons e evs ih =>
    intro p h hb
    obtain ⟨h1, h2, _⟩ := Proc.step_wf p e evs h hb
    obtain ⟨h3, h4⟩ := ih (p.step e) h1 (by omega)
    rw [Proc.run_cons]
    exact ⟨h3, by omega⟩

/-- Along a run an issued id moves forward in the phase order; it is in a
wiped phase only if it was so before or `clear` ran on its runner; while it
stays done its status is kept. -/
theorem Proc.run_phase (k : Nat) (id : Int) (evs : List (Ev Item)) :
    ∀ (p : Proc Item) (ph : Phase), p.WF →
    p.cross_inst_id_ + (count_posts evs : Int) < 2 ^ 63 →
    id ≤ p.cross_inst_id_ → (p.inst k).in_phase id ph →
    ∃ ph2, ph.rank ≤ ph2.rank ∧ ((p.run evs).inst k).in_phase id ph2 ∧
      (Ev.clear k ∉ evs → ph2.is_wiped = true → ph.is_wiped = true) ∧
      (ph = Phase.done → ph2 = Phase.done →
        ((p.run evs).inst k).status_map_ id = (p.inst k).status_map_ id) := by
  induction evs with
  | nil =>
    intro p ph _ _ _ hp
    exact ⟨ph, le_refl _, hp, fun _ hx => hx, fun _ _ => rfl⟩
  | cons e evs ih =>
    intro p ph h hb hid hp
    obtain ⟨h1, h2, h3⟩ := Proc.step_wf p e evs h hb
    obtain ⟨ph1, r1, p1, w1, d1, _⟩ := Proc.step_phase p e evs k id ph h hb hid hp
    obtain ⟨ph2, r2, p2, w2, d2⟩ := ih (p.step e) ph1 h1 (by omega) (by omega) p1
    refine ⟨ph2, le_trans r1 r2, p2, ?_, ?_⟩
    · intro hnot hx
      have hne : e ≠ Ev.clear k := fun e2 => hnot (by simp [e2])
      have hnot2 : Ev.clear k ∉ evs := fun hm => hnot (List.mem_cons_of_mem _ hm)
      exact w1 hne (w2 hnot2 hx)
    · intro hd hd2
      subst hd hd2
      have hph1 : ph1 = Phase.done := by
        cases ph1 <;> first | rfl | simp [Phase.rank] at r1 r2
      rw [Proc.run_cons, d2 hph1 rfl, d1 rfl hph1]

/-- A post on a consistent process returns the next counter value and leaves
its id queued. -/
theorem Proc.post_queued (p : Proc Item) (k : Nat) (item : Item) (b : Bool) (h : p.WF)
    (h1 : p.cross_inst_id_ + 1 < 2 ^ 63) :
    p.returned_id (Ev.post k item b) = some (k, p.cross_inst_id_ + 1) ∧
      ((p.step (Ev.post k item b)).inst k).in_phase (p.cross_inst_id_ + 1) Phase.queued := by
  obtain ⟨h0, hwf⟩ := h
  have hw := wrap_int64_succ _ h0 h1
  refine ⟨by simp [Proc.returned_id, AsyncRunner.post, hw], ?_, ?_, ?_⟩
  · have hnone : (p.inst k).status_map_ (p.cross_inst_id_ + 1) = none := by
      cases hs : (p.inst k).status_map_ (p.cross_inst_id_ + 1) with
      | none => rfl
      | some st =>
        have := (hwf k).status_le _ st hs
        omega
    simp [Proc.step, Proc.set_inst, AsyncRunner.post, AsyncRunner.emplace, hw, hnone]
  · simp [Proc.step, Proc.set_inst, AsyncRunner.post, AsyncRunner.queued_ids, hw]
  · have := (hwf k).compl_le
    simp only [Proc.step, Proc.set_inst, AsyncRunner.post, if_true]
    omega

/-- The phase of an id issued in a run from process start. -/
theorem Proc.issued_phase (pre mid suf : List (Ev Item)) (k : Nat) (item : Item) (b : Bool)
    (hposts : count_posts (pre ++ Ev.post k item b :: (mid ++ suf)) < 2 ^ 63) :
    ∃ id ph1 ph2,
      (Proc.init.run pre).returned_id (Ev.post k item b) = some (k, id) ∧
      ((Proc.init.run (pre ++ Ev.post k item b :: mid)).inst k).in_phase id ph1 ∧
      ((Proc.init.run (pre ++ Ev.post k item b :: (mid ++ suf))).inst k).in_phase id ph2 ∧
      ph1.rank ≤ ph2.rank ∧
      (Ev.clear k ∉ mid → ph1.is_wiped = false) ∧
      (Ev.clear k ∉ mid ++ suf → ph2.is_wiped = false) ∧
      (ph1 = Phase.done → ph2 = Phase.done →
        ((Proc.init.run (pre ++ Ev.post k item b :: (mid ++ suf))).inst k).status_map_ id =
          ((Proc.init.run (pre ++ Ev.post k item b :: mid)).inst k).status_map_ id) := by
  have hc : (count_posts (pre ++ Ev.post k item b :: (mid ++ suf)) : Int) =
      count_posts pre + (count_posts mid + count_posts suf + 1) := by
    simp [count_posts_append, count_posts]
  have hlt : (count_posts (pre ++ Ev.post k item b :: (mid ++ suf)) : Int) < 2 ^ 63 := by
    exact_mod_cast hposts
  rw [hc] at hlt
  have n1 : (0 : Int) ≤ count_posts pre := Int.natCast_nonneg _
  have n2 : (0 : Int) ≤ count_posts mid := Int.natCast_nonneg _
  have n3 : (0 : Int) ≤ count_posts suf := Int.natCast_nonneg _
  have i0 : (Proc.init : Proc Item).cross_inst_id_ = 0 := rfl
  obtain ⟨wf1, c1⟩ := Proc.run_wf pre (Proc.init : Proc Item) Proc.init_proc_wf (by rw [i0]; omega)
  rw [i0] at c1
  set p := (Proc.init : Proc Item).run pre with hp
  obtain ⟨hret, hq⟩ := Proc.post_queued p k item b wf1 (by omega)
  obtain ⟨wf2, c2, _⟩ := Proc.step_wf p (Ev.post k item b) [] wf1
    (by simp only [count_posts]; push_cast; omega)
  simp only [count_posts] at c2
  push_cast at c2
  set q := p.step (Ev.post k item b) with hq2
  obtain ⟨ph1, r1, p1, w1, _⟩ := Proc.run_phase k (p.cross_inst_id_ + 1) mid q Phase.queued wf2
    (by omega) (by omega) hq
  obtain ⟨wf3, c3⟩ := Proc.run_wf mid q wf2 (by omega)
  obtain ⟨ph2, r2, p2, w2, d2⟩ := Proc.run_phase k (p.cross_inst_id_ + 1) suf (q.run mid) ph1 wf3
    (by omega) (by omega) p1
  have e1 : (Proc.init : Proc Item).run (pre ++ Ev.post k item b :: mid) = q.run mid := by
    rw [Proc.run_append, Proc.run_cons]
  have e2 : (Proc.init : Proc Item).run (pre ++ Ev.post k item b :: (mid ++ suf)) =
      (q.run mid).run suf := by
    rw [Proc.run_append, Proc.run_cons, Proc.run_append]
  rw [e1, e2]
  refine ⟨p.cross_inst_id_ + 1, ph1, ph2, hret, p1, p2, r2, ?_, ?_, d2⟩
  · intro hn
    cases hx : ph1.is_wiped with
    | false => rfl
    | true => simpa [Phase.is_wiped] using w1 hn hx
  · intro hn
    have hn1 : Ev.clear k ∉ mid := fun hm => hn (List.mem_append_left _ hm)
    have hn2 : Ev.clear k ∉ suf := fun hm => hn (List.mem_append_right _ hm)
    cases hx : ph2.is_wiped with
    | false => rfl
    | true => simpa [Phase.is_wiped] using w1 hn1 (w2 hn2 hx)

theorem AsyncRunner.status_of_phase {id : Int} {r : AsyncRunner Item} {ph : Phase}
    (hp : r.in_phase id ph) :
    (ph = Phase.queued → r.status id = MaaStatus.Pending ∧ r.compl_id_ < id) ∧
    (ph = Phase.running → r.status id = MaaStatus.Running ∧ r.compl_id_ < id) ∧
    (ph = Phase.done → r.status id = MaaStatus.Success ∨ r.status id = MaaStatus.Failed) ∧
    (ph.is_wiped = true → r.status id = MaaStatus.Invalid) := by
  cases ph
  · obtain ⟨h1, _, h3⟩ := hp
    simp [AsyncRunner.status, h1, h3, Phase.is_wiped]
  · obtain ⟨h1, _, h3⟩ := hp
    simp [AsyncRunner.status, h1, h3, Phase.is_wiped]
  · obtain ⟨h1, _⟩ := hp
    simp [AsyncRunner.status, h1, Phase.is_wiped]
  · obtain ⟨h1, _, _⟩ := hp
    rcases h1 with h1 | h1 <;> simp [AsyncRunner.status, h1, Phase.is_wiped]
  · obtain ⟨h1, _, _⟩ := hp
    simp [AsyncRunner.status, h1, Phase.is_wiped]


theorem Proc.issued_increasing (evs : List (Ev Item)) : ∀ p : Proc Item, p.WF →
    p.cross_inst_id_ + (count_posts evs : Int) < 2 ^ 63 →
    (∀ ki ∈ p.issued evs, p.cross_inst_id_ < ki.2) ∧
      ((p.issued evs).map Prod.snd).Pairwise (fun a b => a < b) := by
  induction evs with
  | nil =>
    intro p _ _
    simp [Proc.issued]
  | cons e evs ih =>
    intro p h hb
    obtain ⟨h1, h2, h3⟩ := Proc.step_wf p e evs h hb
    obtain ⟨i1, i2⟩ := ih (p.step e) h1 (by omega)
    cases e with
    | post j item b =>
      simp only [count_posts, Nat.cast_add, Nat.cast_one] at hb h2
      have hn : (0 : Int) ≤ (count_posts evs : Int) := Int.natCast_nonneg _
      obtain ⟨hret, _⟩ := Proc.post_queued p j item b h (by omega)
      simp only [Proc.issued, hret, List.mem_cons, List.map_cons, List.pairwise_cons]
      refine ⟨?_, ?_, i2⟩
      · rintro ki (rfl | hki)
        · simp
        · have := i1 ki hki
          omega
      · intro a ha
        obtain ⟨ki, hki, rfl⟩ := List.mem_map.mp ha
        have := i1 ki hki
        omega
    | pick j => exact ⟨i1, i2⟩
    | finish j ret => exact ⟨i1, i2⟩
    | clear j => exact ⟨i1, i2⟩
    | release j => exact ⟨i1, i2⟩

end RunnerLemmas

/-! ### The runner's claims -/

/-- C2: in every run from process start taking fewer than 2^63 ids, for an id
issued by a post on runner `k` and two later observations of `status(id)`
(after `mid`, then after `mid ++ suf`): the lifecycle ranks
Pending < Running < Success, Failed never decrease; once Running the status
is never Pending again; once Success or Failed it is never Pending or
Running again, and it stays the same terminal value until `clear()` wipes it. -/
theorem C2_status_never_regresses {Item : Type}
    (pre mid suf : List (Ev Item)) (k : Nat) (item : Item) (b : Bool) (id : Int)
    (hposts : count_posts (pre ++ Ev.post k item b :: (mid ++ suf)) < 2 ^ 63)
    (hid : (Proc.init.run pre).returned_id (Ev.post k item b) = some (k, id)) :
    (∀ a c,
      ((Proc.runner_after (pre ++ Ev.post k item b :: mid) k).status id).lifecycle_rank
        = some a →
      ((Proc.runner_after (pre ++ Ev.post k item b :: (mid ++ suf)) k).status id).lifecycle_rank
        = some c → a ≤ c) ∧
    ((Proc.runner_after (pre ++ Ev.post k item b :: mid) k).status id = MaaStatus.Running →
      (Proc.runner_after (pre ++ Ev.post k item b :: (mid ++ suf)) k).status id
        ≠ MaaStatus.Pending) ∧
    (((Proc.runner_after (pre ++ Ev.post k item b :: mid) k).status id).terminal = true →
      (Proc.runner_after (pre ++ Ev.post k item b :: (mid ++ suf)) k).status id
        ≠ MaaStatus.Pending ∧
      (Proc.runner_after (pre ++ Ev.post k item b :: (mid ++ suf)) k).status id
        ≠ MaaStatus.Running ∧
      ((Proc.runner_after (pre ++ Ev.post k item b :: (mid ++ suf)) k).status id =
          (Proc.runner_after (pre ++ Ev.post k item b :: mid) k).status id ∨
        (Proc.runner_after (pre ++ Ev.post k item b :: (mid ++ suf)) k).status id
          = MaaStatus.Invalid)) := by
  obtain ⟨id2, ph1, ph2, hret, p1, p2, hr, _, _, hd⟩ :=
    Proc.issued_phase pre mid suf k item b hposts
  rw [hid] at hret
  simp only [Option.some.injEq, Prod.mk.injEq, true_and] at hret
  subst hret
  unfold Proc.runner_after
  obtain ⟨a1, a2, a3, a4⟩ := AsyncRunner.status_of_phase p1
  obtain ⟨c1, c2, c3, c4⟩ := AsyncRunner.status_of_phase p2
  have hst : ph1 = Phase.done → ph2 = Phase.done →
      ((Proc.init.run (pre ++ Ev.post k item b :: (mid ++ suf))).inst k).status id =
        ((Proc.init.run (pre ++ Ev.post k item b :: mid)).inst k).status id := by
    intro h1 h2
    simp only [AsyncRunner.status, hd h1 h2]
  cases ph1 <;> cases ph2 <;> simp only [Phase.rank] at hr <;>
    first
    | omega
    | (simp only [Phase.is_wiped, forall_const, reduceCtorEq, false_implies] at a1 a2 a3 a4 c1 c2 c3 c4
       refine ⟨?_, ?_, ?_⟩
       · intro a c ha hc
         first
         | (rw [c4] at hc; simp [MaaStatus.lifecycle_rank] at hc)
         | (rw [a4] at ha; simp [MaaStatus.lifecycle_rank] at ha)
         | (rw [a1.1] at ha
            rcases c3 with h | h <;> rw [h] at hc <;>
              simp only [MaaStatus.lifecycle_rank, Option.some.injEq] at ha hc <;> omega)
         | (rw [a2.1] at ha
            rcases c3 with h | h <;> rw [h] at hc <;>
              simp only [MaaStatus.lifecycle_rank, Option.some.injEq] at ha hc <;> omega)
         | (rw [a1.1] at ha; rw [c1.1] at hc
            simp only [MaaStatus.lifecycle_rank, Option.some.injEq] at ha hc; omega)
         | (rw [a1.1] at ha; rw [c2.1] at hc
            simp only [MaaStatus.lifecycle_rank, Option.some.injEq] at ha hc; omega)
         | (rw [a2.1] at ha; rw [c2.1] at hc
            simp only [MaaStatus.lifecycle_rank, Option.some.injEq] at ha hc; omega)
         | (rw [hst rfl rfl] at hc; rw [ha] at hc
            simp only [Option.some.injEq] at hc; omega)
       · intro ha
         first
         | (rw [a1.1] at ha; cases ha)
         | (rw [a4] at ha; cases ha)
         | (rcases a3 with h | h <;> rw [h] at ha <;> cases ha)
         | (rw [c2.1]; simp)
         | (rw [c4]; simp)
         | (rcases c3 with h | h <;> rw [h] <;> simp)
       · intro ha
         first
         | (rw [a1.1] at ha; cases ha)
         | (rw [a2.1] at ha; cases ha)
         | (rw [a4] at ha; cases ha)
         | (rw [c4]; simp)
         | (rw [hst rfl rfl]
            rcases a3 with h | h <;> rw [h] <;> simp))

/-- Witness of C2: post on runner 0, observed after the worker picked the job
(Running) and after `process_` returned true (Success). -/
theorem C2_status_never_regresses_witness :
    count_posts ([] ++ Ev.post 0 () false :: ([Ev.pick 0] ++ [Ev.finish 0 true])) < 2 ^ 63 ∧
    (Proc.init.run []).returned_id (Ev.post 0 () false) = some (0, 1) ∧
    (Proc.runner_after ([] ++ Ev.post 0 () false :: [Ev.pick 0]) 0).status 1
      = MaaStatus.Running ∧
    (Proc.runner_after ([] ++ Ev.post 0 () false :: ([Ev.pick 0] ++ [Ev.finish 0 true])) 0).status 1
      = MaaStatus.Success ∧
    ((Proc.runner_after ([] ++ Ev.post 0 () false :: [Ev.pick 0]) 0).status 1
        = MaaStatus.Running →
      (Proc.runner_after ([] ++ Ev.post 0 () false :: ([Ev.pick 0] ++ [Ev.finish 0 true])) 0).status 1
        ≠ MaaStatus.Pending) :=
  ⟨by decide, by decide, by decide, by decide,
    (C2_status_never_regresses [] [Ev.pick 0] [Ev.finish 0 true] 0 () false 1 (by decide)
      (by decide)).2.1⟩

/-- C3, the failing run: two posts, the worker picks id 1, `clear()` runs while
id 2 is still queued, then `process_` returns for id 1. Id 2 was never handed
to the worker and `status(2)` is Invalid, but the worker has set
`compl_id_ = 1`, so `2 <= compl_id_` is false and `wait(2)` does not return. -/
theorem C3_cursor_behind_cleared_id :
    (Proc.runner_after [Ev.post 0 () false, Ev.post 0 () false, Ev.pick 0] 0).queued_ids = [2] ∧
    (Proc.runner_after
      [Ev.post 0 () false, Ev.post 0 () false, Ev.pick 0, Ev.clear 0] 0).compl_id_ = 2 ∧
    (Proc.runner_after run_clear_in_flight 0).status 2 = MaaStatus.Invalid ∧
    (Proc.runner_after run_clear_in_flight 0).queued_ids = [] ∧
    (Proc.runner_after run_clear_in_flight 0).compl_id_ = 1 ∧
    (Proc.runner_after run_clear_in_flight 0).exit_ = false ∧
    (Proc.runner_after run_clear_in_flight 0).wait_returns 2 = false := by
  decide

/-! ### The controller's claims -/

/-- C4, as stated, fails: on a fresh controller (`target_w = target_h = 0`) the
job created by `post_click(5, 7)` is `Click(0, 0)`; dispatched, it ends with
status Success and the notifications are Started then Completed. -/
theorem C4_uncalibrated_click_completes :
    Sys.init.mgr.image_target_width_ = 0 ∧ Sys.init.mgr.image_target_height_ = 0 ∧
    (Sys.init.post_click driver_1920x1080 5 7).map (fun r => r.1) = some 1 ∧
    (uncalibrated_click driver_1920x1080).map (fun s => s.status 1) = some MaaStatus.Success ∧
    (uncalibrated_click driver_1920x1080).map (fun s => s.mgr.calls) =
      some [Call.notify MaaMsg.Controller_Action_Started 1, Call.click 0 0,
        Call.notify MaaMsg.Controller_Action_Completed 1] := by
  decide

/-- C4, amended: in every controller state with `target_w == 0` or
`target_h == 0` and for every `(x, y)`, `post_click(x, y)` posts the job
`Click(0, 0)` and records its id; and whenever the worker dispatches a job
`Click(0, 0)` whose id is recorded, the job ends with status Success and the
calls made are Started, the driver click at `(0, 0)`, then Completed. -/
theorem C4_uncalibrated_click_succeeds (s : Sys) (drv : Driver) (x y : Int)
    (h : s.mgr.image_target_width_ = 0 ∨ s.mgr.image_target_height_ = 0) :
    (∃ id s1, s.post_click drv x y = some (id, s1) ∧
      s1.mgr.action_runner_.queue_ = s.mgr.action_runner_.queue_ ++ [(id, Action.click 0 0)] ∧
      id ∈ s1.mgr.post_ids_) ∧
    (∀ (t : Sys) (drv2 : Driver) (id : Int) (rest : List (Int × Action)),
      t.mgr.action_runner_.queue_ = (id, Action.click 0 0) :: rest →
      t.mgr.action_runner_.working_on = none → t.mgr.action_runner_.exit_ = false →
      id ∈ t.mgr.post_ids_ →
      ∃ t2, t.worker drv2 = some t2 ∧ t2.status id = MaaStatus.Success ∧
        t2.mgr.calls = t.mgr.calls ++
          [Call.notify MaaMsg.Controller_Action_Started id, Call.click 0 0,
            Call.notify MaaMsg.Controller_Action_Completed id]) := by
  constructor
  · have hp : s.mgr.preproc_touch_coord drv.resolution x y = some (0, 0) := by
      simp [ControllerMgr.preproc_touch_coord, h]
    refine ⟨(s.post (Action.click 0 0)).1,
      (s.post (Action.click 0 0)).2.record_post_id (s.post (Action.click 0 0)).1, ?_, ?_, ?_⟩
    · simp [Sys.post_click, Sys.post_click_post, hp]
    · simp [Sys.post, Sys.record_post_id, AsyncRunner.post]
    · simp only [Sys.record_post_id]
      split
      · assumption
      · simp
  · intro t drv2 id rest hq hw he hid
    have hpick : t.mgr.action_runner_.working_pick =
        { t.mgr.action_runner_ with
          running_ := true, queue_ := rest,
          status_map_ := AsyncRunner.assign t.mgr.action_runner_.status_map_ id MaaStatus.Running,
          working_on := some (id, Action.click 0 0) } := by
      simp [AsyncRunner.working_pick, he, hw, hq]
    simp only [Sys.worker, hpick, ControllerMgr.run_action, hid, decide_True, if_true,
      ControllerMgr.perform, ControllerMgr.called]
    refine ⟨_, rfl, ?_, ?_⟩
    · simp [Sys.status, AsyncRunner.status, AsyncRunner.working_finish, AsyncRunner.assign]
    · simp

/-- Witness of C4 amended: the fresh controller and `post_click(5, 7)`. -/
theorem C4_uncalibrated_click_succeeds_witness :
    (Sys.init.mgr.image_target_width_ = 0 ∨ Sys.init.mgr.image_target_height_ = 0) ∧
    ((∃ id s1, Sys.init.post_click driver_1920x1080 5 7 = some (id, s1) ∧
      s1.mgr.action_runner_.queue_ =
        Sys.init.mgr.action_runner_.queue_ ++ [(id, Action.click 0 0)] ∧
      id ∈ s1.mgr.post_ids_) ∧
    (∀ (t : Sys) (drv2 : Driver) (id : Int) (rest : List (Int × Action)),
      t.mgr.action_runner_.queue_ = (id, Action.click 0 0) :: rest →
      t.mgr.action_runner_.working_on = none → t.mgr.action_runner_.exit_ = false →
      id ∈ t.mgr.post_ids_ →
      ∃ t2, t.worker drv2 = some t2 ∧ t2.status id = MaaStatus.Success ∧
        t2.mgr.calls = t.mgr.calls ++
          [Call.notify MaaMsg.Controller_Action_Started id, Call.click 0 0,
            Call.notify MaaMsg.Controller_Action_Completed id])) :=
  ⟨Or.inl rfl, C4_uncalibrated_click_succeeds Sys.init driver_1920x1080 5 7 (Or.inl rfl)⟩

/-- C8: after any sequence of `set_option` calls on a fresh controller at most
one of the long and short side is non-zero; `ScreenshotTargetLongSide` with a
value of the size of an `int` sets the long side to the value, the short side
to 0 and the target size to (0, 0), and fails without effect otherwise;
`ScreenshotTargetShortSide` is symmetric; long side 1280 then short side 720
leaves long side 0 and short side 720. -/
theorem C8_side_options_exclusive (calls : List (MaaCtrlOption × MaaOptionValue × Nat))
    (m : ControllerMgr) (value : MaaOptionValue) (val_size : Nat) :
    ((ControllerMgr.init.set_opts calls).image_target_long_side_ = 0 ∨
      (ControllerMgr.init.set_opts calls).image_target_short_side_ = 0) ∧
    m.set_opt MaaCtrlOption.ScreenshotTargetLongSide value val_size =
      (if val_size = 4 then
        (true, { m with
          image_target_long_side_ := value.as_int, image_target_short_side_ := 0,
          image_target_width_ := 0, image_target_height_ := 0 })
      else (false, m)) ∧
    m.set_opt MaaCtrlOption.ScreenshotTargetShortSide value val_size =
      (if val_size = 4 then
        (true, { m with
          image_target_long_side_ := 0, image_target_short_side_ := value.as_int,
          image_target_width_ := 0, image_target_height_ := 0 })
      else (false, m)) ∧
    (ControllerMgr.init.set_opts
      [(MaaCtrlOption.ScreenshotTargetLongSide, opt_int 1280, 4),
       (MaaCtrlOption.ScreenshotTargetShortSide, opt_int 720, 4)]).image_target_long_side_ = 0 ∧
    (ControllerMgr.init.set_opts
      [(MaaCtrlOption.ScreenshotTargetLongSide, opt_int 1280, 4),
       (MaaCtrlOption.ScreenshotTargetShortSide, opt_int 720, 4)]).image_target_short_side_
        = 720 := by
  refine ⟨?_, ?_, ?_, by decide, by decide⟩
  · have step : ∀ (a : ControllerMgr) (c : MaaCtrlOption × MaaOptionValue × Nat),
        (a.image_target_long_side_ = 0 ∨ a.image_target_short_side_ = 0) →
        ((a.set_opt c.1 c.2.1 c.2.2).2.image_target_long_side_ = 0 ∨
          (a.set_opt c.1 c.2.1 c.2.2).2.image_target_short_side_ = 0) := by
      intro a c ha
      obtain ⟨key, v, sz⟩ := c
      cases key <;>
        simp only [ControllerMgr.set_opt, ControllerMgr.set_image_target_long_side,
          ControllerMgr.set_image_target_short_side, ControllerMgr.set_default_app_package_entry,
          ControllerMgr.set_default_app_package, ControllerMgr.clear_target_image_size] <;>
        first
        | exact ha
        | (split <;> first | exact ha | simp)
    have gen : ∀ (cs : List (MaaCtrlOption × MaaOptionValue × Nat)) (a : ControllerMgr),
        (a.image_target_long_side_ = 0 ∨ a.image_target_short_side_ = 0) →
        ((a.set_opts cs).image_target_long_side_ = 0 ∨
          (a.set_opts cs).image_target_short_side_ = 0) := by
      intro cs
      induction cs with
      | nil => intro a ha; exact ha
      | cons c cs ih =>
        intro a ha
        exact ih _ (step a c ha)
    exact gen calls _ (Or.inl rfl)
  · simp only [ControllerMgr.set_opt, ControllerMgr.set_image_target_long_side,
      ControllerMgr.clear_target_image_size]
    by_cases hv : val_size = 4 <;> simp [hv]
  · simp only [ControllerMgr.set_opt, ControllerMgr.set_image_target_short_side,
      ControllerMgr.clear_target_image_size]
    by_cases hv : val_size = 4 <;> simp [hv]

/-- C9, the failing interleaving: `post_connection` has posted its job, the
worker dispatches it before `post_ids_.emplace(id)` runs, then the id is
recorded. The job ran (driver `connect`, status Success) but no Started and
no terminal notification was emitted, and the id stays in `post_ids_`. When
the id is recorded before the dispatch, Started and Completed surround the
driver call and the id is removed; the job of the synchronous `click` (after
a notified screencap) is dispatched without notification. -/
theorem C9_dispatch_before_record_drops_notifications :
    (Sys.init.post_connection_post).1 = 1 ∧
    (post_connection_dispatched_early driver_1920x1080).map (fun s => s.mgr.calls)
      = some [Call.connect] ∧
    (post_connection_dispatched_early driver_1920x1080).map (fun s => s.mgr.post_ids_)
      = some [1] ∧
    (post_connection_dispatched_early driver_1920x1080).map (fun s => s.status 1)
      = some MaaStatus.Success ∧
    (post_connection_then_dispatch driver_1920x1080).map (fun s => s.mgr.calls)
      = some [Call.notify MaaMsg.Controller_Action_Started 1, Call.connect,
          Call.notify MaaMsg.Controller_Action_Completed 1] ∧
    (post_connection_then_dispatch driver_1920x1080).map (fun s => s.mgr.post_ids_)
      = some [] ∧
    sync_click_dispatch.map (fun s => s.mgr.calls)
      = some [Call.notify MaaMsg.Controller_Action_Started 1, Call.screencap,
          Call.notify MaaMsg.Controller_Action_Completed 1, Call.click 960 540] := by
  decide

/-- C5, as stated, fails: with long side 1600 and a 1024x600 screenshot the
derived height is 937, while 1600 * 600 / 1024 = 937.5 rounds to 938: the
binary64 quotient 1024 / 600 is rounded up, and 1600 divided by it falls
below 937.5. -/
theorem C5_derived_side_not_exact_rounding :
    derived_size (with_long_side 1600) ⟨1024, 600⟩ = some (1600, 937) ∧
    round_half_away (1600 * 600) 1024 = 938 := by
  decide

/-- C5, amended: for a screenshot of positive width `w` and height `h` taken
while `target_w = target_h = 0`. With short side `s > 0` and
`s * max(w,h) / min(w,h)` at most `INT_MAX`: `min(target_w, target_h) = s`
and the other side differs from `s * max(w,h) / min(w,h)` by less than 1; it
is that quotient rounded to nearest, halves away from zero, whenever the
quotient is not exactly halfway between two integers (and
`s * max(w,h) < 2^50`). With long side `l > 0` (short side 0):
`max(target_w, target_h) = l` and the other side is likewise close to
`l * min(w,h) / max(w,h)`. In both cases `target_w > target_h` only if
`w > h`. 1920x1080 with short side 720 or long side 1280 gives (1280, 720);
1080x1920 with either gives (720, 1280). -/
theorem C5_target_size_derivation (m : ControllerMgr) (raw : Mat)
    (hw : 0 < raw.cols) (hh : 0 < raw.rows)
    (h0 : m.image_target_width_ = 0 ∧ m.image_target_height_ = 0) :
    (∀ s : Nat, m.image_target_short_side_ = (s : Int) → 0 < s →
      s * max raw.cols raw.rows ≤ (2 ^ 31 - 1) * min raw.cols raw.rows →
      ∃ tw th : Nat,
        m.check_and_calc_target_image_size raw = some (true,
          { m with image_target_width_ := (tw : Int), image_target_height_ := (th : Int) }) ∧
        min tw th = s ∧
        max tw th * min raw.cols raw.rows <
          s * max raw.cols raw.rows + min raw.cols raw.rows ∧
        s * max raw.cols raw.rows <
          max tw th * min raw.cols raw.rows + min raw.cols raw.rows ∧
        (s * max raw.cols raw.rows < 2 ^ 50 →
          (2 * (s * max raw.cols raw.rows) + min raw.cols raw.rows) %
            (2 * min raw.cols raw.rows) ≠ 0 →
          ((max tw th : Nat) : Int) =
            round_half_away ((s * max raw.cols raw.rows : Nat) : Int)
              (min raw.cols raw.rows)) ∧
        (th < tw → raw.rows < raw.cols)) ∧
    (∀ l : Nat, m.image_target_short_side_ = 0 → m.image_target_long_side_ = (l : Int) →
      0 < l → l < 2 ^ 31 →
      ∃ tw th : Nat,
        m.check_and_calc_target_image_size raw = some (true,
          { m with image_target_width_ := (tw : Int), image_target_height_ := (th : Int) }) ∧
        max tw th = l ∧
        min tw th * max raw.cols raw.rows <
          l * min raw.cols raw.rows + max raw.cols raw.rows ∧
        l * min raw.cols raw.rows <
          min tw th * max raw.cols raw.rows + max raw.cols raw.rows ∧
        (l * min raw.cols raw.rows < 2 ^ 50 →
          (2 * (l * min raw.cols raw.rows) + max raw.cols raw.rows) %
            (2 * max raw.cols raw.rows) ≠ 0 →
          ((min tw th : Nat) : Int) =
            round_half_away ((l * min raw.cols raw.rows : Nat) : Int)
              (max raw.cols raw.rows)) ∧
        (th < tw → raw.rows < raw.cols)) ∧
    derived_size (with_short_side 720) ⟨1920, 1080⟩ = some (1280, 720) ∧
    derived_size (with_long_side 1280) ⟨1920, 1080⟩ = some (1280, 720) ∧
    derived_size (with_short_side 720) ⟨1080, 1920⟩ = some (720, 1280) ∧
    derived_size (with_long_side 1280) ⟨1080, 1920⟩ = some (720, 1280) := by
  obtain ⟨h01, h02⟩ := h0
  refine ⟨?_, ?_, by decide, by decide, by decide, by decide⟩
  · intro s hs hs0 hr
    have hsne : (s : Int) ≠ 0 := by omega
    by_cases hlt : raw.rows < raw.cols
    · have hmax : max raw.cols raw.rows = raw.cols := max_eq_left (le_of_lt hlt)
      have hmin : min raw.cols raw.rows = raw.rows := min_eq_right (le_of_lt hlt)
      rw [hmax, hmin] at hr ⊢
      obtain ⟨K, k1, k2, k3, k4, k5, k6⟩ := scaled_mul_cast s raw.cols raw.rows hs0 hw hh hr
      have hsK : s ≤ K := by
        apply k4 s (Nat.mul_le_mul_left s (le_of_lt hlt))
        have h1 : s * raw.rows < (2 ^ 31 - 1) * raw.rows :=
          lt_of_lt_of_le (Nat.mul_lt_mul_of_pos_left hlt hs0) hr
        have := Nat.lt_of_mul_lt_mul_right h1
        omega
      have hgt : (raw.cols : Int) > (raw.rows : Int) := by exact_mod_cast hlt
      refine ⟨K, s, ?_, min_eq_right hsK, ?_, ?_, ?_, fun _ => hlt⟩
      · simp only [ControllerMgr.check_and_calc_target_image_size, h01, h02, hs, hsne,
          ne_eq, not_true_eq_false, and_self, and_false, if_false, not_false_eq_true, if_true,
          hgt, k1]
      · rw [max_eq_left hsK]; exact k2
      · rw [max_eq_left hsK]; exact k3
      · rw [max_eq_left hsK]; exact k6
    · have hle : raw.cols ≤ raw.rows := by omega
      have hmax : max raw.cols raw.rows = raw.rows := max_eq_right hle
      have hmin : min raw.cols raw.rows = raw.cols := min_eq_left hle
      rw [hmax, hmin] at hr ⊢
      obtain ⟨K, k1, k2, k3, k4, k5, k6⟩ := scaled_div_cast s raw.cols raw.rows hs0 hw hh hr
      have hsK : s ≤ K := by
        apply k4 s (Nat.mul_le_mul_left s hle)
        have h1 : s * raw.cols ≤ (2 ^ 31 - 1) * raw.cols :=
          le_trans (Nat.mul_le_mul_left s hle) hr
        have := Nat.le_of_mul_le_mul_right h1 hw
        omega
      have hgt : ¬ ((raw.cols : Int) > (raw.rows : Int)) := by
        have : (raw.cols : Int) ≤ (raw.rows : Int) := by exact_mod_cast hle
        omega
      refine ⟨s, K, ?_, min_eq_left hsK, ?_, ?_, ?_, fun h => by omega⟩
      · simp only [ControllerMgr.check_and_calc_target_image_size, h01, h02, hs, hsne,
          ne_eq, not_true_eq_false, and_self, and_false, if_false, not_false_eq_true, if_true,
          hgt, k1]
      · rw [max_eq_right hsK]; exact k2
      · rw [max_eq_right hsK]; exact k3
      · rw [max_eq_right hsK]; exact k6
  · intro l hs hl hl0 hl31
    have hlne : (l : Int) ≠ 0 := by omega
    by_cases hlt : raw.rows < raw.cols
    · have hmax : max raw.cols raw.rows = raw.cols := max_eq_left (le_of_lt hlt)
      have hmin : min raw.cols raw.rows = raw.rows := min_eq_right (le_of_lt hlt)
      rw [hmax, hmin]
      have hr : l * raw.rows ≤ (2 ^ 31 - 1) * raw.cols :=
        Nat.mul_le_mul (by omega) (le_of_lt hlt)
      obtain ⟨K, k1, k2, k3, k4, k5, k6⟩ := scaled_div_cast l raw.cols raw.rows hl0 hw hh hr
      have hKl : K ≤ l := k5 l (Nat.mul_le_mul_left l (le_of_lt hlt)) (by omega)
      have hgt : (raw.cols : Int) > (raw.rows : Int) := by exact_mod_cast hlt
      refine ⟨l, K, ?_, max_eq_left hKl, ?_, ?_, ?_, fun _ => hlt⟩
      · simp only [ControllerMgr.check_and_calc_target_image_size, h01, h02, hs, hl, hlne,
          ne_eq, not_true_eq_false, and_self, and_false, false_and, if_false,
          not_false_eq_true, if_true, hgt, k1]
      · rw [min_eq_right hKl]; exact k2
      · rw [min_eq_right hKl]; exact k3
      · rw [min_eq_right hKl]; exact k6
    · have hle : raw.cols ≤ raw.rows := by omega
      have hmax : max raw.cols raw.rows = raw.rows := max_eq_right hle
      have hmin : min raw.cols raw.rows = raw.cols := min_eq_left hle
      rw [hmax, hmin]
      have hr : l * raw.cols ≤ (2 ^ 31 - 1) * raw.rows := Nat.mul_le_mul (by omega) hle
      obtain ⟨K, k1, k2, k3, k4, k5, k6⟩ := scaled_mul_cast l raw.cols raw.rows hl0 hw hh hr
      have hKl : K ≤ l := k5 l (Nat.mul_le_mul_left l hle) (by omega)
      have hgt : ¬ ((raw.cols : Int) > (raw.rows : Int)) := by
        have : (raw.cols : Int) ≤ (raw.rows : Int) := by exact_mod_cast hle
        omega
      refine ⟨K, l, ?_, max_eq_right hKl, ?_, ?_, ?_, fun h => by omega⟩
      · simp only [ControllerMgr.check_and_calc_target_image_size, h01, h02, hs, hl, hlne,
          ne_eq, not_true_eq_false, and_self, and_false, false_and, if_false,
          not_false_eq_true, if_true, hgt, k1]
      · rw [min_eq_left hKl]; exact k2
      · rw [min_eq_left hKl]; exact k3
      · rw [min_eq_left hKl]; exact k6

/-- Witness of C5 amended: short side 720 and a 1920x1080 screenshot. -/
theorem C5_target_size_derivation_witness :
    0 < (⟨1920, 1080⟩ : Mat).cols ∧ 0 < (⟨1920, 1080⟩ : Mat).rows ∧
    ((with_short_side 720).image_target_width_ = 0 ∧
      (with_short_side 720).image_target_height_ = 0) ∧
    (∃ tw th : Nat,
      (with_short_side 720).check_and_calc_target_image_size ⟨1920, 1080⟩ = some (true,
        { with_short_side 720 with
          image_target_width_ := (tw : Int), image_target_height_ := (th : Int) }) ∧
      min tw th = 720 ∧
      max tw th * min 1920 1080 < 720 * max 1920 1080 + min 1920 1080 ∧
      720 * max 1920 1080 < max tw th * min 1920 1080 + min 1920 1080 ∧
      (720 * max 1920 1080 < 2 ^ 50 →
        (2 * (720 * max 1920 1080) + min 1920 1080) % (2 * min 1920 1080) ≠ 0 →
        ((max tw th : Nat) : Int) =
          round_half_away ((720 * max 1920 1080 : Nat) : Int) (min 1920 1080)) ∧
      (th < tw → 1080 < 1920)) :=
  ⟨by decide, by decide, by decide,
    (C5_target_size_derivation (with_short_side 720) ⟨1920, 1080⟩ (by decide) (by decide)
      (by decide)).1 720 (by decide) (by decide) (by decide)⟩

/-- The mapping of one coordinate: the rounded binary64 product `x * (r / t)`
converted to `int` is `x * r / t` rounded to nearest, halves away from zero,
when that quotient is not exactly halfway between two integers. -/
theorem mapped_coord (x r : Int) (t : Nat) (ht : 0 < t) (h50 : (x * r).natAbs < 2 ^ 50)
    (htie : (2 * (x * r).natAbs + t) % (2 * t) ≠ 0)
    (hr : -2 ^ 31 ≤ round_half_away (x * r) t ∧ round_half_away (x * r) t < 2 ^ 31) :
    to_int32 (std_round (F64.mul (F64.ofInt x) (F64.div (F64.ofInt r) (F64.ofInt t))))
      = some (round_half_away (x * r) t) := by
  obtain ⟨ε, hε, hF⟩ := mul_div_spec x r t ht
  obtain ⟨K, _, k2, _, _⟩ := std_round_near _ (x * r) t ht ε hε hF
  rw [k2 h50 htie]
  unfold to_int32
  rw [if_pos hr]

/-- C6, as stated, fails: short side 720 and a screenshot of a 1792x828 device
give the target size (1558, 720); `post_click(0, 50)` then clicks at (0, 57),
while 50 * 828 / 720 = 57.5 rounds, halves away from zero, to 58. -/
theorem C6_mapped_point_not_exact_rounding :
    (calibrated 720 driver_1792x828).map
      (fun t => (t.mgr.image_target_width_, t.mgr.image_target_height_)) = some (1558, 720) ∧
    (calibrated 720 driver_1792x828).bind
      (fun t => t.mgr.preproc_touch_coord driver_1792x828.resolution 0 50) = some (0, 57) ∧
    (calibrated_click 720 driver_1792x828 0 50).map (fun t => t.mgr.calls) =
      some [Call.notify MaaMsg.Controller_Action_Started 1, Call.screencap,
        Call.notify MaaMsg.Controller_Action_Completed 1,
        Call.notify MaaMsg.Controller_Action_Started 2, Call.click 0 57,
        Call.notify MaaMsg.Controller_Action_Completed 2] ∧
    round_half_away (50 * 828) 720 = 58 := by
  decide

/-- C6, amended: for a target size with `target_w > 0` and `target_h > 0`, a
resolution `(res_w, res_h)` and a point `(x, y)` such that neither
`x * res_w / target_w` nor `y * res_h / target_h` is exactly halfway between
two integers (with `|x * res_w|, |y * res_h| < 2^50` and both roundings in
the range of `int`), `preproc_touch_coord(x, y)` returns
`(round(x * res_w / target_w), round(y * res_h / target_h))`, round to
nearest, halves away from zero, and `post_click(x, y)` enqueues a Click
carrying exactly that point. With target (1280, 720) on a 1920x1080 device,
`post_click(640, 360)` makes the driver receive `click(960, 540)`. -/
theorem C6_touch_coord_mapping (s : Sys) (drv : Driver) (x y : Int) (tw th : Nat)
    (htw : s.mgr.image_target_width_ = (tw : Int)) (hth : s.mgr.image_target_height_ = (th : Int))
    (hw : 0 < tw) (hh : 0 < th)
    (hx50 : (x * drv.resolution.1).natAbs < 2 ^ 50)
    (hy50 : (y * drv.resolution.2).natAbs < 2 ^ 50)
    (hxt : (2 * (x * drv.resolution.1).natAbs + tw) % (2 * tw) ≠ 0)
    (hyt : (2 * (y * drv.resolution.2).natAbs + th) % (2 * th) ≠ 0)
    (hxr : -2 ^ 31 ≤ round_half_away (x * drv.resolution.1) tw ∧
      round_half_away (x * drv.resolution.1) tw < 2 ^ 31)
    (hyr : -2 ^ 31 ≤ round_half_away (y * drv.resolution.2) th ∧
      round_half_away (y * drv.resolution.2) th < 2 ^ 31) :
    s.mgr.preproc_touch_coord drv.resolution x y =
      some (round_half_away (x * drv.resolution.1) tw,
        round_half_away (y * drv.resolution.2) th) ∧
    (∃ id s1, s.post_click drv x y = some (id, s1) ∧
      s1.mgr.action_runner_.queue_ = s.mgr.action_runner_.queue_ ++
        [(id, Action.click (round_half_away (x * drv.resolution.1) tw)
          (round_half_away (y * drv.resolution.2) th))] ∧
      id ∈ s1.mgr.post_ids_) ∧
    (calibrated_click 720 driver_1920x1080 640 360).map (fun t => t.mgr.calls) =
      some [Call.notify MaaMsg.Controller_Action_Started 1, Call.screencap,
        Call.notify MaaMsg.Controller_Action_Completed 1,
        Call.notify MaaMsg.Controller_Action_Started 2, Call.click 960 540,
        Call.notify MaaMsg.Controller_Action_Completed 2] := by
  have hp : s.mgr.preproc_touch_coord drv.resolution x y =
      some (round_half_away (x * drv.resolution.1) tw,
        round_half_away (y * drv.resolution.2) th) := by
    have h1 : (tw : Int) ≠ 0 := by omega
    have h2 : (th : Int) ≠ 0 := by omega
    simp only [ControllerMgr.preproc_touch_coord, htw, hth, h1, h2, or_self, if_false,
      mapped_coord x drv.resolution.1 tw hw hx50 hxt hxr,
      mapped_coord y drv.resolution.2 th hh hy50 hyt hyr]
  refine ⟨hp, ?_, by decide⟩
  simp only [Sys.post_click, Sys.post_click_post, hp]
  refine ⟨_, _, rfl, ?_, ?_⟩
  · simp [Sys.post, Sys.record_post_id, AsyncRunner.post]
  · simp only [Sys.record_post_id]
    split
    · assumption
    · simp

/-- Witness of C6 amended: target (1280, 720), resolution 1920x1080, the
point (640, 360). -/
theorem C6_touch_coord_mapping_witness :
    calibrated_720.mgr.image_target_width_ = ((1280 : Nat) : Int) ∧
    calibrated_720.mgr.image_target_height_ = ((720 : Nat) : Int) ∧
    calibrated_720.mgr.preproc_touch_coord driver_1920x1080.resolution 640 360 =
      some (round_half_away (640 * driver_1920x1080.resolution.1) 1280,
        round_half_away (360 * driver_1920x1080.resolution.2) 720) ∧
    round_half_away (640 * driver_1920x1080.resolution.1) 1280 = 960 ∧
    round_half_away (360 * driver_1920x1080.resolution.2) 720 = 540 :=
  ⟨by decide, by decide,
    (C6_touch_coord_mapping calibrated_720 driver_1920x1080 640 360 1280 720
      (by decide) (by decide) (by decide) (by decide) (by decide) (by decide) (by decide)
      (by decide) (by decide) (by decide)).1, by decide, by decide⟩

theorem to_int32_some (z w : Int) (h : to_int32 z = some w) : w = z := by
  unfold to_int32 at h
  split at h
  · simpa using h.symm
  · cases h

/-- The rounded binary64 product `c * (a / b)` of positive integers is a
natural number, at least every integer below `c * a / b`. -/
theorem scaled_mul_round (c a b : Nat) (hc : 0 < c) (ha : 0 < a) (hb : 0 < b) :
    ∃ K : Nat,
      std_round (F64.mul (F64.ofInt c) (F64.div (F64.ofInt a) (F64.ofInt b))) = (K : Int) ∧
      (∀ z : Nat, z * b ≤ c * a → z ≤ 2 ^ 50 → z ≤ K) := by
  obtain ⟨ε, hε, hF⟩ := mul_div_spec c a b hb
  obtain ⟨K, k1, _, k3, _⟩ := std_round_near _ ((c : Int) * (a : Int)) b hb ε hε hF
  have hpos : (0 : Int) < (c : Int) * (a : Int) := by positivity
  have hna : ((c : Int) * (a : Int)).natAbs = c * a := by
    rw [Int.natAbs_mul]
    simp
  rw [Int.sign_eq_one_of_pos hpos, one_mul] at k1
  rw [hna] at k3
  exact ⟨K, k1, k3⟩

/-- The rounded binary64 quotient `c / (a / b)` of positive integers is a
natural number, at least every integer below `c * b / a`. -/
theorem scaled_div_round (c a b : Nat) (hc : 0 < c) (ha : 0 < a) (hb : 0 < b) :
    ∃ K : Nat,
      std_round (F64.div (F64.ofInt c) (F64.div (F64.ofInt a) (F64.ofInt b))) = (K : Int) ∧
      (∀ z : Nat, z * a ≤ c * b → z ≤ 2 ^ 50 → z ≤ K) := by
  obtain ⟨ε, hε, hF⟩ := div_div_spec c a b ha hb
  obtain ⟨K, k1, _, k3, _⟩ := std_round_near _ ((c : Int) * (b : Int)) a ha ε hε hF
  have hpos : (0 : Int) < (c : Int) * (b : Int) := by positivity
  have hna : ((c : Int) * (b : Int)).natAbs = c * b := by
    rw [Int.natAbs_mul]
    simp
  rw [Int.sign_eq_one_of_pos hpos, one_mul] at k1
  rw [hna] at k3
  exact ⟨K, k1, k3⟩

theorem ControllerMgr.check_and_calc_sides_ok (m : ControllerMgr) (raw : Mat)
    (hw : 0 < raw.cols) (hh : 0 < raw.rows) (hI : m.sides_ok)
    (hadm : (m.image_target_width_ = 0 ∨ m.image_target_height_ = 0) →
      m.image_target_short_side_ = 0 → m.image_target_long_side_ ≠ 0 →
      ((max raw.cols raw.rows : Nat) : Int) ≤
        m.image_target_long_side_ * ((min raw.cols raw.rows : Nat) : Int))
    (b : Bool) (m2 : ControllerMgr)
    (h : m.check_and_calc_target_image_size raw = some (b, m2)) : m2.sides_ok := by
  obtain ⟨i1, i2, i3, i4, i5⟩ := hI
  unfold ControllerMgr.check_and_calc_target_image_size at h
  split at h
  · simp only [Option.some.injEq, Prod.mk.injEq] at h
    rw [← h.2]
    exact ⟨i1, i2, i3, i4, i5⟩
  · rename_i hz
    have hzero : m.image_target_width_ = 0 ∨ m.image_target_height_ = 0 := by
      by_contra hc
      push_neg at hc
      exact hz hc
    split at h
    · simp only [Option.some.injEq, Prod.mk.injEq] at h
      rw [← h.2]
      exact ⟨i1, i2, i3, i4, i5⟩
    · rename_i hopt
      simp only at h
      split at h
      · -- the short side is set
        rename_i hs
        obtain ⟨s, hsn⟩ := Int.eq_ofNat_of_zero_le i4
        have hs0 : 0 < s := by omega
        have hs31 : s ≤ 2 ^ 50 := by omega
        rw [hsn] at h
        split at h
        · rename_i hgt
          have hlt : raw.rows < raw.cols := by exact_mod_cast hgt
          obtain ⟨K, k1, k2⟩ := scaled_mul_round s raw.cols raw.rows hs0 hw hh
          have hK : s ≤ K := k2 s (Nat.mul_le_mul_left s (le_of_lt hlt)) hs31
          rw [k1] at h
          split at h
          · rename_i w hto
            have hwK := to_int32_some _ _ hto
            simp only [Option.some.injEq, Prod.mk.injEq] at h
            rw [← h.2]
            unfold ControllerMgr.sides_ok
            dsimp only
            refine ⟨⟨fun h0 => ?_, fun h0 => ?_⟩, ?_, ?_, ?_, ?_⟩ <;> omega
          · cases h
        · rename_i hgt
          have hle : raw.cols ≤ raw.rows := by
            have : ¬ (raw.rows < raw.cols) := fun hc => hgt (by exact_mod_cast hc)
            omega
          obtain ⟨K, k1, k2⟩ := scaled_div_round s raw.cols raw.rows hs0 hw hh
          have hK : s ≤ K := k2 s (Nat.mul_le_mul_left s hle) hs31
          rw [k1] at h
          split at h
          · rename_i w hto
            have hwK := to_int32_some _ _ hto
            simp only [Option.some.injEq, Prod.mk.injEq] at h
            rw [← h.2]
            unfold ControllerMgr.sides_ok
            dsimp only
            refine ⟨⟨fun h0 => ?_, fun h0 => ?_⟩, ?_, ?_, ?_, ?_⟩ <;> omega
          · cases h
      · -- the long side is set
        rename_i hs
        have hs0 : m.image_target_short_side_ = 0 := by
          by_contra hc
          exact hs hc
        have hl0 : m.image_target_long_side_ ≠ 0 := fun hc => hopt ⟨hc, hs0⟩
        have ha := hadm hzero hs0 hl0
        obtain ⟨l, hln⟩ := Int.eq_ofNat_of_zero_le i2
        have hlpos : 0 < l := by omega
        rw [hln] at h ha
        have ha2 : max raw.cols raw.rows ≤ l * min raw.cols raw.rows := by exact_mod_cast ha
        split at h
        · rename_i hgt
          have hlt : raw.rows < raw.cols := by exact_mod_cast hgt
          rw [max_eq_left (le_of_lt hlt), min_eq_right (le_of_lt hlt)] at ha2
          obtain ⟨K, k1, k2⟩ := scaled_div_round l raw.cols raw.rows hlpos hw hh
          have hK : 1 ≤ K := k2 1 (by omega) (by norm_num)
          rw [k1] at h
          split at h
          · rename_i w hto
            have hwK := to_int32_some _ _ hto
            simp only [Option.some.injEq, Prod.mk.injEq] at h
            rw [← h.2]
            unfold ControllerMgr.sides_ok
            dsimp only
            refine ⟨⟨fun h0 => ?_, fun h0 => ?_⟩, ?_, ?_, ?_, ?_⟩ <;> omega
          · cases h
        · rename_i hgt
          have hle : raw.cols ≤ raw.rows := by
            have : ¬ (raw.rows < raw.cols) := fun hc => hgt (by exact_mod_cast hc)
            omega
          rw [max_eq_right hle, min_eq_left hle] at ha2
          obtain ⟨K, k1, k2⟩ := scaled_mul_round l raw.cols raw.rows hlpos hw hh
          have hK : 1 ≤ K := k2 1 (by omega) (by norm_num)
          rw [k1] at h
          split at h
          · rename_i w hto
            have hwK := to_int32_some _ _ hto
            simp only [Option.some.injEq, Prod.mk.injEq] at h
            rw [← h.2]
            unfold ControllerMgr.sides_ok
            dsimp only
            refine ⟨⟨fun h0 => ?_, fun h0 => ?_⟩, ?_, ?_, ?_, ?_⟩ <;> omega
          · cases h

theorem ControllerMgr.sides_ok_congr (m m2 : ControllerMgr)
    (h1 : m2.image_target_width_ = m.image_target_width_)
    (h2 : m2.image_target_height_ = m.image_target_height_)
    (h3 : m2.image_target_long_side_ = m.image_target_long_side_)
    (h4 : m2.image_target_short_side_ = m.image_target_short_side_) (hI : m.sides_ok) :
    m2.sides_ok := by
  unfold ControllerMgr.sides_ok at hI ⊢
  rw [h1, h2, h3, h4]
  exact hI

theorem ControllerMgr.postproc_sides_ok (m : ControllerMgr) (raw : Mat) (hI : m.sides_ok)
    (hadm : (m.image_target_width_ = 0 ∨ m.image_target_height_ = 0) →
      m.image_target_short_side_ = 0 → m.image_target_long_side_ ≠ 0 →
      ((max raw.cols raw.rows : Nat) : Int) ≤
        m.image_target_long_side_ * ((min raw.cols raw.rows : Nat) : Int))
    (b : Bool) (m2 : ControllerMgr) (h : m.postproc_screenshot raw = some (b, m2)) :
    m2.sides_ok := by
  unfold ControllerMgr.postproc_screenshot at h
  split at h
  · simp only [Option.some.injEq, Prod.mk.injEq] at h
    rw [← h.2]
    exact hI
  · rename_i hne
    have hpos : 0 < raw.cols ∧ 0 < raw.rows := by
      simp only [Mat.empty, Bool.or_eq_true, beq_iff_eq, not_or] at hne
      omega
    split at h
    · cases h
    · rename_i m1 hc
      simp only [Option.some.injEq, Prod.mk.injEq] at h
      rw [← h.2]
      exact ControllerMgr.check_and_calc_sides_ok m raw hpos.1 hpos.2 hI hadm _ _ hc
    · rename_i m1 hc
      simp only [Option.some.injEq, Prod.mk.injEq] at h
      rw [← h.2]
      exact ControllerMgr.sides_ok_congr m1 _ rfl rfl rfl rfl
        (ControllerMgr.check_and_calc_sides_ok m raw hpos.1 hpos.2 hI hadm _ _ hc)

/-! ### Processing order of a runner -/

section FifoLemmas
variable {Item : Type}

theorem ids_of_cons (k j : Nat) (id : Int) (l : List (Nat × Int)) :
    ids_of k ((j, id) :: l) = if j = k then id :: ids_of k l else ids_of k l := by
  by_cases h : j = k <;> simp [ids_of, h]

theorem ids_of_sublist (k : Nat) (l : List (Nat × Int)) :
    (ids_of k l).Sublist (l.map Prod.snd) :=
  (List.filter_sublist l).map Prod.snd

theorem AsyncRunner.picked_id_some (r : AsyncRunner Item) (q : Int)
    (h : r.picked_id = some q) :
    r.queued_ids = q :: r.working_pick.queued_ids := by
  unfold AsyncRunner.picked_id at h
  unfold AsyncRunner.working_pick
  cases he : r.exit_ with
  | true => simp [he] at h
  | false =>
    cases hw : r.working_on with
    | some w => simp [he, hw] at h
    | none =>
      cases hq : r.queue_ with
      | nil => simp [he, hw, hq, AsyncRunner.queued_ids] at h
      | cons a rest =>
        obtain ⟨id, item⟩ := a
        simp [he, hw, hq, AsyncRunner.queued_ids] at h
        simp [hq, AsyncRunner.queued_ids, h]

theorem AsyncRunner.picked_id_none (r : AsyncRunner Item) (h : r.picked_id = none) :
    r.working_pick.queued_ids = r.queued_ids := by
  unfold AsyncRunner.picked_id at h
  unfold AsyncRunner.working_pick
  cases he : r.exit_ with
  | true => simp
  | false =>
    cases hw : r.working_on with
    | some w => simp
    | none =>
      cases hq : r.queue_ with
      | nil => simp [AsyncRunner.queued_ids, hq]
      | cons a rest => simp [he, hw, hq, AsyncRunner.queued_ids] at h

/-- What the worker of runner `k` takes in a run is a sublist of what is
queued at the start followed by what the run enqueues. -/
theorem Proc.handed_sublist (k : Nat) (evs : List (Ev Item)) : ∀ p : Proc Item,
    (ids_of k (p.handed evs)).Sublist ((p.inst k).queued_ids ++ ids_of k (p.issued evs)) := by
  induction evs with
  | nil =>
    intro p
    simp [Proc.handed, ids_of]
  | cons e evs ih =>
    intro p
    have h := ih (p.step e)
    cases e with
    | post j item b =>
      simp only [Proc.handed, Proc.handed_id, Proc.issued, Proc.returned_id, ids_of_cons]
      by_cases hj : j = k
      · subst hj
        simpa [Proc.step, Proc.set_inst, AsyncRunner.post, AsyncRunner.queued_ids] using h
      · simpa [Proc.step, Proc.set_inst, hj, Ne.symm hj] using h
    | pick j =>
      simp only [Proc.handed, Proc.handed_id, Proc.issued, Proc.returned_id]
      by_cases hj : j = k
      · subst hj
        cases hp : (p.inst j).picked_id with
        | some q =>
          simp only [Option.map_some', ids_of_cons, if_true]
          rw [AsyncRunner.picked_id_some _ q hp]
          simpa [Proc.step, Proc.set_inst] using h
        | none =>
          simp only [Option.map_none']
          rw [← AsyncRunner.picked_id_none _ hp]
          simpa [Proc.step, Proc.set_inst] using h
      · cases hp : (p.inst j).picked_id with
        | some q =>
          simp only [Option.map_some', ids_of_cons, if_neg hj]
          simpa [Proc.step, Proc.set_inst, hj, Ne.symm hj] using h
        | none =>
          simp only [Option.map_none']
          simpa [Proc.step, Proc.set_inst, hj, Ne.symm hj] using h
    | finish j ret =>
      simp only [Proc.handed, Proc.handed_id, Proc.issued, Proc.returned_id]
      by_cases hj : j = k
      · subst hj
        have hq : ((p.inst j).working_finish ret).queued_ids = (p.inst j).queued_ids := by
          unfold AsyncRunner.working_finish
          cases (p.inst j).working_on <;> rfl
        simpa [Proc.step, Proc.set_inst, hq] using h
      · simpa [Proc.step, Proc.set_inst, hj, Ne.symm hj] using h
    | clear j =>
      simp only [Proc.handed, Proc.handed_id, Proc.issued, Proc.returned_id]
      by_cases hj : j = k
      · subst hj
        have h2 : (ids_of j ((p.step (Ev.clear j)).handed evs)).Sublist
            (ids_of j ((p.step (Ev.clear j)).issued evs)) := by
          simpa [Proc.step, Proc.set_inst, AsyncRunner.clear_eq, AsyncRunner.queued_ids] using h
        exact h2.trans (List.sublist_append_right _ _)
      · simpa [Proc.step, Proc.set_inst, hj, Ne.symm hj] using h
    | release j =>
      simp only [Proc.handed, Proc.handed_id, Proc.issued, Proc.returned_id]
      by_cases hj : j = k
      · subst hj
        simpa [Proc.step, Proc.set_inst, AsyncRunner.release, AsyncRunner.queued_ids] using h
      · simpa [Proc.step, Proc.set_inst, hj, Ne.symm hj] using h

/-- In a strictly increasing list, the smaller of two members stands first. -/
theorem pairwise_lt_order (l : List Int) (h : l.Pairwise (fun a b => a < b)) (a b : Int)
    (ha : a ∈ l) (hb : b ∈ l) (hab : a < b) : [a, b].Sublist l := by
  induction l with
  | nil => simp at ha
  | cons c l ih =>
    rw [List.pairwise_cons] at h
    rcases List.mem_cons.mp ha with rfl | ha2
    · rcases List.mem_cons.mp hb with rfl | hb2
      · omega
      · exact List.Sublist.cons₂ _ (List.singleton_sublist.mpr hb2)
    · rcases List.mem_cons.mp hb with rfl | hb2
      · have := h.1 a ha2
        omega
      · exact List.Sublist.cons _ (ih h.2 ha2 hb2)

end FifoLemmas

/-- C11. In every run from process start with fewer than 2^63 posts, for every
runner: the sequence of ids its worker hands to `process_` is strictly
increasing and is a subsequence of the runner's enqueue order; and of two jobs
of the runner where the first was posted before the second, if both are handed
to `process_` the first is handed before the second. -/
theorem C11_fifo_processing_order {Item : Type} (evs : List (Ev Item)) (k : Nat)
    (hb : (count_posts evs : Int) < 2 ^ 63) :
    (Proc.handed_by evs k).Pairwise (fun a b => a < b) ∧
    (Proc.handed_by evs k).Sublist (Proc.enqueued_by evs k) ∧
    ∀ a b : Int, [a, b].Sublist (Proc.enqueued_by evs k) →
      a ∈ Proc.handed_by evs k → b ∈ Proc.handed_by evs k →
      [a, b].Sublist (Proc.handed_by evs k) := by
  have hinc := (Proc.issued_increasing evs (Proc.init : Proc Item) Proc.init_proc_wf
    (by simpa [Proc.init] using hb)).2
  have henq : (Proc.enqueued_by evs k).Pairwise (fun a b => a < b) :=
    hinc.sublist (ids_of_sublist k _)
  have hsub : (Proc.handed_by evs k).Sublist (Proc.enqueued_by evs k) := by
    have := Proc.handed_sublist k evs (Proc.init : Proc Item)
    simpa [Proc.init, AsyncRunner.init, AsyncRunner.queued_ids] using this
  have hpw := henq.sublist hsub
  refine ⟨hpw, hsub, fun a b hab ha hb2 => ?_⟩
  have hlt : a < b := by
    have := henq.sublist hab
    simpa using this
  exact pairwise_lt_order _ hpw a b ha hb2 hlt

theorem C11_fifo_processing_order_witness :
    (count_posts run_fifo : Int) < 2 ^ 63 ∧
    Proc.handed_by run_fifo 0 = [1, 4] ∧
    Proc.enqueued_by run_fifo 0 = [1, 2, 4] ∧
    Proc.handed_by run_fifo 1 = [3] ∧
    ((Proc.handed_by run_fifo 0).Pairwise (fun a b => a < b) ∧
    (Proc.handed_by run_fifo 0).Sublist (Proc.enqueued_by run_fifo 0) ∧
    ∀ a b : Int, [a, b].Sublist (Proc.enqueued_by run_fifo 0) →
      a ∈ Proc.handed_by run_fifo 0 → b ∈ Proc.handed_by run_fifo 0 →
      [a, b].Sublist (Proc.handed_by run_fifo 0)) :=
  ⟨by decide, by decide, by decide, by decide,
    C11_fifo_processing_order run_fifo 0 (by decide)⟩

/-! ### A raising job, and the cursor under `clear()` -/

/-- C15, the failing run: two posts, the worker picks id 1, and `clear()` runs
while id 1 is in `process_`, which puts the cursor at 2; the next step, the
worker's finish of id 1, sets the cursor to 1. -/
theorem C15_finish_after_clear_lowers_cursor :
    (Proc.runner_after (run_clear_in_flight.take 4) 0).compl_id_ = 2 ∧
    run_clear_in_flight = run_clear_in_flight.take 4 ++ [Ev.finish 0 true] ∧
    (Proc.runner_after (run_clear_in_flight.take 4 ++ [Ev.finish 0 true]) 0).compl_id_ = 1 ∧
    ((Proc.runner_after (run_clear_in_flight.take 4) 0).working_finish true).compl_id_ <
      (Proc.runner_after (run_clear_in_flight.take 4) 0).compl_id_ := by
  refine ⟨by decide, by rfl, by decide, by decide⟩

/-! ### The dispatch of the other actions -/

/-- The notifications of `run_action` and the removal of the id from
`post_ids_` touch neither the result nor the members other than the call log
and `post_ids_`. -/
theorem ControllerMgr.run_action_of_perform (m : ControllerMgr) (drv : Driver) (id : Int)
    (action : Action) (ret : Bool) (f : ControllerMgr → ControllerMgr)
    (hf : ∀ m1 : ControllerMgr, m1.perform drv action = some (ret, f m1)) :
    ∃ m1 m2 : ControllerMgr, m.run_action drv id action = some (ret, m2) ∧
      m1.same_sizing m ∧ m1.connected_ = m.connected_ ∧
      (m2.same_sizing (f m1) ∧ m2.connected_ = (f m1).connected_) := by
  by_cases hn : id ∈ m.post_ids_
  · refine ⟨({ m with post_ids_ := m.post_ids_.erase id }).called
        [Call.notify MaaMsg.Controller_Action_Started id],
      (f (({ m with post_ids_ := m.post_ids_.erase id }).called
        [Call.notify MaaMsg.Controller_Action_Started id])).called
        [Call.notify
          (if ret then MaaMsg.Controller_Action_Completed else MaaMsg.Controller_Action_Failed) id],
      ?_, by exact ⟨rfl, rfl, rfl, rfl⟩, by rfl, by exact ⟨rfl, rfl, rfl, rfl⟩, by rfl⟩
    unfold ControllerMgr.run_action
    simp only [hn, decide_True, if_true, hf]
  · refine ⟨{ m with post_ids_ := m.post_ids_.erase id },
      f { m with post_ids_ := m.post_ids_.erase id },
      ?_, by exact ⟨rfl, rfl, rfl, rfl⟩, by rfl, by exact ⟨rfl, rfl, rfl, rfl⟩, by rfl⟩
    unfold ControllerMgr.run_action
    simp only [hn, decide_False, Bool.false_eq_true, if_false, hf]

/-- C16. For every controller state, driver and job id: `run_action` on
StartApp or StopApp returns the driver's result for the package and leaves the
target size (0, 0), whatever that result; on Connect it returns the driver's
result and `connected_` holds it; on Connect, Click, Swipe and PressKey the
target size and both side options are unchanged; on Click, Swipe and PressKey
it returns true. -/
theorem C16_run_action_other_actions (m : ControllerMgr) (drv : Driver) (id : Int) :
    (∀ package : String, ∃ m2 : ControllerMgr,
      m.run_action drv id (Action.start_app package) = some (drv.start_app package, m2) ∧
      m2.image_target_width_ = 0 ∧ m2.image_target_height_ = 0) ∧
    (∀ package : String, ∃ m2 : ControllerMgr,
      m.run_action drv id (Action.stop_app package) = some (drv.stop_app package, m2) ∧
      m2.image_target_width_ = 0 ∧ m2.image_target_height_ = 0) ∧
    (∃ m2 : ControllerMgr,
      m.run_action drv id Action.connect = some (drv.connect, m2) ∧
      m2.connected_ = drv.connect ∧ m2.same_sizing m) ∧
    (∀ x y : Int, ∃ m2 : ControllerMgr,
      m.run_action drv id (Action.click x y) = some (true, m2) ∧ m2.same_sizing m) ∧
    (∀ steps : List SwipeStep, ∃ m2 : ControllerMgr,
      m.run_action drv id (Action.swipe steps) = some (true, m2) ∧ m2.same_sizing m) ∧
    (∀ keycode : Int, ∃ m2 : ControllerMgr,
      m.run_action drv id (Action.press_key keycode) = some (true, m2) ∧ m2.same_sizing m) := by
  refine ⟨fun package => ?_, fun package => ?_, ?_, fun x y => ?_, fun steps => ?_,
    fun keycode => ?_⟩
  · obtain ⟨m1, m2, h, _, _, hs, _⟩ := m.run_action_of_perform drv id (Action.start_app package)
      (drv.start_app package)
      (fun m1 => (m1.called [Call.start_app package]).clear_target_image_size) (fun _ => rfl)
    exact ⟨m2, h, hs.1, hs.2.1⟩
  · obtain ⟨m1, m2, h, _, _, hs, _⟩ := m.run_action_of_perform drv id (Action.stop_app package)
      (drv.stop_app package)
      (fun m1 => (m1.called [Call.stop_app package]).clear_target_image_size) (fun _ => rfl)
    exact ⟨m2, h, hs.1, hs.2.1⟩
  · obtain ⟨m1, m2, h, h1, _, hs, hc⟩ := m.run_action_of_perform drv id Action.connect
      drv.connect
      (fun m1 => { (m1.called [Call.connect]) with connected_ := drv.connect }) (fun _ => rfl)
    exact ⟨m2, h, hc, hs.1.trans h1.1, hs.2.1.trans h1.2.1, hs.2.2.1.trans h1.2.2.1,
      hs.2.2.2.trans h1.2.2.2⟩
  · obtain ⟨m1, m2, h, h1, _, hs, _⟩ := m.run_action_of_perform drv id (Action.click x y)
      true (fun m1 => m1.called [Call.click x y]) (fun _ => rfl)
    exact ⟨m2, h, hs.1.trans h1.1, hs.2.1.trans h1.2.1, hs.2.2.1.trans h1.2.2.1,
      hs.2.2.2.trans h1.2.2.2⟩
  · obtain ⟨m1, m2, h, h1, _, hs, _⟩ := m.run_action_of_perform drv id (Action.swipe steps)
      true (fun m1 => m1.called [Call.swipe steps]) (fun _ => rfl)
    exact ⟨m2, h, hs.1.trans h1.1, hs.2.1.trans h1.2.1, hs.2.2.1.trans h1.2.2.1,
      hs.2.2.2.trans h1.2.2.2⟩
  · obtain ⟨m1, m2, h, h1, _, hs, _⟩ := m.run_action_of_perform drv id (Action.press_key keycode)
      true (fun m1 => m1.called [Call.press_key keycode]) (fun _ => rfl)
    exact ⟨m2, h, hs.1.trans h1.1, hs.2.1.trans h1.2.1, hs.2.2.1.trans h1.2.2.1,
      hs.2.2.2.trans h1.2.2.2⟩

/-! ### The screenshot post-processing -/

/-- With the target size unset and a positive side option in range, the
derivation of the target size succeeds with both sides positive. -/
theorem ControllerMgr.derived_positive (m : ControllerMgr) (raw : Mat)
    (hw : 0 < raw.cols) (hh : 0 < raw.rows)
    (h0 : m.image_target_width_ = 0 ∧ m.image_target_height_ = 0)
    (hside :
      (∃ s : Nat, m.image_target_short_side_ = (s : Int) ∧ 0 < s ∧
        s * max raw.cols raw.rows ≤ (2 ^ 31 - 1) * min raw.cols raw.rows) ∨
      (∃ l : Nat, m.image_target_short_side_ = 0 ∧ m.image_target_long_side_ = (l : Int) ∧
        0 < l ∧ l < 2 ^ 31 ∧ max raw.cols raw.rows ≤ l * min raw.cols raw.rows)) :
    ∃ tw th : Nat, 0 < tw ∧ 0 < th ∧
      m.check_and_calc_target_image_size raw = some (true,
        { m with image_target_width_ := (tw : Int), image_target_height_ := (th : Int) }) := by
  obtain ⟨h01, h02⟩ := h0
  rcases hside with ⟨s, hs, hs0, hr⟩ | ⟨l, hs, hl, hl0, hl31, hpos⟩
  · have hsne : (s : Int) ≠ 0 := by omega
    by_cases hlt : raw.rows < raw.cols
    · have hmax : max raw.cols raw.rows = raw.cols := max_eq_left (le_of_lt hlt)
      have hmin : min raw.cols raw.rows = raw.rows := min_eq_right (le_of_lt hlt)
      rw [hmax, hmin] at hr
      obtain ⟨K, k1, _, _, k4, _, _⟩ := scaled_mul_cast s raw.cols raw.rows hs0 hw hh hr
      have hsK : s ≤ K := by
        apply k4 s (Nat.mul_le_mul_left s (le_of_lt hlt))
        have h1 : s * raw.rows < (2 ^ 31 - 1) * raw.rows :=
          lt_of_lt_of_le (Nat.mul_lt_mul_of_pos_left hlt hs0) hr
        have := Nat.lt_of_mul_lt_mul_right h1
        omega
      have hgt : (raw.cols : Int) > (raw.rows : Int) := by exact_mod_cast hlt
      refine ⟨K, s, by omega, hs0, ?_⟩
      simp only [ControllerMgr.check_and_calc_target_image_size, h01, h02, hs, hsne,
        ne_eq, not_true_eq_false, and_self, and_false, if_false, not_false_eq_true, if_true,
        hgt, k1]
    · have hle : raw.cols ≤ raw.rows := by omega
      have hmax : max raw.cols raw.rows = raw.rows := max_eq_right hle
      have hmin : min raw.cols raw.rows = raw.cols := min_eq_left hle
      rw [hmax, hmin] at hr
      obtain ⟨K, k1, _, _, k4, _, _⟩ := scaled_div_cast s raw.cols raw.rows hs0 hw hh hr
      have hsK : s ≤ K := by
        apply k4 s (Nat.mul_le_mul_left s hle)
        have h1 : s * raw.cols ≤ (2 ^ 31 - 1) * raw.cols :=
          le_trans (Nat.mul_le_mul_left s hle) hr
        have := Nat.le_of_mul_le_mul_right h1 hw
        omega
      have hgt : ¬ ((raw.cols : Int) > (raw.rows : Int)) := by
        have : (raw.cols : Int) ≤ (raw.rows : Int) := by exact_mod_cast hle
        omega
      refine ⟨s, K, hs0, by omega, ?_⟩
      simp only [ControllerMgr.check_and_calc_target_image_size, h01, h02, hs, hsne,
        ne_eq, not_true_eq_false, and_self, and_false, if_false, not_false_eq_true, if_true,
        hgt, k1]
  · have hlne : (l : Int) ≠ 0 := by omega
    by_cases hlt : raw.rows < raw.cols
    · have hmax : max raw.cols raw.rows = raw.cols := max_eq_left (le_of_lt hlt)
      have hmin : min raw.cols raw.rows = raw.rows := min_eq_right (le_of_lt hlt)
      rw [hmax, hmin] at hpos
      have hr : l * raw.rows ≤ (2 ^ 31 - 1) * raw.cols :=
        Nat.mul_le_mul (by omega) (le_of_lt hlt)
      obtain ⟨K, k1, _, _, k4, _, _⟩ := scaled_div_cast l raw.cols raw.rows hl0 hw hh hr
      have h1K : 1 ≤ K := k4 1 (by omega) (by norm_num)
      have hgt : (raw.cols : Int) > (raw.rows : Int) := by exact_mod_cast hlt
      refine ⟨l, K, hl0, by omega, ?_⟩
      simp only [ControllerMgr.check_and_calc_target_image_size, h01, h02, hs, hl, hlne,
        ne_eq, not_true_eq_false, and_self, and_false, false_and, if_false,
        not_false_eq_true, if_true, hgt, k1]
    · have hle : raw.cols ≤ raw.rows := by omega
      have hmax : max raw.cols raw.rows = raw.rows := max_eq_right hle
      have hmin : min raw.cols raw.rows = raw.cols := min_eq_left hle
      rw [hmax, hmin] at hpos
      have hr : l * raw.cols ≤ (2 ^ 31 - 1) * raw.rows := Nat.mul_le_mul (by omega) hle
      obtain ⟨K, k1, _, _, k4, _, _⟩ := scaled_mul_cast l raw.cols raw.rows hl0 hw hh hr
      have h1K : 1 ≤ K := k4 1 (by omega) (by norm_num)
      have hgt : ¬ ((raw.cols : Int) > (raw.rows : Int)) := by
        have : (raw.cols : Int) ≤ (raw.rows : Int) := by exact_mod_cast hle
        omega
      refine ⟨K, l, by omega, hl0, ?_⟩
      simp only [ControllerMgr.check_and_calc_target_image_size, h01, h02, hs, hl, hlne,
        ne_eq, not_true_eq_false, and_self, and_false, false_and, if_false,
        not_false_eq_true, if_true, hgt, k1]

theorem Mat.empty_false (raw : Mat) (h : raw.empty = false) : 0 < raw.cols ∧ 0 < raw.rows := by
  unfold Mat.empty at h
  simp only [Bool.or_eq_false_iff, beq_eq_false_iff_ne, ne_eq] at h
  omega

/-- After a successful size check with positive target sides, the screenshot
is resized to the target size and the result is true. -/
theorem ControllerMgr.postproc_of_check (m m1 : ControllerMgr) (raw : Mat)
    (hne : raw.empty = false) (tw th : Nat) (htw : 0 < tw) (hth : 0 < th)
    (h1 : m1.image_target_width_ = (tw : Int)) (h2 : m1.image_target_height_ = (th : Int))
    (h : m.check_and_calc_target_image_size raw = some (true, m1)) :
    m.postproc_screenshot raw = some (true, { m1 with image_ := ⟨tw, th⟩ }) := by
  have he : (⟨tw, th⟩ : Mat).empty = false := by
    unfold Mat.empty
    simp only [Bool.or_eq_false_iff, beq_eq_false_iff_ne, ne_eq]
    omega
  simp only [ControllerMgr.postproc_screenshot, hne, Bool.false_eq_true, if_false, h, cv_resize,
    h1, h2, Int.toNat_ofNat, he, Bool.not_false]
/-- C13, as stated, fails: long side 1 is a side option that is set and a 1x3
image is not empty, but the derived target size is (0, 1); the result of
`postproc_screenshot` is false, the cached image is empty (no image of width 0
passes `!image_.empty()`), and the Screencap job ends Failed. -/
theorem C13_zero_target_side_returns_false :
    (⟨1, 3⟩ : Mat).empty = false ∧
    (with_long_side 1).image_target_long_side_ = 1 ∧
    ((with_long_side 1).postproc_screenshot ⟨1, 3⟩).map
      (fun r => (r.1, r.2.image_.empty, r.2.image_target_width_, r.2.image_target_height_))
        = some (false, true, 0, 1) ∧
    (calibrated_long 1 driver_1x3).map (fun t => t.status 1) = some MaaStatus.Failed := by
  decide

/-- C13, amended: `postproc_screenshot(raw)` returns false and changes nothing
when `raw` is empty, and when `raw` is not empty, `target_w = target_h = 0`
and both side options are 0. For a non-empty `raw` of width `w` and height
`h` it returns true with a cached image of size exactly
`(target_w, target_h)` in these cases: the target size is set, both sides
positive (it is kept); the target size is (0, 0) and the short side `s > 0`
has `s * max(w,h) / min(w,h)` at most `INT_MAX`; the target size is (0, 0),
the short side is 0 and the long side `l > 0` has `max(w,h) <= l * min(w,h)`
(in the last two the target size is first derived from `raw`). The driver's
reported resolution has no part in the result. Short side 720 and a 1920x1080
image give a cached image of size (1280, 720) and the job status Success. -/
theorem C13_postproc_screenshot (m : ControllerMgr) (raw : Mat) :
    (raw.empty = true → m.postproc_screenshot raw = some (false, m)) ∧
    (raw.empty = false → m.image_target_width_ = 0 → m.image_target_height_ = 0 →
      m.image_target_long_side_ = 0 → m.image_target_short_side_ = 0 →
      m.postproc_screenshot raw = some (false, m)) ∧
    (raw.empty = false → ∀ tw th : Nat, 0 < tw → 0 < th →
      m.image_target_width_ = (tw : Int) → m.image_target_height_ = (th : Int) →
      m.postproc_screenshot raw = some (true, { m with image_ := ⟨tw, th⟩ })) ∧
    (raw.empty = false → m.image_target_width_ = 0 → m.image_target_height_ = 0 →
      ((∃ s : Nat, m.image_target_short_side_ = (s : Int) ∧ 0 < s ∧
        s * max raw.cols raw.rows ≤ (2 ^ 31 - 1) * min raw.cols raw.rows) ∨
      (∃ l : Nat, m.image_target_short_side_ = 0 ∧ m.image_target_long_side_ = (l : Int) ∧
        0 < l ∧ l < 2 ^ 31 ∧ max raw.cols raw.rows ≤ l * min raw.cols raw.rows)) →
      ∃ tw th : Nat, 0 < tw ∧ 0 < th ∧
        m.check_and_calc_target_image_size raw = some (true,
          { m with image_target_width_ := (tw : Int), image_target_height_ := (th : Int) }) ∧
        m.postproc_screenshot raw = some (true,
          { m with image_target_width_ := (tw : Int), image_target_height_ := (th : Int),
                   image_ := ⟨tw, th⟩ })) ∧
    (∀ (drv : Driver) (res : Int × Int),
      m.perform { drv with resolution := res } Action.screencap =
        m.perform drv Action.screencap) ∧
    (calibrated 720 driver_1920x1080).map (fun t => (t.mgr.image_, t.status 1))
      = some (⟨1280, 720⟩, MaaStatus.Success) := by
  refine ⟨fun he => ?_, fun he h1 h2 h3 h4 => ?_, fun he tw th htw hth h1 h2 => ?_,
    fun he h1 h2 hside => ?_, fun _ _ => rfl, by decide⟩
  · simp [ControllerMgr.postproc_screenshot, he]
  · simp [ControllerMgr.postproc_screenshot, ControllerMgr.check_and_calc_target_image_size,
      he, h1, h2, h3, h4]
  · apply ControllerMgr.postproc_of_check m m raw he tw th htw hth h1 h2
    have a1 : m.image_target_width_ ≠ 0 := by omega
    have a2 : m.image_target_height_ ≠ 0 := by omega
    simp [ControllerMgr.check_and_calc_target_image_size, a1, a2]
  · obtain ⟨hw, hh⟩ := Mat.empty_false raw he
    obtain ⟨tw, th, htw, hth, hc⟩ := m.derived_positive raw hw hh ⟨h1, h2⟩ hside
    exact ⟨tw, th, htw, hth, hc,
      ControllerMgr.postproc_of_check m _ raw he tw th htw hth rfl rfl hc⟩

/-- Witness of C13 amended: short side 720 and a 1920x1080 screenshot. -/
theorem C13_postproc_screenshot_witness :
    (⟨1920, 1080⟩ : Mat).empty = false ∧
    (with_short_side 720).image_target_width_ = 0 ∧
    (with_short_side 720).image_target_height_ = 0 ∧
    (with_short_side 720).image_target_short_side_ = ((720 : Nat) : Int) ∧
    720 * max 1920 1080 ≤ (2 ^ 31 - 1) * min 1920 1080 ∧
    (∃ tw th : Nat, 0 < tw ∧ 0 < th ∧
      (with_short_side 720).check_and_calc_target_image_size ⟨1920, 1080⟩ = some (true,
        { with_short_side 720 with
          image_target_width_ := (tw : Int), image_target_height_ := (th : Int) }) ∧
      (with_short_side 720).postproc_screenshot ⟨1920, 1080⟩ = some (true,
        { with_short_side 720 with
          image_target_width_ := (tw : Int), image_target_height_ := (th : Int),
          image_ := ⟨tw, th⟩ })) :=
  ⟨by decide, by decide, by decide, by decide, by decide,
    (C13_postproc_screenshot (with_short_side 720) ⟨1920, 1080⟩).2.2.2.1 (by decide) (by decide)
      (by decide) (Or.inl ⟨720, by decide, by decide, by decide⟩)⟩

/-! ### The swipe sampling -/

/-- The loop of `swipe` from index `i` with `n` iterations left, none of which
overflows: the steps sampled at `i, i + 2, ...`. -/
theorem swipe_loop_ok (sm : SwipeMath) (x1 y1 x2 y2 d : Int) : ∀ (n fuel : Nat) (i : Int),
    n < fuel → 0 ≤ i → i + 2 * (n : Int) < 2 ^ 31 → d ≤ i + 2 * (n : Int) →
    (∀ j : Nat, j < n → i + 2 * (j : Int) < d) →
    swipe_loop sm x1 y1 x2 y2 d fuel i =
      Except.ok ((List.range n).map
        (fun k : Nat => swipe_step sm x1 y1 x2 y2 d (i + 2 * (k : Int)))) := by
  intro n
  induction n with
  | zero =>
    intro fuel i hf h0 hr hd _
    obtain ⟨f, rfl⟩ : ∃ f, fuel = f + 1 := ⟨fuel - 1, by omega⟩
    have : ¬ i < d := by
      simp only [Nat.cast_zero, mul_zero, add_zero] at hd
      omega
    simp [swipe_loop, this]
  | succ n ih =>
    intro fuel i hf h0 hr hd hlt
    obtain ⟨f, rfl⟩ : ∃ f, fuel = f + 1 := ⟨fuel - 1, by omega⟩
    have hi : i < d := by
      have := hlt 0 (Nat.succ_pos n)
      simpa using this
    have hcast : to_int32 (i + 2) = some (i + 2) := by
      unfold to_int32
      rw [if_pos]
      push_cast at hr
      constructor <;> omega
    have hrec := ih f (i + 2) (by omega) (by omega) (by push_cast at hr; omega)
      (by push_cast at hd; omega)
      (fun j hj => by
        have := hlt (j + 1) (by omega)
        push_cast at this
        omega)
    rw [swipe_loop, if_pos hi, hcast]
    simp only [hrec, Except.map]
    rw [List.range_succ_eq_map, List.map_cons, List.map_map]
    congr 2
    · simp
    · apply List.map_congr_left
      intro k _
      simp only [Function.comp, Nat.cast_succ]
      congr 1
      ring

/-- With `duration = INT_MAX` the loop of `swipe` runs into the overflow of
`i += 2` at `i = INT_MAX - 1`, from every even index below. -/
theorem swipe_loop_overflow (sm : SwipeMath) (x1 y1 x2 y2 : Int) : ∀ (n fuel : Nat) (i : Int),
    n < fuel → 0 ≤ i → i + 2 * (n : Int) = 2 ^ 31 - 2 →
    swipe_loop sm x1 y1 x2 y2 (2 ^ 31 - 1) fuel i = Except.error LoopFault.int_overflow := by
  intro n
  induction n with
  | zero =>
    intro fuel i hf h0 hi
    obtain ⟨f, rfl⟩ : ∃ f, fuel = f + 1 := ⟨fuel - 1, by omega⟩
    simp only [Nat.cast_zero, mul_zero, add_zero] at hi
    subst hi
    rw [swipe_loop, if_pos (by norm_num)]
    have : to_int32 (2 ^ 31 - 2 + 2) = none := by decide
    rw [this]
  | succ n ih =>
    intro fuel i hf h0 hi
    obtain ⟨f, rfl⟩ : ∃ f, fuel = f + 1 := ⟨fuel - 1, by omega⟩
    push_cast at hi
    have hcast : to_int32 (i + 2) = some (i + 2) := by
      unfold to_int32
      rw [if_pos]
      constructor <;> omega
    have hrec := ih f (i + 2) (by omega) (by omega) (by omega)
    rw [swipe_loop, if_pos (by omega), hcast]
    simp only [hrec, Except.map]
/-- The post of `swipe` from the mapped points and the result of the loop. -/
theorem Sys.swipe_of_steps (s : Sys) (drv : Driver) (sm : SwipeMath) (p1 p2 : Int × Int)
    (x1 y1 x2 y2 d : Int)
    (h1 : s.mgr.preproc_touch_coord drv.resolution p1.1 p1.2 = some (x1, y1))
    (h2 : s.mgr.preproc_touch_coord drv.resolution p2.1 p2.2 = some (x2, y2)) :
    s.swipe drv sm p1 p2 d =
      match swipe_steps sm x1 y1 x2 y2 d with
      | Except.ok steps => some (s.post (Action.swipe steps))
      | Except.error _ => none := by
  simp only [Sys.swipe, h1, h2]

/-- With `duration = INT_MAX` the step list of `swipe` is undefined. -/
theorem swipe_steps_int_max (sm : SwipeMath) (x1 y1 x2 y2 : Int) :
    swipe_steps sm x1 y1 x2 y2 (2 ^ 31 - 1) = Except.error LoopFault.int_overflow := by
  unfold swipe_steps
  exact swipe_loop_overflow sm x1 y1 x2 y2 (2 ^ 30 - 1) _ 0 (by decide) (le_refl _)
    (by norm_num)

/-- C12, as stated, fails at `d = INT_MAX`: the loop samples up to
`i = INT_MAX - 1`, which is below `d`, and the following `i += 2` leaves the
range of `int`; no step list and no posted Swipe is defined. -/
theorem C12_swipe_int_max_overflows :
    Sys.init.mgr.preproc_touch_coord driver_1920x1080.resolution 0 0 = some (0, 0) ∧
    Sys.init.mgr.preproc_touch_coord driver_1920x1080.resolution 100 0 = some (0, 0) ∧
    swipe_steps linear_math 0 0 0 0 (2 ^ 31 - 1) = Except.error LoopFault.int_overflow ∧
    Sys.init.swipe driver_1920x1080 linear_math (0, 0) (100, 0) (2 ^ 31 - 1) = none := by
  have h1 : Sys.init.mgr.preproc_touch_coord driver_1920x1080.resolution 0 0 = some (0, 0) := by
    decide
  have h2 : Sys.init.mgr.preproc_touch_coord driver_1920x1080.resolution 100 0
      = some (0, 0) := by
    decide
  refine ⟨h1, h2, swipe_steps_int_max _ _ _ _ _, ?_⟩
  rw [Sys.swipe_of_steps _ _ _ _ _ _ _ _ _ _ h1 h2, swipe_steps_int_max]

/-- C12, amended: where both points have a defined mapping:
for every duration `d` with `0 < d < INT_MAX`, `swipe(p1, p2, d)` posts a
Swipe whose step list has exactly `ceil(d / 2)` entries, the `k`-th entry
(from 0) sampled at `i = 2k` with `t` the binary64 quotient of `2k` by `d`,
every entry with delay 2; for `d <= 0` it posts a Swipe with the empty step
list, without evaluating a quotient. -/
theorem C12_swipe_sampling (s : Sys) (drv : Driver) (sm : SwipeMath) (p1 p2 : Int × Int)
    (x1 y1 x2 y2 d : Int)
    (h1 : s.mgr.preproc_touch_coord drv.resolution p1.1 p1.2 = some (x1, y1))
    (h2 : s.mgr.preproc_touch_coord drv.resolution p2.1 p2.2 = some (x2, y2)) :
    (0 < d → d < 2 ^ 31 - 1 →
      ∃ steps : List SwipeStep,
        s.swipe drv sm p1 p2 d = some (s.post (Action.swipe steps)) ∧
        steps = (List.range ((d + 1) / 2).toNat).map (fun k : Nat =>
          ({ x := sm.lerp_round x1 x2
               (sm.cs (F64.div (F64.ofInt (2 * (k : Int))) (F64.ofInt d))),
             y := sm.lerp_round y1 y2
               (sm.cs (F64.div (F64.ofInt (2 * (k : Int))) (F64.ofInt d))),
             delay := 2 } : SwipeStep)) ∧
        d ≤ 2 * (steps.length : Int) ∧ 2 * (steps.length : Int) < d + 2 ∧
        ∀ st ∈ steps, st.delay = 2) ∧
    (d ≤ 0 → s.swipe drv sm p1 p2 d = some (s.post (Action.swipe []))) := by
  constructor
  · intro hd0 hd1
    have hn : (((d + 1) / 2).toNat : Int) = (d + 1) / 2 :=
      Int.toNat_of_nonneg (by omega)
    have hsteps := swipe_loop_ok sm x1 y1 x2 y2 d ((d + 1) / 2).toNat (d.toNat + 1) 0
      (by omega) (le_refl _) (by omega) (by omega) (fun j hj => by omega)
    refine ⟨_, ?_, rfl, ?_, ?_, ?_⟩
    · simp only [Sys.swipe, h1, h2, swipe_steps, hsteps]
      simp only [swipe_step, zero_add]
    · rw [List.length_map, List.length_range]
      omega
    · rw [List.length_map, List.length_range]
      omega
    · intro st hst
      obtain ⟨k, _, rfl⟩ := List.mem_map.mp hst
      rfl
  · intro hd
    have hloop : swipe_steps sm x1 y1 x2 y2 d = Except.ok [] := by
      unfold swipe_steps
      rw [swipe_loop, if_neg (by omega)]
    simp only [Sys.swipe, h1, h2, hloop]

/-- Witness of C12 amended: on the controller calibrated to (1280, 720) over a
1920x1080 device, the points (0, 0) and (100, 0) map to (0, 0) and (150, 0);
`d = 100` gives 50 steps and `d = 200` gives 100 steps. -/
theorem C12_swipe_sampling_witness :
    calibrated_720.mgr.preproc_touch_coord driver_1920x1080.resolution 0 0 = some (0, 0) ∧
    calibrated_720.mgr.preproc_touch_coord driver_1920x1080.resolution 100 0 = some (150, 0) ∧
    (0 : Int) < 100 ∧ (100 : Int) < 2 ^ 31 - 1 ∧
    (swipe_steps linear_math 0 0 150 0 100).toOption.map List.length = some 50 ∧
    (∃ steps : List SwipeStep,
      calibrated_720.swipe driver_1920x1080 linear_math (0, 0) (100, 0) 100
        = some (calibrated_720.post (Action.swipe steps)) ∧
      steps = (List.range (((100 : Int) + 1) / 2).toNat).map (fun k : Nat =>
        ({ x := linear_math.lerp_round 0 150
             (linear_math.cs (F64.div (F64.ofInt (2 * (k : Int))) (F64.ofInt 100))),
           y := linear_math.lerp_round 0 0
             (linear_math.cs (F64.div (F64.ofInt (2 * (k : Int))) (F64.ofInt 100))),
           delay := 2 } : SwipeStep)) ∧
      (100 : Int) ≤ 2 * (steps.length : Int) ∧ 2 * (steps.length : Int) < 100 + 2 ∧
      ∀ st ∈ steps, st.delay = 2) ∧
    (∃ steps : List SwipeStep,
      calibrated_720.swipe driver_1920x1080 linear_math (0, 0) (100, 0) 200
        = some (calibrated_720.post (Action.swipe steps)) ∧
      steps = (List.range (((200 : Int) + 1) / 2).toNat).map (fun k : Nat =>
        ({ x := linear_math.lerp_round 0 150
             (linear_math.cs (F64.div (F64.ofInt (2 * (k : Int))) (F64.ofInt 200))),
           y := linear_math.lerp_round 0 0
             (linear_math.cs (F64.div (F64.ofInt (2 * (k : Int))) (F64.ofInt 200))),
           delay := 2 } : SwipeStep)) ∧
      (200 : Int) ≤ 2 * (steps.length : Int) ∧ 2 * (steps.length : Int) < 200 + 2 ∧
      ∀ st ∈ steps, st.delay = 2) :=
  ⟨by decide, by decide, by decide, by decide, by decide,
    (C12_swipe_sampling calibrated_720 driver_1920x1080 linear_math (0, 0) (100, 0) 0 0 150 0 100
      (by decide) (by decide)).1 (by decide) (by decide),
    (C12_swipe_sampling calibrated_720 driver_1920x1080 linear_math (0, 0) (100, 0) 0 0 150 0 200
      (by decide) (by decide)).1 (by decide) (by decide)⟩

/-! ### The runner at the grain of lock scopes -/

section ScopeLemmas
variable {Item : Type}

theorem AsyncRunner.loop_test_fst (r : AsyncRunner Item) (st : Stage) :
    (r.loop_test st).1 = r := by
  cases st <;> rfl

theorem AsyncRunner.pop_front_wf {c : Int} {r : AsyncRunner Item} (st : Stage) (h : r.WF c) :
    (r.pop_front st).1.WF c := by
  cases st <;> try exact h
  cases hq : r.queue_ with
  | nil =>
    have e : (r.pop_front Stage.entered).1 = { r with running_ := false } := by
      simp [AsyncRunner.pop_front, hq]
    rw [e]
    exact ⟨h.compl_le, h.queue_le, h.queue_sorted, h.working_le, h.working_lt, h.status_le⟩
  | cons a rest =>
    obtain ⟨id, item⟩ := a
    have hs := h.queue_sorted
    have hl := h.queue_le
    simp only [AsyncRunner.queued_ids, hq, List.map_cons, List.pairwise_cons, List.mem_cons,
      forall_eq_or_imp] at hs hl
    have e : (r.pop_front Stage.entered).1 =
        { r with running_ := true, queue_ := rest, working_on := some (id, item) } := by
      simp [AsyncRunner.pop_front, hq]
    rw [e]
    refine ⟨h.compl_le, ?_, ?_, ?_, ?_, h.status_le⟩
    · intro q hq2
      exact hl.2 q hq2
    · exact hs.2
    · intro w hw
      simp only [Option.some.injEq] at hw
      subst hw
      exact hl.1
    · intro w hw q hq2
      simp only [Option.some.injEq] at hw
      subst hw
      exact hs.1 q hq2

theorem AsyncRunner.mark_running_wf {c : Int} {r : AsyncRunner Item} (st : Stage)
    (h : r.WF c) : (r.mark_running st).1.WF c := by
  cases st <;> try exact h
  unfold AsyncRunner.mark_running
  cases hw : r.working_on with
  | none => exact h
  | some w =>
    obtain ⟨id, item⟩ := w
    refine ⟨h.compl_le, h.queue_le, h.queue_sorted, ?_, ?_, ?_⟩
    · intro w2 hw2
      exact h.working_le w2 (by simpa [hw] using hw2)
    · intro w2 hw2
      exact h.working_lt w2 (by simpa [hw] using hw2)
    · intro j st2 hj
      simp only [AsyncRunner.assign] at hj
      by_cases hji : j = id
      · subst hji
        exact h.working_le _ hw
      · rw [if_neg hji] at hj
        exact h.status_le j st2 hj

theorem AsyncRunner.store_result_wf {c : Int} {r : AsyncRunner Item} (ret : Bool) (st : Stage)
    (h : r.WF c) : (r.store_result ret st).1.WF c := by
  cases st <;> try exact h
  unfold AsyncRunner.store_result
  cases hw : r.working_on with
  | none => exact h
  | some w =>
    obtain ⟨id, item⟩ := w
    refine ⟨h.compl_le, h.queue_le, h.queue_sorted, ?_, ?_, ?_⟩
    · intro w2 hw2
      exact h.working_le w2 (by simpa [hw] using hw2)
    · intro w2 hw2
      exact h.working_lt w2 (by simpa [hw] using hw2)
    · intro j st2 hj
      simp only [AsyncRunner.assign] at hj
      by_cases hji : j = id
      · subst hji
        exact h.working_le _ hw
      · rw [if_neg hji] at hj
        exact h.status_le j st2 hj

theorem AsyncRunner.store_cursor_wf {c : Int} {r : AsyncRunner Item} (st : Stage)
    (h : r.WF c) : (r.store_cursor st).1.WF c := by
  cases st <;> try exact h
  unfold AsyncRunner.store_cursor
  cases hw : r.working_on with
  | none => exact h
  | some w =>
    obtain ⟨id, item⟩ := w
    refine ⟨?_, h.queue_le, h.queue_sorted, ?_, ?_, h.status_le⟩
    · exact h.working_le _ hw
    · intro w2 hw2
      simp at hw2
    · intro w2 hw2
      simp at hw2

theorem AsyncRunner.clear_queue_wf {c : Int} {r : AsyncRunner Item} (h : r.WF c) :
    r.clear_queue.WF c where
  compl_le := h.compl_le
  queue_le := by simp [AsyncRunner.clear_queue, AsyncRunner.queued_ids]
  queue_sorted := by simp [AsyncRunner.clear_queue, AsyncRunner.queued_ids]
  working_le := h.working_le
  working_lt := by simp [AsyncRunner.clear_queue, AsyncRunner.queued_ids]
  status_le := h.status_le

theorem AsyncRunner.clear_cursor_wf {c : Int} {r : AsyncRunner Item} (h : r.WF c) :
    (r.clear_cursor c).WF c where
  compl_le := by simp [AsyncRunner.clear_cursor]
  queue_le := h.queue_le
  queue_sorted := h.queue_sorted
  working_le := h.working_le
  working_lt := h.working_lt
  status_le := h.status_le

theorem AsyncRunner.clear_status_wf {c : Int} {r : AsyncRunner Item} (h : r.WF c) :
    r.clear_status.WF c where
  compl_le := h.compl_le
  queue_le := h.queue_le
  queue_sorted := h.queue_sorted
  working_le := h.working_le
  working_lt := h.working_lt
  status_le := by simp [AsyncRunner.clear_status]

theorem Sched.worker_wf (s : Sched Item) (k : Nat)
    (f : AsyncRunner Item → Stage → AsyncRunner Item × Stage)
    (hf : ∀ (r : AsyncRunner Item) (st : Stage), r.WF s.proc.cross_inst_id_ →
      (f r st).1.WF s.proc.cross_inst_id_)
    (h : s.proc.WF) : (s.worker k f).proc.WF ∧
      (s.worker k f).proc.cross_inst_id_ = s.proc.cross_inst_id_ := by
  refine ⟨⟨h.1, fun j => ?_⟩, rfl⟩
  by_cases hj : j = k
  · subst hj
    simpa [Sched.worker, Proc.set_inst] using hf _ _ (h.2 j)
  · simpa [Sched.worker, Proc.set_inst, hj] using h.2 j

theorem Sched.caller_wf (s : Sched Item) (k : Nat) (f : AsyncRunner Item → AsyncRunner Item)
    (hf : ∀ r : AsyncRunner Item, r.WF s.proc.cross_inst_id_ → (f r).WF s.proc.cross_inst_id_)
    (h : s.proc.WF) : (s.caller k f).proc.WF ∧
      (s.caller k f).proc.cross_inst_id_ = s.proc.cross_inst_id_ := by
  refine ⟨⟨h.1, fun j => ?_⟩, rfl⟩
  by_cases hj : j = k
  · subst hj
    simpa [Sched.caller, Proc.set_inst] using hf _ (h.2 j)
  · simpa [Sched.caller, Proc.set_inst, hj] using h.2 j

/-- A step keeps the process consistent; only a post moves the counter, by one. -/
theorem Sched.step_op_wf (s : Sched Item) (op : Op Item) (ops : List (Op Item)) (h : s.proc.WF)
    (hb : s.proc.cross_inst_id_ + (count_post_ops (op :: ops) : Int) < 2 ^ 63) :
    (s.step op).proc.WF ∧
      (s.step op).proc.cross_inst_id_ + (count_post_ops ops : Int) =
        s.proc.cross_inst_id_ + (count_post_ops (op :: ops) : Int) ∧
      s.proc.cross_inst_id_ ≤ (s.step op).proc.cross_inst_id_ := by
  cases op with
  | post k item b =>
    have hn : (0 : Int) ≤ (count_post_ops ops : Int) := Int.natCast_nonneg _
    simp only [count_post_ops, Nat.cast_add, Nat.cast_one] at hb ⊢
    obtain ⟨a, b2, c⟩ := Proc.step_wf s.proc (Ev.post k item b) [] h
      (by simp only [count_posts, Nat.cast_add, Nat.cast_one, Nat.cast_zero]; omega)
    simp only [count_posts, Nat.cast_add, Nat.cast_one, Nat.cast_zero] at b2
    refine ⟨a, ?_, c⟩
    show (s.proc.step (Ev.post k item b)).cross_inst_id_ + _ = _
    omega
  | loop_test k =>
    obtain ⟨a, b⟩ := s.worker_wf k AsyncRunner.loop_test
      (fun r st hr => by rw [AsyncRunner.loop_test_fst]; exact hr) h
    exact ⟨a, by simp only [Sched.step, count_post_ops, b], by simp only [Sched.step, b, le_refl]⟩
  | pop_front k =>
    obtain ⟨a, b⟩ := s.worker_wf k AsyncRunner.pop_front
      (fun r st hr => AsyncRunner.pop_front_wf st hr) h
    exact ⟨a, by simp only [Sched.step, count_post_ops, b], by simp only [Sched.step, b, le_refl]⟩
  | mark_running k =>
    obtain ⟨a, b⟩ := s.worker_wf k AsyncRunner.mark_running
      (fun r st hr => AsyncRunner.mark_running_wf st hr) h
    exact ⟨a, by simp only [Sched.step, count_post_ops, b], by simp only [Sched.step, b, le_refl]⟩
  | store_result k ret =>
    obtain ⟨a, b⟩ := s.worker_wf k (AsyncRunner.store_result ret)
      (fun r st hr => AsyncRunner.store_result_wf ret st hr) h
    exact ⟨a, by simp only [Sched.step, count_post_ops, b], by simp only [Sched.step, b, le_refl]⟩
  | store_cursor k =>
    obtain ⟨a, b⟩ := s.worker_wf k AsyncRunner.store_cursor
      (fun r st hr => AsyncRunner.store_cursor_wf st hr) h
    exact ⟨a, by simp only [Sched.step, count_post_ops, b], by simp only [Sched.step, b, le_refl]⟩
  | clear_queue k =>
    obtain ⟨a, b⟩ := s.caller_wf k AsyncRunner.clear_queue
      (fun r hr => AsyncRunner.clear_queue_wf hr) h
    exact ⟨a, by simp only [Sched.step, count_post_ops, b], by simp only [Sched.step, b, le_refl]⟩
  | clear_cursor k =>
    obtain ⟨a, b⟩ := s.caller_wf k (AsyncRunner.clear_cursor s.proc.cross_inst_id_)
      (fun r hr => AsyncRunner.clear_cursor_wf hr) h
    exact ⟨a, by simp only [Sched.step, count_post_ops, b], by simp only [Sched.step, b, le_refl]⟩
  | clear_status k =>
    obtain ⟨a, b⟩ := s.caller_wf k AsyncRunner.clear_status
      (fun r hr => AsyncRunner.clear_status_wf hr) h
    exact ⟨a, by simp only [Sched.step, count_post_ops, b], by simp only [Sched.step, b, le_refl]⟩
  | release k =>
    obtain ⟨a, b⟩ := s.caller_wf k AsyncRunner.release
      (fun r hr => AsyncRunner.release_wf hr) h
    exact ⟨a, by simp only [Sched.step, count_post_ops, b], by simp only [Sched.step, b, le_refl]⟩

theorem count_post_ops_append (xs ys : List (Op Item)) :
    count_post_ops (xs ++ ys) = count_post_ops xs + count_post_ops ys := by
  induction xs with
  | nil => simp [count_post_ops]
  | cons x xs ih =>
    cases x <;> simp [count_post_ops, ih]
    omega

theorem Sched.run_ops_cons (s : Sched Item) (op : Op Item) (ops : List (Op Item)) :
    s.run (op :: ops) = (s.step op).run ops := rfl

theorem Sched.run_ops_append (s : Sched Item) (xs ys : List (Op Item)) :
    s.run (xs ++ ys) = (s.run xs).run ys := by
  simp [Sched.run, List.foldl_append]

/-- A run keeps the process consistent and moves the counter by the number of
its posts. -/
theorem Sched.run_ops_wf (ops : List (Op Item)) : ∀ s : Sched Item, s.proc.WF →
    s.proc.cross_inst_id_ + (count_post_ops ops : Int) < 2 ^ 63 →
    (s.run ops).proc.WF ∧
      (s.run ops).proc.cross_inst_id_ = s.proc.cross_inst_id_ + (count_post_ops ops : Int) := by
  induction ops with
  | nil =>
    intro s h _
    exact ⟨h, by simp [Sched.run, count_post_ops]⟩
  | cons op ops ih =>
    intro s h hb
    obtain ⟨h1, h2, _⟩ := Sched.step_op_wf s op ops h hb
    obtain ⟨i1, i2⟩ := ih (s.step op) h1 (by omega)
    exact ⟨i1, by rw [Sched.run_ops_cons, i2]; omega⟩

end ScopeLemmas

section TrackedLemmas
variable {Item : Type}

theorem AsyncRunner.post_tracked {c id : Int} {r : AsyncRunner Item} (st : Stage) (item : Item)
    (h0 : 0 ≤ c) (h1 : c + 1 < 2 ^ 63) (hid : id ≤ c) (ht : r.tracked st id) :
    (r.post c item).2.2.tracked st id := by
  have hw := wrap_int64_succ c h0 h1
  have hne : id ≠ wrap_int64 (c + 1) := by omega
  have hs : (r.post c item).2.2.status_map_ id = r.status_map_ id := by
    simp [AsyncRunner.post, AsyncRunner.emplace, hne]
  have hq : ∀ x, x ∈ (r.post c item).2.2.queued_ids ↔ x ∈ r.queued_ids ∨ x = wrap_int64 (c + 1) := by
    intro x
    simp [AsyncRunner.post, AsyncRunner.queued_ids]
  unfold AsyncRunner.tracked at ht ⊢
  rw [hs]
  rcases ht with ⟨a, b, d⟩ | ⟨a, b, d⟩ | ⟨a, b, d⟩
  · exact Or.inl ⟨a, (hq id).mpr (Or.inl b), d⟩
  · exact Or.inr (Or.inl ⟨a, b, d⟩)
  · refine Or.inr (Or.inr ⟨a, ?_, d⟩)
    intro hmem
    rcases (hq id).mp hmem with h | h
    · exact b h
    · exact hne h

theorem AsyncRunner.release_tracked {id : Int} {r : AsyncRunner Item} (st : Stage)
    (ht : r.tracked st id) : r.release.tracked st id := ht

theorem AsyncRunner.loop_test_tracked {id : Int} {r : AsyncRunner Item} (st : Stage)
    (ht : r.tracked st id) : (r.loop_test st).1.tracked (r.loop_test st).2 id := by
  cases st <;> try exact ht
  unfold AsyncRunner.tracked at ht ⊢
  simp only [AsyncRunner.loop_test]
  rcases ht with h | ⟨_, _, h⟩ | h
  · exact Or.inl h
  · simp at h
  · exact Or.inr (Or.inr h)

theorem AsyncRunner.pop_front_tracked {c id : Int} {r : AsyncRunner Item} (st : Stage)
    (h : r.WF c) (ht : r.tracked st id) :
    (r.pop_front st).1.tracked (r.pop_front st).2 id := by
  cases st <;> try exact ht
  cases hq : r.queue_ with
  | nil =>
    have e : r.pop_front Stage.entered = ({ r with running_ := false }, Stage.at_test) := by
      simp [AsyncRunner.pop_front, hq]
    rw [e]
    unfold AsyncRunner.tracked at ht ⊢
    rcases ht with h | ⟨_, _, h⟩ | h
    · exact Or.inl h
    · simp at h
    · exact Or.inr (Or.inr h)
  | cons a rest =>
    obtain ⟨q, item⟩ := a
    have e : r.pop_front Stage.entered =
        ({ r with running_ := true, queue_ := rest, working_on := some (q, item) },
          Stage.popped) := by
      simp [AsyncRunner.pop_front, hq]
    rw [e]
    have hs := h.queue_sorted
    simp only [AsyncRunner.queued_ids, hq, List.map_cons, List.pairwise_cons] at hs
    unfold AsyncRunner.tracked at ht ⊢
    simp only [AsyncRunner.queued_ids, hq, List.map_cons, List.mem_cons] at ht
    rcases ht with ⟨a, b, d⟩ | ⟨_, _, h⟩ | ⟨a, b, d⟩
    · rcases b with b | b
      · subst b
        exact Or.inr (Or.inl ⟨⟨item, rfl⟩, d, Or.inl ⟨rfl, a⟩⟩)
      · exact Or.inl ⟨a, b, d⟩
    · simp at h
    · refine Or.inr (Or.inr ⟨a, fun hm => b (Or.inr hm), ?_⟩)
      intro w hw
      simp only [Option.some.injEq] at hw
      subst hw
      intro hqi
      exact b (Or.inl hqi.symm)

theorem AsyncRunner.assign_ne (m : Int → Option MaaStatus) (q id : Int) (st : MaaStatus)
    (h : id ≠ q) : AsyncRunner.assign m q st id = m id := by
  simp [AsyncRunner.assign, h]

theorem AsyncRunner.assign_eq (m : Int → Option MaaStatus) (q : Int) (st : MaaStatus) :
    AsyncRunner.assign m q st q = some st := by
  simp [AsyncRunner.assign]

theorem AsyncRunner.mark_running_tracked {c id : Int} {r : AsyncRunner Item} (st : Stage)
    (h : r.WF c) (ht : r.tracked st id) :
    (r.mark_running st).1.tracked (r.mark_running st).2 id := by
  cases st <;> try exact ht
  cases hw : r.working_on with
  | none =>
    have e : r.mark_running Stage.popped = (r, Stage.popped) := by
      simp [AsyncRunner.mark_running, hw]
    rw [e]
    exact ht
  | some w =>
    obtain ⟨q, item⟩ := w
    have e : r.mark_running Stage.popped =
        ({ r with status_map_ := AsyncRunner.assign r.status_map_ q MaaStatus.Running },
          Stage.in_process) := by
      simp [AsyncRunner.mark_running, hw]
    rw [e]
    unfold AsyncRunner.tracked at ht ⊢
    rcases ht with ⟨a, b, d⟩ | ⟨⟨it, a⟩, b, d⟩ | ⟨a, b, d⟩
    · have hlt := h.working_lt _ hw id b
      have hne : id ≠ q := by
        simp only at hlt
        omega
      exact Or.inl ⟨(AsyncRunner.assign_ne _ _ _ _ hne).trans a, b, d⟩
    · rw [hw] at a
      simp only [Option.some.injEq, Prod.mk.injEq] at a
      obtain ⟨a1, a2⟩ := a
      subst a1
      exact Or.inr (Or.inl ⟨⟨item, hw⟩, b,
        Or.inr (Or.inl ⟨rfl, AsyncRunner.assign_eq _ _ _⟩)⟩)
    · have hne : id ≠ q := fun he => d (q, item) hw he.symm
      exact Or.inr (Or.inr ⟨a.imp (fun x => (AsyncRunner.assign_ne _ _ _ _ hne).trans x)
        (fun x => (AsyncRunner.assign_ne _ _ _ _ hne).trans x), b, d⟩)

theorem AsyncRunner.store_result_tracked {c id : Int} {r : AsyncRunner Item} (ret : Bool)
    (st : Stage) (h : r.WF c) (ht : r.tracked st id) :
    (r.store_result ret st).1.tracked (r.store_result ret st).2 id := by
  cases st <;> try exact ht
  cases hw : r.working_on with
  | none =>
    have e : r.store_result ret Stage.in_process = (r, Stage.in_process) := by
      simp [AsyncRunner.store_result, hw]
    rw [e]
    exact ht
  | some w =>
    obtain ⟨q, item⟩ := w
    have e : r.store_result ret Stage.in_process =
        ({ r with
            status_map_ := AsyncRunner.assign r.status_map_ q
              (if ret then MaaStatus.Success else MaaStatus.Failed) },
          Stage.returned) := by
      simp [AsyncRunner.store_result, hw]
    rw [e]
    unfold AsyncRunner.tracked at ht ⊢
    rcases ht with ⟨a, b, d⟩ | ⟨⟨it, a⟩, b, d⟩ | ⟨a, b, d⟩
    · have hlt := h.working_lt _ hw id b
      have hne : id ≠ q := by
        simp only at hlt
        omega
      exact Or.inl ⟨(AsyncRunner.assign_ne _ _ _ _ hne).trans a, b, d⟩
    · rw [hw] at a
      simp only [Option.some.injEq, Prod.mk.injEq] at a
      obtain ⟨a1, a2⟩ := a
      subst a1
      refine Or.inr (Or.inl ⟨⟨item, hw⟩, b, Or.inr (Or.inr ⟨rfl, ?_⟩)⟩)
      cases ret
      · exact Or.inr (AsyncRunner.assign_eq _ _ _)
      · exact Or.inl (AsyncRunner.assign_eq _ _ _)
    · have hne : id ≠ q := fun he => d (q, item) hw he.symm
      exact Or.inr (Or.inr ⟨a.imp (fun x => (AsyncRunner.assign_ne _ _ _ _ hne).trans x)
        (fun x => (AsyncRunner.assign_ne _ _ _ _ hne).trans x), b, d⟩)

theorem AsyncRunner.store_cursor_tracked {c id : Int} {r : AsyncRunner Item} (st : Stage)
    (h : r.WF c) (ht : r.tracked st id) :
    (r.store_cursor st).1.tracked (r.store_cursor st).2 id := by
  cases st <;> try exact ht
  cases hw : r.working_on with
  | none =>
    have e : r.store_cursor Stage.returned = (r, Stage.returned) := by
      simp [AsyncRunner.store_cursor, hw]
    rw [e]
    exact ht
  | some w =>
    obtain ⟨q, item⟩ := w
    have e : r.store_cursor Stage.returned =
        ({ r with compl_id_ := q, working_on := none }, Stage.at_test) := by
      simp [AsyncRunner.store_cursor, hw]
    rw [e]
    unfold AsyncRunner.tracked at ht ⊢
    rcases ht with ⟨a, b, d⟩ | ⟨⟨it, a⟩, b, d⟩ | ⟨a, b, d⟩
    · have hlt := h.working_lt _ hw id b
      exact Or.inl ⟨a, b, hlt⟩
    · rw [hw] at a
      simp only [Option.some.injEq, Prod.mk.injEq] at a
      obtain ⟨a1, a2⟩ := a
      subst a1
      rcases d with ⟨d, _⟩ | ⟨d, _⟩ | ⟨_, d⟩
      · cases d
      · cases d
      · refine Or.inr (Or.inr ⟨d, ?_, fun w hw2 => by cases hw2⟩)
        intro hm
        have := h.working_lt _ hw q hm
        simp at this
    · exact Or.inr (Or.inr ⟨a, b, fun w hw2 => by cases hw2⟩)

/-- A step other than a scope of `clear()` on runner `k` keeps an id of that
runner tracked. -/
theorem Sched.step_tracked (s : Sched Item) (op : Op Item) (k : Nat) (id : Int)
    (h : s.proc.WF) (hb : s.proc.cross_inst_id_ + (count_post_ops [op] : Int) < 2 ^ 63)
    (hid : id ≤ s.proc.cross_inst_id_) (hop : op.is_clear_of k = false)
    (ht : (s.proc.inst k).tracked (s.stage k) id) :
    ((s.step op).proc.inst k).tracked ((s.step op).stage k) id := by
  have hk := h.2 k
  cases op with
  | post j item b =>
    simp only [count_post_ops, Nat.cast_add, Nat.cast_one, Nat.cast_zero] at hb
    by_cases hj : k = j
    · subst hj
      simpa [Sched.step, Proc.step, Proc.set_inst] using
        AsyncRunner.post_tracked (s.stage k) item h.1 (by omega) hid ht
    · simpa [Sched.step, Proc.step, Proc.set_inst, hj] using ht
  | loop_test j =>
    by_cases hj : k = j
    · subst hj
      simpa [Sched.step, Sched.worker, Proc.set_inst] using
        AsyncRunner.loop_test_tracked (s.stage k) ht
    · simpa [Sched.step, Sched.worker, Proc.set_inst, hj] using ht
  | pop_front j =>
    by_cases hj : k = j
    · subst hj
      simpa [Sched.step, Sched.worker, Proc.set_inst] using
        AsyncRunner.pop_front_tracked (s.stage k) hk ht
    · simpa [Sched.step, Sched.worker, Proc.set_inst, hj] using ht
  | mark_running j =>
    by_cases hj : k = j
    · subst hj
      simpa [Sched.step, Sched.worker, Proc.set_inst] using
        AsyncRunner.mark_running_tracked (s.stage k) hk ht
    · simpa [Sched.step, Sched.worker, Proc.set_inst, hj] using ht
  | store_result j ret =>
    by_cases hj : k = j
    · subst hj
      simpa [Sched.step, Sched.worker, Proc.set_inst] using
        AsyncRunner.store_result_tracked ret (s.stage k) hk ht
    · simpa [Sched.step, Sched.worker, Proc.set_inst, hj] using ht
  | store_cursor j =>
    by_cases hj : k = j
    · subst hj
      simpa [Sched.step, Sched.worker, Proc.set_inst] using
        AsyncRunner.store_cursor_tracked (s.stage k) hk ht
    · simpa [Sched.step, Sched.worker, Proc.set_inst, hj] using ht
  | clear_queue j =>
    have hj : k ≠ j := by
      intro he
      simp [Op.is_clear_of, he] at hop
    simpa [Sched.step, Sched.caller, Proc.set_inst, hj] using ht
  | clear_cursor j =>
    have hj : k ≠ j := by
      intro he
      simp [Op.is_clear_of, he] at hop
    simpa [Sched.step, Sched.caller, Proc.set_inst, hj] using ht
  | clear_status j =>
    have hj : k ≠ j := by
      intro he
      simp [Op.is_clear_of, he] at hop
    simpa [Sched.step, Sched.caller, Proc.set_inst, hj] using ht
  | release j =>
    by_cases hj : k = j
    · subst hj
      simpa [Sched.step, Sched.caller, Proc.set_inst] using
        AsyncRunner.release_tracked (s.stage k) ht
    · simpa [Sched.step, Sched.caller, Proc.set_inst, hj] using ht

/-- A run without a scope of `clear()` on runner `k` keeps an id of that
runner tracked. -/
theorem Sched.run_tracked (k : Nat) (id : Int) (ops : List (Op Item)) : ∀ s : Sched Item,
    s.proc.WF → s.proc.cross_inst_id_ + (count_post_ops ops : Int) < 2 ^ 63 →
    id ≤ s.proc.cross_inst_id_ → (∀ op ∈ ops, Op.is_clear_of k op = false) →
    (s.proc.inst k).tracked (s.stage k) id →
    ((s.run ops).proc.inst k).tracked ((s.run ops).stage k) id := by
  induction ops with
  | nil =>
    intro s _ _ _ _ ht
    exact ht
  | cons op ops ih =>
    intro s h hb hid hops ht
    obtain ⟨h1, h2, h3⟩ := Sched.step_op_wf s op ops h hb
    have hn : (0 : Int) ≤ (count_post_ops ops : Int) := Int.natCast_nonneg _
    rw [Sched.run_ops_cons]
    have hc := count_post_ops_append [op] ops
    simp only [List.singleton_append] at hc
    exact ih (s.step op) h1 (by omega) (by omega)
      (fun o ho => hops o (List.mem_cons_of_mem _ ho))
      (Sched.step_tracked s op k id h (by rw [hc] at hb; push_cast at hb; omega) hid
        (hops _ (List.mem_cons_self _ _)) ht)

end TrackedLemmas

section ScopeRuns
variable {Item : Type}

/-- The ids issued by a run of lock scopes lie above the counter at its start
and are strictly increasing. -/
theorem Sched.issued_ops_increasing (ops : List (Op Item)) : ∀ s : Sched Item, s.proc.WF →
    s.proc.cross_inst_id_ + (count_post_ops ops : Int) < 2 ^ 63 →
    (∀ ki ∈ s.issued ops, s.proc.cross_inst_id_ < ki.2) ∧
      ((s.issued ops).map Prod.snd).Pairwise (fun a b => a < b) := by
  induction ops with
  | nil =>
    intro s _ _
    simp [Sched.issued]
  | cons op ops ih =>
    intro s h hb
    obtain ⟨h1, h2, h3⟩ := Sched.step_op_wf s op ops h hb
    obtain ⟨i1, i2⟩ := ih (s.step op) h1 (by omega)
    by_cases hpost : ∃ j item b, op = Op.post j item b
    · obtain ⟨j, item, b, rfl⟩ := hpost
      simp only [count_post_ops, Nat.cast_add, Nat.cast_one] at hb h2
      have hn : (0 : Int) ≤ (count_post_ops ops : Int) := Int.natCast_nonneg _
      obtain ⟨hret, _⟩ := Proc.post_queued s.proc j item b h (by omega)
      simp only [Sched.issued, Sched.returned_id, hret, List.mem_cons, List.map_cons,
        List.pairwise_cons]
      refine ⟨?_, ?_, i2⟩
      · rintro ki (rfl | hki)
        · simp
        · have := i1 ki hki
          omega
      · intro a ha
        obtain ⟨ki, hki, rfl⟩ := List.mem_map.mp ha
        have := i1 ki hki
        omega
    · have hnone : s.returned_id op = none := by
        cases op with
        | post j item b => exact absurd ⟨j, item, b, rfl⟩ hpost
        | _ => rfl
      simp only [Sched.issued, hnone]
      exact ⟨fun ki hki => lt_of_le_of_lt h3 (i1 ki hki), i2⟩

theorem AsyncRunner.status_assign_valid (r r2 : AsyncRunner Item) (q id : Int) (st : MaaStatus)
    (hst : st ≠ MaaStatus.Invalid) (h2 : r2.status_map_ = AsyncRunner.assign r.status_map_ q st)
    (hp : r.status id ≠ MaaStatus.Invalid) : r2.status id ≠ MaaStatus.Invalid := by
  unfold AsyncRunner.status at hp ⊢
  rw [h2]
  unfold AsyncRunner.assign
  split_ifs with hq
  · exact hst
  · exact hp

theorem AsyncRunner.status_congr (r r2 : AsyncRunner Item) (id : Int)
    (h2 : r2.status_map_ = r.status_map_)
    (hp : r.status id ≠ MaaStatus.Invalid) : r2.status id ≠ MaaStatus.Invalid := by
  unfold AsyncRunner.status at hp ⊢
  rw [h2]
  exact hp

theorem AsyncRunner.status_post_valid (r : AsyncRunner Item) (c id : Int) (item : Item)
    (hp : r.status id ≠ MaaStatus.Invalid) :
    (r.post c item).2.2.status id ≠ MaaStatus.Invalid := by
  unfold AsyncRunner.status at hp ⊢
  simp only [AsyncRunner.post, AsyncRunner.emplace]
  split_ifs with hq
  · cases hs : r.status_map_ id with
    | none => simp [hs] at hp
    | some old =>
      rw [hs] at hp
      simpa using hp
  · exact hp

/-- A step other than the status wipe of a `clear()` on runner `k` keeps a
status of that runner that is not Invalid from becoming Invalid. -/
theorem Sched.step_present (s : Sched Item) (op : Op Item) (k : Nat) (id : Int)
    (hop : op.is_wipe_of k = false) (hp : (s.proc.inst k).status id ≠ MaaStatus.Invalid) :
    ((s.step op).proc.inst k).status id ≠ MaaStatus.Invalid := by
  cases op with
  | post j item b =>
    by_cases hj : k = j
    · subst hj
      simpa [Sched.step, Proc.step, Proc.set_inst] using
        AsyncRunner.status_post_valid _ s.proc.cross_inst_id_ id item hp
    · simpa [Sched.step, Proc.step, Proc.set_inst, hj] using hp
  | loop_test j =>
    by_cases hj : k = j
    · subst hj
      simpa [Sched.step, Sched.worker, Proc.set_inst, AsyncRunner.loop_test_fst] using hp
    · simpa [Sched.step, Sched.worker, Proc.set_inst, hj] using hp
  | pop_front j =>
    by_cases hj : k = j
    · subst hj
      simp only [Sched.step, Sched.worker, Proc.set_inst, if_true]
      apply AsyncRunner.status_congr _ _ id _ hp
      unfold AsyncRunner.pop_front
      split
      · split <;> rfl
      · rfl
    · simpa [Sched.step, Sched.worker, Proc.set_inst, hj] using hp
  | mark_running j =>
    by_cases hj : k = j
    · subst hj
      simp only [Sched.step, Sched.worker, Proc.set_inst, if_true]
      unfold AsyncRunner.mark_running
      split
      · split
        · exact hp
        · exact AsyncRunner.status_assign_valid _ _ _ id _ (by simp) rfl hp
      · exact hp
    · simpa [Sched.step, Sched.worker, Proc.set_inst, hj] using hp
  | store_result j ret =>
    by_cases hj : k = j
    · subst hj
      simp only [Sched.step, Sched.worker, Proc.set_inst, if_true]
      unfold AsyncRunner.store_result
      split
      · split
        · exact hp
        · exact AsyncRunner.status_assign_valid _ _ _ id _ (by cases ret <;> simp) rfl hp
      · exact hp
    · simpa [Sched.step, Sched.worker, Proc.set_inst, hj] using hp
  | store_cursor j =>
    by_cases hj : k = j
    · subst hj
      simp only [Sched.step, Sched.worker, Proc.set_inst, if_true]
      apply AsyncRunner.status_congr _ _ id _ hp
      unfold AsyncRunner.store_cursor
      split
      · split <;> rfl
      · rfl
    · simpa [Sched.step, Sched.worker, Proc.set_inst, hj] using hp
  | clear_queue j =>
    by_cases hj : k = j
    · subst hj
      simpa [Sched.step, Sched.caller, Proc.set_inst] using
        AsyncRunner.status_congr _ (s.proc.inst k).clear_queue id rfl hp
    · simpa [Sched.step, Sched.caller, Proc.set_inst, hj] using hp
  | clear_cursor j =>
    by_cases hj : k = j
    · subst hj
      simpa [Sched.step, Sched.caller, Proc.set_inst] using
        AsyncRunner.status_congr _ ((s.proc.inst k).clear_cursor s.proc.cross_inst_id_) id rfl hp
    · simpa [Sched.step, Sched.caller, Proc.set_inst, hj] using hp
  | clear_status j =>
    have hj : k ≠ j := by
      intro he
      simp [Op.is_wipe_of, he] at hop
    simpa [Sched.step, Sched.caller, Proc.set_inst, hj] using hp
  | release j =>
    by_cases hj : k = j
    · subst hj
      simpa [Sched.step, Sched.caller, Proc.set_inst] using
        AsyncRunner.status_congr _ (s.proc.inst k).release id rfl hp
    · simpa [Sched.step, Sched.caller, Proc.set_inst, hj] using hp

/-- A run without a status wipe on runner `k` keeps a status of that runner
that is not Invalid from becoming Invalid. -/
theorem Sched.run_present (k : Nat) (id : Int) (ops : List (Op Item)) : ∀ s : Sched Item,
    (∀ op ∈ ops, Op.is_wipe_of k op = false) →
    (s.proc.inst k).status id ≠ MaaStatus.Invalid →
    ((s.run ops).proc.inst k).status id ≠ MaaStatus.Invalid := by
  induction ops with
  | nil =>
    intro s _ hp
    exact hp
  | cons op ops ih =>
    intro s hops hp
    rw [Sched.run_ops_cons]
    exact ih (s.step op) (fun o ho => hops o (List.mem_cons_of_mem _ ho))
      (Sched.step_present s op k id (hops _ (List.mem_cons_self _ _)) hp)

/-- A post in a run of lock scopes from process start: the id it returns, the
state it leaves, and the bounds that hold there. -/
theorem Sched.post_state (pre : List (Op Item)) (k : Nat) (item : Item) (b : Bool)
    (suf : List (Op Item))
    (hposts : count_post_ops (pre ++ Op.post k item b :: suf) < 2 ^ 63) :
    ∃ id : Int,
      (Sched.init.run pre).returned_id (Op.post k item b) = some (k, id) ∧
      ((Sched.init.run (pre ++ [Op.post k item b])).proc.inst k).status_map_ id
        = some MaaStatus.Pending ∧
      ((Sched.init.run (pre ++ [Op.post k item b])).proc.inst k).tracked
        ((Sched.init.run (pre ++ [Op.post k item b])).stage k) id ∧
      (Sched.init.run (pre ++ [Op.post k item b])).proc.WF ∧
      id = (Sched.init.run (pre ++ [Op.post k item b])).proc.cross_inst_id_ ∧
      (Sched.init.run (pre ++ [Op.post k item b])).proc.cross_inst_id_ +
        (count_post_ops suf : Int) < 2 ^ 63 := by
  have hc : (count_post_ops (pre ++ Op.post k item b :: suf) : Int)
      = count_post_ops pre + (count_post_ops suf + 1) := by
    rw [count_post_ops_append]
    simp [count_post_ops]
  have hlt : (count_post_ops (pre ++ Op.post k item b :: suf) : Int) < 2 ^ 63 := by
    exact_mod_cast hposts
  have hn1 : (0 : Int) ≤ (count_post_ops pre : Int) := Int.natCast_nonneg _
  have hn2 : (0 : Int) ≤ (count_post_ops suf : Int) := Int.natCast_nonneg _
  have i0 : (Sched.init : Sched Item).proc.cross_inst_id_ = 0 := rfl
  obtain ⟨wf1, c1⟩ := Sched.run_ops_wf pre (Sched.init : Sched Item) Proc.init_proc_wf
    (by rw [i0]; omega)
  rw [i0, zero_add] at c1
  obtain ⟨hret, hq1, hq2, hq3⟩ := Proc.post_queued (Sched.init.run pre).proc k item b wf1
    (by omega)
  obtain ⟨wf2, c2, _⟩ := Sched.step_op_wf (Sched.init.run pre) (Op.post k item b) [] wf1
    (by simp only [count_post_ops, Nat.cast_add, Nat.cast_one, Nat.cast_zero]; omega)
  simp only [count_post_ops, Nat.cast_add, Nat.cast_one, Nat.cast_zero] at c2
  have hrun : Sched.init.run (pre ++ [Op.post k item b])
      = (Sched.init.run pre).step (Op.post k item b) := by
    rw [Sched.run_ops_append]
    rfl
  rw [hrun]
  refine ⟨(Sched.init.run pre).proc.cross_inst_id_ + 1, hret, hq1, Or.inl ⟨hq1, hq2, hq3⟩,
    wf2, by omega, by omega⟩

end ScopeRuns

section Simulation
variable {Item : Type}

theorem AsyncRunner.pick_scopes (r : AsyncRunner Item) (st : Stage) (h : r.at_rest st) :
    (r.pick_stretch st).1 = r.working_pick ∧ r.working_pick.at_rest (r.pick_stretch st).2 := by
  unfold AsyncRunner.at_rest at h
  unfold AsyncRunner.pick_stretch
  cases hw : r.working_on with
  | some w =>
    rw [hw] at h
    subst h
    have e : r.working_pick = r := by
      unfold AsyncRunner.working_pick
      split
      · rfl
      · simp [hw]
    rw [e]
    refine ⟨rfl, ?_⟩
    simp [AsyncRunner.at_rest, hw, AsyncRunner.loop_test, AsyncRunner.pop_front,
      AsyncRunner.mark_running]
  | none =>
    rw [hw] at h
    cases he : r.exit_ with
    | true =>
      have e : r.working_pick = r := by
        unfold AsyncRunner.working_pick
        simp [he]
      rw [e]
      rcases h with h | ⟨h, _⟩ <;> subst h <;>
        simp [AsyncRunner.at_rest, hw, he, AsyncRunner.loop_test, AsyncRunner.pop_front,
          AsyncRunner.mark_running]
    | false =>
      rcases h with h | ⟨_, h⟩
      · subst h
        cases hq : r.queue_ with
        | nil =>
          simp [AsyncRunner.at_rest, hw, he, hq, AsyncRunner.loop_test, AsyncRunner.pop_front,
            AsyncRunner.mark_running, AsyncRunner.working_pick]
        | cons a rest =>
          obtain ⟨id, item⟩ := a
          simp [AsyncRunner.at_rest, hw, he, hq, AsyncRunner.loop_test, AsyncRunner.pop_front,
            AsyncRunner.mark_running, AsyncRunner.working_pick]
      · rw [he] at h
        cases h

theorem AsyncRunner.finish_scopes (r : AsyncRunner Item) (st : Stage) (ret : Bool)
    (h : r.at_rest st) :
    (r.finish_stretch ret st).1 = r.working_finish ret ∧
      (r.working_finish ret).at_rest (r.finish_stretch ret st).2 := by
  unfold AsyncRunner.at_rest at h
  unfold AsyncRunner.finish_stretch
  cases hw : r.working_on with
  | some w =>
    obtain ⟨id, item⟩ := w
    rw [hw] at h
    subst h
    simp [AsyncRunner.at_rest, hw, AsyncRunner.store_result, AsyncRunner.store_cursor,
      AsyncRunner.working_finish]
  | none =>
    rw [hw] at h
    have e : r.working_finish ret = r := by
      simp [AsyncRunner.working_finish, hw]
    rw [e]
    rcases h with h | ⟨h, h2⟩ <;> subst h <;>
      simp [AsyncRunner.at_rest, hw, AsyncRunner.store_result, AsyncRunner.store_cursor, *]

theorem Sched.worker_worker (s : Sched Item) (k : Nat)
    (f g : AsyncRunner Item → Stage → AsyncRunner Item × Stage) :
    (s.worker k f).worker k g = s.worker k (fun r st => g (f r st).1 (f r st).2) := by
  unfold Sched.worker
  simp only [Sched.mk.injEq, Proc.mk.injEq, true_and]
  constructor <;> funext j <;> by_cases hj : j = k <;> simp [Proc.set_inst, hj]

theorem Sched.caller_caller (s : Sched Item) (k : Nat)
    (f g : AsyncRunner Item → AsyncRunner Item) :
    (s.caller k f).caller k g = s.caller k (fun r => g (f r)) := by
  unfold Sched.caller
  simp only [Sched.mk.injEq, Proc.mk.injEq, true_and, and_true]
  funext j
  by_cases hj : j = k <;> simp [Proc.set_inst, hj]

/-- The lock scopes of one `Ev` step, run in a row from a state in which every
worker is at rest, make that step and leave every worker at rest. -/
theorem Sched.run_ev (s : Sched Item) (e : Ev Item)
    (h : ∀ k, (s.proc.inst k).at_rest (s.stage k)) :
    (s.run e.ops).proc = s.proc.step e ∧
      ∀ k, ((s.run e.ops).proc.inst k).at_rest ((s.run e.ops).stage k) := by
  cases e with
  | post j item b =>
    refine ⟨rfl, fun k => ?_⟩
    have := h k
    by_cases hk : k = j
    · subst hk
      simpa [Ev.ops, Sched.run, Sched.step, Proc.step, Proc.set_inst, AsyncRunner.at_rest,
        AsyncRunner.post] using this
    · simpa [Ev.ops, Sched.run, Sched.step, Proc.step, Proc.set_inst, hk] using this
  | pick j =>
    have e1 : s.run (Ev.pick j).ops = s.worker j AsyncRunner.pick_stretch := by
      simp only [Ev.ops, Sched.run, List.foldl, Sched.step, Sched.worker_worker]
      rfl
    obtain ⟨p1, p2⟩ := AsyncRunner.pick_scopes _ _ (h j)
    rw [e1]
    refine ⟨by simp [Sched.worker, Proc.step, p1], fun k => ?_⟩
    by_cases hk : k = j
    · subst hk
      simpa [Sched.worker, Proc.set_inst, p1] using p2
    · simpa [Sched.worker, Proc.set_inst, hk] using h k
  | finish j ret =>
    have e1 : s.run (Ev.finish j ret).ops = s.worker j (AsyncRunner.finish_stretch ret) := by
      simp only [Ev.ops, Sched.run, List.foldl, Sched.step, Sched.worker_worker]
      rfl
    obtain ⟨p1, p2⟩ := AsyncRunner.finish_scopes _ _ ret (h j)
    rw [e1]
    refine ⟨by simp [Sched.worker, Proc.step, p1], fun k => ?_⟩
    by_cases hk : k = j
    · subst hk
      simpa [Sched.worker, Proc.set_inst, p1] using p2
    · simpa [Sched.worker, Proc.set_inst, hk] using h k
  | clear j =>
    have e1 : s.run (Ev.clear j).ops =
        s.caller j (AsyncRunner.clear s.proc.cross_inst_id_) := by
      simp only [Ev.ops, Sched.run, List.foldl, Sched.step, Sched.caller_caller]
      rfl
    rw [e1]
    refine ⟨rfl, fun k => ?_⟩
    have := h k
    by_cases hk : k = j
    · subst hk
      simpa [Sched.caller, Proc.set_inst, AsyncRunner.at_rest, AsyncRunner.clear,
        AsyncRunner.clear_queue, AsyncRunner.clear_cursor, AsyncRunner.clear_status] using this
    · simpa [Sched.caller, Proc.set_inst, hk] using this
  | release j =>
    refine ⟨rfl, fun k => ?_⟩
    have := h k
    by_cases hk : k = j
    · subst hk
      simp only [Ev.ops, Sched.run, List.foldl, Sched.step, Sched.caller, Proc.set_inst,
        if_true, AsyncRunner.at_rest, AsyncRunner.release] at this ⊢
      cases hw : (s.proc.inst k).working_on with
      | some w => simpa [hw] using this
      | none =>
        rw [hw] at this
        rcases this with t | ⟨t, _⟩
        · exact Or.inl t
        · exact Or.inr ⟨t, trivial⟩
    · simpa [Ev.ops, Sched.run, Sched.step, Sched.caller, Proc.set_inst, hk] using this

/-- A run of `Ev` steps is the run of its lock scopes, each step's scopes in a
row. -/
theorem Sched.run_events (evs : List (Ev Item)) : ∀ s : Sched Item,
    (∀ k, (s.proc.inst k).at_rest (s.stage k)) →
    (s.run (scopes evs)).proc = s.proc.run evs := by
  induction evs with
  | nil =>
    intro s _
    rfl
  | cons e evs ih =>
    intro s h
    obtain ⟨p1, p2⟩ := Sched.run_ev s e h
    rw [scopes, Sched.run_ops_append, ih _ p2, p1]
    rfl

/-- From process start, a run of `Ev` steps is the run of its lock scopes. -/
theorem Sched.run_events_init (evs : List (Ev Item)) :
    ((Sched.init : Sched Item).run (scopes evs)).proc = (Proc.init : Proc Item).run evs :=
  Sched.run_events evs Sched.init (fun _ => Or.inl rfl)

end Simulation

/-! ### Waits and ids under every interleaving of lock scopes -/

/-- C1, as stated, fails: after a blocking `post` on a fresh runner and a
`clear()`, the post has issued id 1, `wait(1)` and the blocking post can
return, the runner has not been released, and `status(1)` is Invalid. At the
grain of lock scopes the status can be anything: between the second and the
third scope of the `clear()`, `wait(1)` can return while `status(1)` is
Pending; with a second post between the first two scopes of the `clear()`,
after the `clear()` has ended and the worker has taken that job, `wait(2)`
can return while `status(2)` is Running; and when a whole `clear()` runs
between the worker's pop of the job and its write of Running, `wait(1)` can
return while `status(1)` is Running. -/
theorem C1_wait_returns_after_clear :
    (Proc.init : Proc Unit).returned_id (Ev.post 0 () true) = some (0, 1) ∧
    (Proc.runner_after run_post_clear 0).wait_returns 1 = true ∧
    (Proc.runner_after run_post_clear 0).post_returns 1 true = true ∧
    (Proc.runner_after run_post_clear 0).exit_ = false ∧
    (Proc.runner_after run_post_clear 0).status 1 = MaaStatus.Invalid ∧
    (Sched.runner_after ops_mid_clear 0).post_returns 1 true = true ∧
    (Sched.runner_after ops_mid_clear 0).exit_ = false ∧
    (Sched.runner_after ops_mid_clear 0).status 1 = MaaStatus.Pending ∧
    Sched.init.issued ops_post_inside_clear = [(0, 1), (0, 2)] ∧
    (Sched.runner_after ops_post_inside_clear 0).post_returns 2 true = true ∧
    (Sched.runner_after ops_post_inside_clear 0).exit_ = false ∧
    (Sched.runner_after ops_post_inside_clear 0).status 2 = MaaStatus.Running ∧
    (Sched.runner_after ops_clear_after_pop 0).post_returns 1 true = true ∧
    (Sched.runner_after ops_clear_after_pop 0).exit_ = false ∧
    (Sched.runner_after ops_clear_after_pop 0).status 1 = MaaStatus.Running := by
  decide

/-- C1, amended: in every run of lock scopes from process start taking fewer
than 2^63 ids, for an id issued by a post on runner `k`, whenever `wait(id)`
can return (`exit_` set or `id <= compl_id_`), the runner has been released,
or `status(id)` is Success or Failed, or one of the three lock scopes of a
`clear()` has run on the runner since the post; the same holds when a
blocking post of that id returns. -/
theorem C1_wait_returns_released_terminal_or_cleared {Item : Type}
    (pre suf : List (Op Item)) (k : Nat) (item : Item) (b : Bool) (id : Int)
    (hposts : count_post_ops (pre ++ Op.post k item b :: suf) < 2 ^ 63)
    (hid : (Sched.init.run pre).returned_id (Op.post k item b) = some (k, id)) :
    ((Sched.runner_after (pre ++ Op.post k item b :: suf) k).wait_returns id = true ∨
      (Sched.runner_after (pre ++ Op.post k item b :: suf) k).post_returns id true = true) →
    (Sched.runner_after (pre ++ Op.post k item b :: suf) k).exit_ = true ∨
    (Sched.runner_after (pre ++ Op.post k item b :: suf) k).status id = MaaStatus.Success ∨
    (Sched.runner_after (pre ++ Op.post k item b :: suf) k).status id = MaaStatus.Failed ∨
    (∃ op ∈ suf, Op.is_clear_of k op = true) := by
  intro hw
  obtain ⟨id2, hret, _, htr, wf, hc, hb⟩ := Sched.post_state pre k item b suf hposts
  rw [hid] at hret
  simp only [Option.some.injEq, Prod.mk.injEq, true_and] at hret
  subst hret
  by_cases hcl : ∃ op ∈ suf, Op.is_clear_of k op = true
  · exact Or.inr (Or.inr (Or.inr hcl))
  · have hnone : ∀ op ∈ suf, Op.is_clear_of k op = false := by
      intro op hop
      cases h : Op.is_clear_of k op with
      | false => rfl
      | true => exact absurd ⟨op, hop, h⟩ hcl
    have ht := Sched.run_tracked k id suf _ wf hb (le_of_eq hc) hnone htr
    have hrun : Sched.init.run (pre ++ Op.post k item b :: suf)
        = (Sched.init.run (pre ++ [Op.post k item b])).run suf := by
      rw [← Sched.run_ops_append]
      simp
    unfold Sched.runner_after at hw ⊢
    rw [hrun] at hw ⊢
    have hw2 : ((((Sched.init : Sched Item).run (pre ++ [Op.post k item b])).run suf).proc.inst
        k).wait_returns id = true := by
      rcases hw with hw | hw
      · exact hw
      · simpa [AsyncRunner.post_returns] using hw
    simp only [AsyncRunner.wait_returns, Bool.or_eq_true, decide_eq_true_eq] at hw2
    rcases hw2 with hw2 | hw2
    · exact Or.inl hw2
    · right
      unfold AsyncRunner.tracked at ht
      rcases ht with ⟨_, _, d⟩ | ⟨_, d, _⟩ | ⟨a, _, _⟩
      · omega
      · omega
      · rcases a with a | a
        · exact Or.inl (by simp [AsyncRunner.status, a])
        · exact Or.inr (Or.inl (by simp [AsyncRunner.status, a]))

/-- Witness of C1 amended: a post and a whole iteration of the worker, no
`clear()`; `wait(1)` can return and `status(1)` is Success. -/
theorem C1_wait_returns_released_terminal_or_cleared_witness :
    count_post_ops ([] ++ Op.post 0 () true ::
      [Op.loop_test 0, Op.pop_front 0, Op.mark_running 0, Op.store_result 0 true,
        Op.store_cursor 0]) < 2 ^ 63 ∧
    (Sched.init.run []).returned_id (Op.post 0 () true) = some (0, 1) ∧
    (Sched.runner_after ([] ++ Op.post 0 () true ::
      [Op.loop_test 0, Op.pop_front 0, Op.mark_running 0, Op.store_result 0 true,
        Op.store_cursor 0]) 0).wait_returns 1 = true ∧
    (Sched.runner_after ([] ++ Op.post 0 () true ::
      [Op.loop_test 0, Op.pop_front 0, Op.mark_running 0, Op.store_result 0 true,
        Op.store_cursor 0]) 0).status 1 = MaaStatus.Success ∧
    ((Sched.runner_after ([] ++ Op.post 0 () true ::
      [Op.loop_test 0, Op.pop_front 0, Op.mark_running 0, Op.store_result 0 true,
        Op.store_cursor 0]) 0).exit_ = true ∨
    (Sched.runner_after ([] ++ Op.post 0 () true ::
      [Op.loop_test 0, Op.pop_front 0, Op.mark_running 0, Op.store_result 0 true,
        Op.store_cursor 0]) 0).status 1 = MaaStatus.Success ∨
    (Sched.runner_after ([] ++ Op.post 0 () true ::
      [Op.loop_test 0, Op.pop_front 0, Op.mark_running 0, Op.store_result 0 true,
        Op.store_cursor 0]) 0).status 1 = MaaStatus.Failed ∨
    (∃ op ∈ ([Op.loop_test 0, Op.pop_front 0, Op.mark_running 0, Op.store_result 0 true,
        Op.store_cursor 0] : List (Op Unit)), Op.is_clear_of 0 op = true)) :=
  ⟨by decide, by decide, by decide, by decide,
    C1_wait_returns_released_terminal_or_cleared []
      [Op.loop_test 0, Op.pop_front 0, Op.mark_running 0, Op.store_result 0 true,
        Op.store_cursor 0] 0 () true 1 (by decide) (by decide) (Or.inl (by decide))⟩

/-- C10, as stated, fails in its last part: a blocking post on a fresh runner
has not returned in the state its enqueue leaves; after the three scopes of a
`clear()` it returns, on a runner that was not released, and `status(1)` is
Invalid. Besides, the counter is a static member of the class template: the
first post of another instantiation returns id 1 as well. -/
theorem C10_blocking_post_returns_invalid :
    (Sched.init : Sched Unit).returned_id (Op.post 0 () true) = some (0, 1) ∧
    (Sched.runner_after [Op.post 0 () true] 0).post_returns 1 true = false ∧
    (Sched.runner_after ops_post_clear 0).post_returns 1 true = true ∧
    (Sched.runner_after ops_post_clear 0).exit_ = false ∧
    (Sched.runner_after ops_post_clear 0).status 1 = MaaStatus.Invalid ∧
    (Sched.init : Sched Bool).returned_id (Op.post 0 true false) = some (0, 1) := by
  decide

/-- C10, amended: in every run of lock scopes from process start with fewer
than 2^63 posts, spread over any runners of one instantiation, the ids
returned are strictly positive (never `MaaInvalidId`), strictly increasing
in the order the posts took the counter, hence pairwise distinct across the
runners; in the state the enqueue of a post leaves, where a non-blocking
post returns, `status(id)` of its runner is Pending; and in every later
state up to the next status wipe of a `clear()` on that runner, where a
blocking post may return, `status(id)` is not Invalid. -/
theorem C10_ids_positive_increasing_distinct {Item : Type} (ops : List (Op Item))
    (hposts : count_post_ops ops < 2 ^ 63) :
    (∀ ki ∈ Sched.init.issued ops, 0 < ki.2 ∧ ki.2 ≠ MaaInvalidId) ∧
    ((Sched.init.issued ops).map Prod.snd).Pairwise (fun a b => a < b) ∧
    ((Sched.init.issued ops).map Prod.snd).Nodup ∧
    (∀ pre suf k item b id, ops = pre ++ Op.post k item b :: suf →
      (Sched.init.run pre).returned_id (Op.post k item b) = some (k, id) →
      (Sched.runner_after (pre ++ [Op.post k item b]) k).status id = MaaStatus.Pending ∧
      ∀ mid rest, suf = mid ++ rest → (∀ op ∈ mid, Op.is_wipe_of k op = false) →
        (Sched.runner_after (pre ++ Op.post k item b :: mid) k).status id
          ≠ MaaStatus.Invalid) := by
  have hlt : (count_post_ops ops : Int) < 2 ^ 63 := by exact_mod_cast hposts
  have i0 : (Sched.init : Sched Item).proc.cross_inst_id_ = 0 := rfl
  obtain ⟨h1, h2⟩ := Sched.issued_ops_increasing ops (Sched.init : Sched Item) Proc.init_proc_wf
    (by rw [i0]; omega)
  rw [i0] at h1
  refine ⟨?_, h2, ?_, ?_⟩
  · intro ki hki
    have := h1 ki hki
    simp only [MaaInvalidId]
    omega
  · exact h2.imp (fun h => ne_of_lt h)
  · intro pre suf k item b id hops hid
    subst hops
    obtain ⟨id2, hret, hpend, _, _, _, _⟩ := Sched.post_state pre k item b suf hposts
    rw [hid] at hret
    simp only [Option.some.injEq, Prod.mk.injEq, true_and] at hret
    subst hret
    unfold Sched.runner_after
    refine ⟨by simp [AsyncRunner.status, hpend], ?_⟩
    intro mid rest _ hmid
    have hrun : Sched.init.run (pre ++ Op.post k item b :: mid)
        = (Sched.init.run (pre ++ [Op.post k item b])).run mid := by
      rw [← Sched.run_ops_append]
      simp
    rw [hrun]
    exact Sched.run_present k id mid (Sched.init.run (pre ++ [Op.post k item b])) hmid
      (by simp [AsyncRunner.status, hpend])

/-- Witness of C10 amended: fifteen lock scopes on two runners, four of them
posts, with the scopes of two `clear()` calls in between. -/
theorem C10_ids_positive_increasing_distinct_witness :
    count_post_ops ops_two_runners < 2 ^ 63 ∧
    Sched.init.issued ops_two_runners = [(0, 1), (1, 2), (0, 3), (1, 4)] ∧
    ((∀ ki ∈ Sched.init.issued ops_two_runners, 0 < ki.2 ∧ ki.2 ≠ MaaInvalidId) ∧
    ((Sched.init.issued ops_two_runners).map Prod.snd).Pairwise (fun a b => a < b) ∧
    ((Sched.init.issued ops_two_runners).map Prod.snd).Nodup ∧
    (∀ pre suf k item b id, ops_two_runners = pre ++ Op.post k item b :: suf →
      (Sched.init.run pre).returned_id (Op.post k item b) = some (k, id) →
      (Sched.runner_after (pre ++ [Op.post k item b]) k).status id = MaaStatus.Pending ∧
      ∀ mid rest, suf = mid ++ rest → (∀ op ∈ mid, Op.is_wipe_of k op = false) →
        (Sched.runner_after (pre ++ Op.post k item b :: mid) k).status id
          ≠ MaaStatus.Invalid)) :=
  ⟨by decide, by decide, C10_ids_positive_increasing_distinct ops_two_runners (by decide)⟩

/-! ### The target size along runs of the controller -/

/-- The function `check_and_calc_target_image_size` is its first part followed
by the second assignment. -/
theorem ControllerMgr.check_and_calc_split (m : ControllerMgr) (raw : Mat) :
    m.check_and_calc_target_image_size raw =
      match m.derive_first raw with
      | none => none
      | some (Derivation.done ret m1) => some (ret, m1)
      | some (Derivation.first br m1) => (m1.derive_second raw br).map (fun m2 => (true, m2)) := by
  unfold ControllerMgr.check_and_calc_target_image_size ControllerMgr.derive_first
  dsimp only
  by_cases h1 : m.image_target_width_ ≠ 0 ∧ m.image_target_height_ ≠ 0
  · rw [if_pos h1, if_pos h1]
  · rw [if_neg h1, if_neg h1]
    by_cases h2 : m.image_target_long_side_ = 0 ∧ m.image_target_short_side_ = 0
    · rw [if_pos h2, if_pos h2]
    · rw [if_neg h2, if_neg h2]
      by_cases h3 : m.image_target_short_side_ ≠ 0
      · rw [if_pos h3, if_pos h3]
        by_cases h4 : (raw.cols : Int) > (raw.rows : Int)
        · rw [if_pos h4, if_pos h4]
          generalize to_int32 (std_round ((F64.ofInt m.image_target_short_side_).mul
            ((F64.ofInt (raw.cols : Int)).div (F64.ofInt (raw.rows : Int))))) = o
          cases o <;> rfl
        · rw [if_neg h4, if_neg h4]
          dsimp only [ControllerMgr.derive_second]
          generalize to_int32 (std_round ((F64.ofInt m.image_target_short_side_).div
            ((F64.ofInt (raw.cols : Int)).div (F64.ofInt (raw.rows : Int))))) = o
          cases o <;> rfl
      · rw [if_neg h3, if_neg h3]
        by_cases h4 : (raw.cols : Int) > (raw.rows : Int)
        · rw [if_pos h4, if_pos h4]
          dsimp only [ControllerMgr.derive_second]
          generalize to_int32 (std_round ((F64.ofInt m.image_target_long_side_).div
            ((F64.ofInt (raw.cols : Int)).div (F64.ofInt (raw.rows : Int))))) = o
          cases o <;> rfl
        · rw [if_neg h4, if_neg h4]
          generalize to_int32 (std_round ((F64.ofInt m.image_target_long_side_).mul
            ((F64.ofInt (raw.cols : Int)).div (F64.ofInt (raw.rows : Int))))) = o
          cases o <;> rfl

/-- With no `set_option` call in between, the overtaken `postproc_screenshot`
is `postproc_screenshot`. -/
theorem ControllerMgr.postproc_screenshot_cut_nil (m : ControllerMgr) (raw : Mat) :
    m.postproc_screenshot_cut raw [] = m.postproc_screenshot raw := by
  unfold ControllerMgr.postproc_screenshot_cut ControllerMgr.postproc_screenshot
  rw [ControllerMgr.check_and_calc_split]
  simp only [ControllerMgr.set_opts, List.foldl_nil]
  split
  · rfl
  · cases hd : m.derive_first raw with
    | none => rfl
    | some d =>
      cases d with
      | done ret m1 => cases ret <;> rfl
      | first br m1 =>
        simp only
        cases hs : m1.derive_second raw br with
        | none => rfl
        | some m2 => rfl

/-- With no `set_option` call in between, the overtaken dispatch of a
Screencap is `run_action`. -/
theorem ControllerMgr.run_action_cut_nil (m : ControllerMgr) (drv : Driver) (id : Int) :
    m.run_action_cut drv id [] = m.run_action drv id Action.screencap := by
  unfold ControllerMgr.run_action_cut ControllerMgr.run_action
  simp only [ControllerMgr.perform, ControllerMgr.postproc_screenshot_cut_nil]

theorem ControllerMgr.check_and_calc_total (m : ControllerMgr) (raw : Mat)
    (hw : 0 < raw.cols) (hh : 0 < raw.rows) (hI : m.sides_ok)
    (hpos : (m.image_target_width_ = 0 ∨ m.image_target_height_ = 0) →
      m.image_target_short_side_ = 0 → m.image_target_long_side_ ≠ 0 →
      ((max raw.cols raw.rows : Nat) : Int) ≤
        m.image_target_long_side_ * ((min raw.cols raw.rows : Nat) : Int))
    (hrange : (m.image_target_width_ = 0 ∨ m.image_target_height_ = 0) →
      m.image_target_short_side_ ≠ 0 →
      m.image_target_short_side_ * ((max raw.cols raw.rows : Nat) : Int) ≤
        (2 ^ 31 - 1) * ((min raw.cols raw.rows : Nat) : Int)) :
    ∃ r, m.check_and_calc_target_image_size raw = some r := by
  obtain ⟨i1, i2, i3, i4, i5⟩ := hI
  by_cases hset : m.image_target_width_ ≠ 0 ∧ m.image_target_height_ ≠ 0
  · exact ⟨(true, m), by simp [ControllerMgr.check_and_calc_target_image_size, hset]⟩
  · have hz : m.image_target_width_ = 0 ∧ m.image_target_height_ = 0 := by
      by_cases h0 : m.image_target_width_ = 0
      · exact ⟨h0, i1.mp h0⟩
      · by_cases h1 : m.image_target_height_ = 0
        · exact absurd (i1.mpr h1) h0
        · exact absurd ⟨h0, h1⟩ hset
    by_cases hno : m.image_target_long_side_ = 0 ∧ m.image_target_short_side_ = 0
    · refine ⟨(false, m), ?_⟩
      unfold ControllerMgr.check_and_calc_target_image_size
      rw [if_neg hset, if_pos hno]
    · by_cases hs : m.image_target_short_side_ = 0
      · have hl : m.image_target_long_side_ ≠ 0 := fun h => hno ⟨h, hs⟩
        have hc := hpos (Or.inl hz.1) hs hl
        have hl2 : m.image_target_long_side_ = ((m.image_target_long_side_.toNat : Nat) : Int) :=
          (Int.toNat_of_nonneg i2).symm
        rw [hl2] at hc
        obtain ⟨tw, th, _, _, h⟩ := m.derived_positive raw hw hh hz
          (Or.inr ⟨m.image_target_long_side_.toNat, hs, hl2, by omega, by omega,
            by exact_mod_cast hc⟩)
        exact ⟨_, h⟩
      · have hc := hrange (Or.inl hz.1) hs
        have hs2 : m.image_target_short_side_ =
            ((m.image_target_short_side_.toNat : Nat) : Int) :=
          (Int.toNat_of_nonneg i4).symm
        rw [hs2] at hc
        obtain ⟨tw, th, _, _, h⟩ := m.derived_positive raw hw hh hz
          (Or.inl ⟨m.image_target_short_side_.toNat, hs2, by omega, by
            have h31 : ((2 ^ 31 - 1 : Nat) : Int) = 2 ^ 31 - 1 := by norm_num
            have : ((m.image_target_short_side_.toNat * max raw.cols raw.rows : Nat) : Int) ≤
                (((2 ^ 31 - 1) * min raw.cols raw.rows : Nat) : Int) := by
              rw [Nat.cast_mul, Nat.cast_mul, h31]
              exact hc
            exact Int.ofNat_le.mp this⟩)
        exact ⟨_, h⟩

theorem ControllerMgr.postproc_ok (m : ControllerMgr) (raw : Mat) (hI : m.sides_ok)
    (hpos : (m.image_target_width_ = 0 ∨ m.image_target_height_ = 0) →
      m.image_target_short_side_ = 0 → m.image_target_long_side_ ≠ 0 →
      ((max raw.cols raw.rows : Nat) : Int) ≤
        m.image_target_long_side_ * ((min raw.cols raw.rows : Nat) : Int))
    (hrange : (m.image_target_width_ = 0 ∨ m.image_target_height_ = 0) →
      m.image_target_short_side_ ≠ 0 →
      m.image_target_short_side_ * ((max raw.cols raw.rows : Nat) : Int) ≤
        (2 ^ 31 - 1) * ((min raw.cols raw.rows : Nat) : Int)) :
    ∃ ret m2, m.postproc_screenshot raw = some (ret, m2) ∧ m2.sides_ok := by
  have hex : ∃ r, m.postproc_screenshot raw = some r := by
    unfold ControllerMgr.postproc_screenshot
    cases he : raw.empty with
    | true => exact ⟨_, rfl⟩
    | false =>
      obtain ⟨hw, hh⟩ := Mat.empty_false raw he
      obtain ⟨⟨b, m1⟩, hc⟩ := m.check_and_calc_total raw hw hh hI hpos hrange
      rw [hc]
      cases b <;> exact ⟨_, rfl⟩
  obtain ⟨⟨ret, m2⟩, h⟩ := hex
  exact ⟨ret, m2, h, m.postproc_sides_ok raw hI hpos ret m2 h⟩

theorem ControllerMgr.perform_ok (m : ControllerMgr) (drv : Driver) (action : Action)
    (hI : m.sides_ok)
    (hpos : action = Action.screencap →
      (m.image_target_width_ = 0 ∨ m.image_target_height_ = 0) →
      m.image_target_short_side_ = 0 → m.image_target_long_side_ ≠ 0 →
      ((max drv.screencap.cols drv.screencap.rows : Nat) : Int) ≤
        m.image_target_long_side_ * ((min drv.screencap.cols drv.screencap.rows : Nat) : Int))
    (hrange : action = Action.screencap →
      (m.image_target_width_ = 0 ∨ m.image_target_height_ = 0) →
      m.image_target_short_side_ ≠ 0 →
      m.image_target_short_side_ * ((max drv.screencap.cols drv.screencap.rows : Nat) : Int) ≤
        (2 ^ 31 - 1) * ((min drv.screencap.cols drv.screencap.rows : Nat) : Int)) :
    ∃ ret m2, m.perform drv action = some (ret, m2) ∧ m2.sides_ok := by
  cases action with
  | connect => exact ⟨_, _, rfl, ControllerMgr.sides_ok_congr m _ rfl rfl rfl rfl hI⟩
  | click x y => exact ⟨_, _, rfl, ControllerMgr.sides_ok_congr m _ rfl rfl rfl rfl hI⟩
  | swipe steps => exact ⟨_, _, rfl, ControllerMgr.sides_ok_congr m _ rfl rfl rfl rfl hI⟩
  | press_key k => exact ⟨_, _, rfl, ControllerMgr.sides_ok_congr m _ rfl rfl rfl rfl hI⟩
  | screencap =>
    exact ControllerMgr.postproc_ok (m.called [Call.screencap]) drv.screencap
      (ControllerMgr.sides_ok_congr m _ rfl rfl rfl rfl hI) (hpos rfl) (hrange rfl)
  | start_app pkg =>
    obtain ⟨_, j2, j3, j4, j5⟩ := hI
    exact ⟨_, _, rfl, ⟨fun _ => rfl, fun _ => rfl⟩, j2, j3, j4, j5⟩
  | stop_app pkg =>
    obtain ⟨_, j2, j3, j4, j5⟩ := hI
    exact ⟨_, _, rfl, ⟨fun _ => rfl, fun _ => rfl⟩, j2, j3, j4, j5⟩

theorem ControllerMgr.run_action_ok (m : ControllerMgr) (drv : Driver) (id : Int)
    (action : Action) (hI : m.sides_ok)
    (hpos : action = Action.screencap →
      (m.image_target_width_ = 0 ∨ m.image_target_height_ = 0) →
      m.image_target_short_side_ = 0 → m.image_target_long_side_ ≠ 0 →
      ((max drv.screencap.cols drv.screencap.rows : Nat) : Int) ≤
        m.image_target_long_side_ * ((min drv.screencap.cols drv.screencap.rows : Nat) : Int))
    (hrange : action = Action.screencap →
      (m.image_target_width_ = 0 ∨ m.image_target_height_ = 0) →
      m.image_target_short_side_ ≠ 0 →
      m.image_target_short_side_ * ((max drv.screencap.cols drv.screencap.rows : Nat) : Int) ≤
        (2 ^ 31 - 1) * ((min drv.screencap.cols drv.screencap.rows : Nat) : Int)) :
    ∃ ret m2, m.run_action drv id action = some (ret, m2) ∧ m2.sides_ok := by
  by_cases hn : id ∈ m.post_ids_
  · obtain ⟨ret, m3, hp, hI3⟩ := ControllerMgr.perform_ok
      (({ m with post_ids_ := m.post_ids_.erase id } : ControllerMgr).called
        [Call.notify MaaMsg.Controller_Action_Started id]) drv action
      (ControllerMgr.sides_ok_congr m _ rfl rfl rfl rfl hI) hpos hrange
    refine ⟨ret, m3.called [Call.notify
      (if ret then MaaMsg.Controller_Action_Completed else MaaMsg.Controller_Action_Failed) id],
      ?_, ControllerMgr.sides_ok_congr m3 _ rfl rfl rfl rfl hI3⟩
    unfold ControllerMgr.run_action
    simp only [hn, decide_True, if_true, hp]
  · obtain ⟨ret, m3, hp, hI3⟩ := ControllerMgr.perform_ok
      ({ m with post_ids_ := m.post_ids_.erase id } : ControllerMgr) drv action
      (ControllerMgr.sides_ok_congr m _ rfl rfl rfl rfl hI) hpos hrange
    refine ⟨ret, m3, ?_, hI3⟩
    unfold ControllerMgr.run_action
    simp only [hn, decide_False, Bool.false_eq_true, if_false, hp]

/-- A step of an admissible run is defined and keeps the invariant. -/
theorem ControllerMgr.step_ok (m : ControllerMgr) (e : CtrlStep) (hI : m.sides_ok)
    (hp : e.positive_side = true) (hu : e.unbroken = true)
    (hs : e.scales_to_positive m = true) (hr : e.scales_in_range m = true) :
    ∃ m2, m.step e = some m2 ∧ m2.sides_ok := by
  cases e with
  | set_opt key value val_size =>
    refine ⟨_, rfl, ?_⟩
    obtain ⟨i1, i2, i3, i4, i5⟩ := hI
    cases key with
    | ScreenshotTargetLongSide =>
      simp only [CtrlStep.positive_side, decide_eq_true_eq] at hp
      simp only [ControllerMgr.set_opt, ControllerMgr.set_image_target_long_side,
        ControllerMgr.clear_target_image_size]
      split
      · exact ⟨i1, i2, i3, i4, i5⟩
      · unfold ControllerMgr.sides_ok
        dsimp only
        refine ⟨⟨fun _ => rfl, fun _ => rfl⟩, ?_, ?_, ?_, ?_⟩ <;> omega
    | ScreenshotTargetShortSide =>
      simp only [CtrlStep.positive_side, decide_eq_true_eq] at hp
      simp only [ControllerMgr.set_opt, ControllerMgr.set_image_target_short_side,
        ControllerMgr.clear_target_image_size]
      split
      · exact ⟨i1, i2, i3, i4, i5⟩
      · unfold ControllerMgr.sides_ok
        dsimp only
        refine ⟨⟨fun _ => rfl, fun _ => rfl⟩, ?_, ?_, ?_, ?_⟩ <;> omega
    | DefaultAppPackageEntry => exact ⟨i1, i2, i3, i4, i5⟩
    | DefaultAppPackage => exact ⟨i1, i2, i3, i4, i5⟩
    | other k => exact ⟨i1, i2, i3, i4, i5⟩
  | dispatch drv id action =>
    obtain ⟨ret, m2, h, hI2⟩ := m.run_action_ok drv id action hI
      (fun ha => by
        subst ha
        simp only [CtrlStep.scales_to_positive, decide_eq_true_eq] at hs
        exact hs)
      (fun ha => by
        subst ha
        simp only [CtrlStep.scales_in_range, decide_eq_true_eq] at hr
        exact hr)
    exact ⟨m2, by simp [ControllerMgr.step, h], hI2⟩
  | dispatch_cut drv id calls => simp [CtrlStep.unbroken] at hu

theorem ControllerMgr.steps_ok (es : List CtrlStep) :
    ∀ m : ControllerMgr, m.sides_ok → m.admissible es = true →
      ∃ m2, m.steps es = some m2 ∧ m2.sides_ok := by
  induction es with
  | nil =>
    intro m hI _
    exact ⟨m, rfl, hI⟩
  | cons e es ih =>
    intro m hI ha
    simp only [ControllerMgr.admissible, Bool.and_eq_true] at ha
    obtain ⟨⟨⟨⟨hp, hu⟩, hs⟩, hr⟩, hrest⟩ := ha
    obtain ⟨m1, hstep, hI1⟩ := m.step_ok e hI hp hu hs hr
    rw [hstep] at hrest
    obtain ⟨m2, h2, hI2⟩ := ih m1 hI1 hrest
    exact ⟨m2, by simp [ControllerMgr.steps, hstep, h2], hI2⟩

set_option maxRecDepth 2000 in
/-- C7, as stated, fails: after `set_option(ScreenshotTargetLongSide, 1)`,
`check_and_calc_target_image_size` on a 1x3 image returns true with
`target_w = 0` (1 * 1 / 3 rounds to 0) and `target_h = 1`, and this is the
state in which the dispatch of the Screencap leaves the controller. With
short side 720 and a 1920x1080 image, a `set_option` call that runs between
the assignment of the width (1280) and that of the height resets both, and
the dispatch leaves (0, 720). With short side 1500000000 and a 1920x1080
image the scaled width is beyond `INT_MAX` and the conversion to `int` is
undefined. -/
theorem C7_long_side_rounds_short_side_to_zero :
    (with_long_side 1).image_target_long_side_ = 1 ∧
    ((with_long_side 1).check_and_calc_target_image_size ⟨1, 3⟩).map
      (fun r => (r.1, r.2.image_target_width_, r.2.image_target_height_))
        = some (true, 0, 1) ∧
    (ControllerMgr.init.steps run_long_side_1).map
      (fun m => (m.image_target_width_, m.image_target_height_)) = some (0, 1) ∧
    (ControllerMgr.init.steps run_set_option_inside_screencap).map
      (fun m => (m.image_target_width_, m.image_target_height_)) = some (0, 720) ∧
    (ControllerMgr.init.steps run_short_side_too_long).isNone = true := by
  decide

/-- C7, amended: every run from the initial state made of `set_option` calls
with positive side values and of dispatched actions, in which no `set_option`
call runs while an action is being dispatched, and in which every Screencap
dispatched while the target size is to be derived has an image with
`s * max(w,h) / min(w,h)` at most `INT_MAX` for the short side `s`, or
`max(w,h) <= l * min(w,h)` for the long side `l` (the scaled shorter side is
at least 1), leads to a controller state, and in that state `target_w == 0`
if and only if `target_h == 0`. -/
theorem C7_target_sides_zero_together (es : List CtrlStep)
    (hadm : ControllerMgr.init.admissible es = true) :
    ∃ m, ControllerMgr.init.steps es = some m ∧
      (m.image_target_width_ = 0 ↔ m.image_target_height_ = 0) := by
  have hI : ControllerMgr.init.sides_ok := by
    unfold ControllerMgr.sides_ok
    simp [ControllerMgr.init]
  obtain ⟨m, h, hI2⟩ := ControllerMgr.steps_ok es _ hI hadm
  exact ⟨m, h, hI2.1⟩

/-- Witness of C7 amended: a run that calibrates, invalidates by StopApp and
calibrates again in portrait; it ends with the target size (720, 1280). -/
theorem C7_target_sides_zero_together_witness :
    ControllerMgr.init.admissible run_recalibrate = true ∧
    (ControllerMgr.init.steps run_recalibrate).map
      (fun m => (m.image_target_width_, m.image_target_height_)) = some (720, 1280) ∧
    (∃ m, ControllerMgr.init.steps run_recalibrate = some m ∧
      (m.image_target_width_ = 0 ↔ m.image_target_height_ = 0)) :=
  ⟨by decide, by decide, C7_target_sides_zero_together run_recalibrate (by decide)⟩

end Maa
